import Mathlib

open Real

/-!
Verification development for the dxf-viewer-canvas repository.

The JavaScript source is shallowly embedded in Lean 4:

* floating-point numbers are modelled by exact reals (`ℝ`) where the code
  does trigonometry, and by rationals (`ℚ`) in the purely combinatorial
  algorithms so that concrete runs can be evaluated by `decide`;
* `Math.hypot(dx, dy) < tol` comparisons between non-negative quantities are
  represented by the equivalent squared comparison `dx^2 + dy^2 < tol^2`
  whenever the embedding must stay computable (both sides are non-negative,
  and `Real.sqrt` is strictly monotone on non-negatives, so this is an exact
  re-expression, not an approximation);
* JavaScript objects become structures, `null`/`undefined` becomes `Option`,
  and the mutable instance state of `DXFParser` is threaded explicitly.

Each section names the source file and lines it embeds.
-/

/-- A 2-D point with real coordinates (`{x, y}` object in the source). -/
structure Pt where
  x : ℝ
  y : ℝ

/-- JavaScript `Math.atan2 y x`, modelled as the argument of the complex
number `x + y*I` (both return the angle of `(x, y)` in `(-π, π]`). -/
noncomputable def atan2 (y x : ℝ) : ℝ := Complex.arg ⟨x, y⟩

/-- JavaScript `Math.hypot dx dy`. -/
noncomputable def hypot (dx dy : ℝ) : ℝ := Real.sqrt (dx ^ 2 + dy ^ 2)

namespace DXFParser

/-- Result record of `DXFParser.bulgeToArc` (src/dxf-parser.js:933-941).
`startAngle` and `endAngle` are stored in degrees, `theta` in radians,
exactly as in the source. -/
structure Arc where
  cx : ℝ
  cy : ℝ
  radius : ℝ
  startAngle : ℝ
  endAngle : ℝ
  counterClockwise : Bool
  theta : ℝ

/-- Signed central angle `theta = 4 * Math.atan(bulge)` (src/dxf-parser.js:895). -/
noncomputable def bulgeTheta (bulge : ℝ) : ℝ := 4 * Real.arctan bulge

/-- Chord length `Math.hypot(dx, dy)` (src/dxf-parser.js:899). -/
noncomputable def chord (p1 p2 : Pt) : ℝ := hypot (p2.x - p1.x) (p2.y - p1.y)

/-- Radius `chord / (2 * Math.sin(halfThetaAbs))` (src/dxf-parser.js:905). -/
noncomputable def bulgeRadius (p1 p2 : Pt) (bulge : ℝ) : ℝ :=
  chord p1 p2 / (2 * Real.sin (|bulgeTheta bulge| / 2))

/-- Offset `h = radius * Math.cos(halfThetaAbs)` from the chord midpoint to
the center (src/dxf-parser.js:919). -/
noncomputable def bulgeH (p1 p2 : Pt) (bulge : ℝ) : ℝ :=
  bulgeRadius p1 p2 bulge * Real.cos (|bulgeTheta bulge| / 2)

/-- Side selector `s = bulge >= 0 ? 1 : -1` (src/dxf-parser.js:922). -/
noncomputable def bulgeSign (bulge : ℝ) : ℝ := if 0 ≤ bulge then 1 else -1

/-- Arc center: chord midpoint plus `h * s` along the unit left
perpendicular `(-dy/chord, dx/chord)` of the chord (src/dxf-parser.js:908-925). -/
noncomputable def bulgeCenter (p1 p2 : Pt) (bulge : ℝ) : Pt :=
  let dx := p2.x - p1.x
  let dy := p2.y - p1.y
  let ch := chord p1 p2
  let h := bulgeH p1 p2 bulge
  let s := bulgeSign bulge
  { x := (p1.x + p2.x) / 2 + (-dy / ch) * h * s
    y := (p1.y + p2.y) / 2 + (dx / ch) * h * s }

/-- `DXFParser.bulgeToArc(p1, p2, bulge)` (src/dxf-parser.js:889-942).
Returns `none` (the source returns `null`) for near-zero bulge or a
degenerate chord; otherwise the arc record with angles in degrees. -/
noncomputable def bulgeToArc (p1 p2 : Pt) (bulge : ℝ) : Option Arc :=
  if |bulge| < 1e-12 then none
  else if chord p1 p2 < 1e-12 then none
  else
    let theta := bulgeTheta bulge
    let c := bulgeCenter p1 p2 bulge
    let startRad := atan2 (p1.y - c.y) (p1.x - c.x)
    let endRad := startRad + theta
    some
      { cx := c.x
        cy := c.y
        radius := |bulgeRadius p1 p2 bulge|
        startAngle := startRad * 180 / π
        endAngle := endRad * 180 / π
        counterClockwise := if 0 < theta then true else false
        theta := theta }

end DXFParser

/-- Vertex record used by the loop-extraction and area code of app.js:
`{x, y, bulge, radius?, theta?}`. -/
structure Vtx (α : Type) where
  x : α
  y : α
  bulge : α
  radius : Option α := none
  theta : Option α := none
deriving DecidableEq

namespace DXFViewerApp

/-- One iteration of the area loop of `calculateGeometricArea`
(src/app.js:1877-1901): the translation-stabilized shoelace contribution of
the pair `(p1, p2)` plus the bulge/arc correction.  In the exact-real model
the `isFinite(arc.radius)` test of the source is always true. -/
noncomputable def geomAreaTerm (x0 y0 : ℝ) (p : Vtx ℝ × Vtx ℝ) : ℝ :=
  let p1 := p.1
  let p2 := p.2
  let shoelace := (p1.x - x0) * (p2.y - y0) - (p2.x - x0) * (p1.y - y0)
  let bulge := p1.bulge
  let arcCorr :=
    if 1e-12 < |bulge| then
      match DXFParser.bulgeToArc ⟨p1.x, p1.y⟩ ⟨p2.x, p2.y⟩ bulge with
      | some arc =>
          2 * (1 / 2 * arc.radius ^ 2
            * (DXFParser.bulgeTheta bulge - Real.sin (DXFParser.bulgeTheta bulge)))
      | none => 0
    else 0
  shoelace + arcCorr

/-- `DXFViewerApp.calculateGeometricArea(vertices)` (src/app.js:1868-1904).
The source iterates `i` from `0` to `n-1`, pairing `vertices[i]` with
`vertices[(i+1) % n]`; this cyclic pairing is `vs.zip (vs.rotate 1)`. -/
noncomputable def calculateGeometricArea (vs : List (Vtx ℝ)) : ℝ :=
  if vs.length < 3 then 0
  else
    match vs with
    | [] => 0
    | v0 :: _ =>
      let area2 := ((vs.zip (vs.rotate 1)).map (geomAreaTerm v0.x v0.y)).sum
      |area2 / 2|

/-- The standard signed shoelace sum (twice the signed area) of the claim:
`Σ (x_i * y_{i+1} - x_{i+1} * y_i)` over the cyclic vertex pairs. -/
def shoelaceSum (vs : List (Vtx ℝ)) : ℝ :=
  ((vs.zip (vs.rotate 1)).map (fun p => p.1.x * p.2.y - p.2.x * p.1.y)).sum

/-- Vertex translation by a fixed offset (used to state translation
stability). -/
def translateVtx (tx ty : ℝ) (v : Vtx ℝ) : Vtx ℝ :=
  { v with x := v.x + tx, y := v.y + ty }

end DXFViewerApp

namespace OSNAPSystem

/-- Snap-point types of the OSNAP system (src/osnap.js:9-18). -/
inductive SnapType
  | endpoint
  | midpoint
  | center
  | quadrant
  | intersection
  | perpendicular
  | node
  | nearest
deriving DecidableEq

/-- The special (priority) snap types (src/osnap.js:37). -/
def specialSnaps : List SnapType :=
  [.endpoint, .midpoint, .center, .quadrant, .intersection, .perpendicular, .node]

/-- One snap candidate as examined by the selection loop of `findSnapPoint`
(src/osnap.js:45-70).  The loop only reads the candidate's type and its
screen-space distance from the cursor, so a candidate is modelled by those
two data; `dist` stands for the computed `Math.sqrt(...)` screen distance. -/
structure SnapCandidate where
  type : SnapType
  dist : ℚ
deriving DecidableEq

/-- The body of the candidate loop of `findSnapPoint` (src/osnap.js:54-69).
In the source `closestDist` always equals `closestSnap`'s stored distance
(they are updated together, starting from `null` / `Infinity`), so the
state is just the current `closestSnap`. -/
def findSnapPointStep (tol : ℚ) (acc : Option SnapCandidate) (c : SnapCandidate) :
    Option SnapCandidate :=
  if c.dist < tol then
    match acc with
    | none => some c
    | some cs =>
      if c.dist < cs.dist then
        if cs.type ∈ specialSnaps ∧ c.type = .nearest then some cs
        else some c
      else
        if c.type ≠ .nearest ∧ cs.type = .nearest then some c
        else some cs
  else acc

/-- `OSNAPSystem.findSnapPoint` (src/osnap.js:29-74), abstracted over the
per-entity candidate enumeration: the loop scans all candidates in order and
returns the selected snap (or `none`). -/
def findSnapPoint (cands : List SnapCandidate) (tol : ℚ) : Option SnapCandidate :=
  cands.foldl (findSnapPointStep tol) none

end OSNAPSystem

namespace DXFColors

/-- JavaScript `Math.round` on the exact rationals produced by `hslToRgb`:
round half away from zero upwards, i.e. `⌊x + 1/2⌋`. -/
def jround (x : ℚ) : ℤ := ⌊x + 1 / 2⌋

/-- The `hue2rgb` helper of src/dxf-parser.js:994-1001. -/
def hue2rgb (p q t : ℚ) : ℚ :=
  let t1 := if t < 0 then t + 1 else t
  let t2 := if t1 > 1 then t1 - 1 else t1
  if t2 < 1 / 6 then p + (q - p) * 6 * t2
  else if t2 < 1 / 2 then q
  else if t2 < 2 / 3 then p + (q - p) * (2 / 3 - t2) * 6
  else p

/-- `hslToRgb` of src/dxf-parser.js:988-1011 (exact rational arithmetic). -/
def hslToRgb (h s l : ℚ) : ℤ × ℤ × ℤ :=
  if s = 0 then
    (jround (l * 255), jround (l * 255), jround (l * 255))
  else
    let q := if l < 1 / 2 then l * (1 + s) else l + s - l * s
    let p := 2 * l - q
    (jround (hue2rgb p q (h + 1 / 3) * 255),
     jround (hue2rgb p q h * 255),
     jround (hue2rgb p q (h - 1 / 3) * 255))

/-- The 26 hand-written ACI palette entries (src/dxf-parser.js:950-978). -/
def ACI_BASE : List (ℤ × ℤ × ℤ) :=
  [(0, 0, 0), (255, 0, 0), (255, 255, 0), (0, 255, 0), (0, 255, 255), (0, 0, 255),
   (255, 0, 255), (255, 255, 255), (128, 128, 128), (192, 192, 192), (255, 0, 0),
   (255, 127, 127), (165, 0, 0), (165, 82, 82), (127, 0, 0), (127, 63, 63),
   (76, 0, 0), (76, 38, 38), (38, 0, 0), (38, 19, 19), (255, 63, 0),
   (255, 159, 127), (165, 41, 0), (165, 103, 82), (127, 31, 0), (127, 79, 63)]

/-- The full 256-entry palette: the base entries plus the interpolation loop
of src/dxf-parser.js:981-986 (`for i = 26; i < 256`). -/
def ACI_COLORS : List (ℤ × ℤ × ℤ) :=
  ACI_BASE ++ (List.range' 26 230).map (fun i =>
    let hue : ℕ := (i - 10) % 240
    let sat : ℕ := ((i - 10) / 240) * 25 + 100
    let light : ℕ := 50 + (i % 2) * 25
    hslToRgb ((hue : ℚ) / 240) ((sat : ℚ) / 100) ((light : ℚ) / 100))

/-- `aciToRgb` (src/dxf-parser.js:1013-1018); `none` models the `null`
returned for BYLAYER. -/
def aciToRgb (colorIndex : ℤ) : Option (ℤ × ℤ × ℤ) :=
  if colorIndex = 256 then none
  else if colorIndex = 0 then some (0, 0, 0)
  else if colorIndex < 0 ∨ (ACI_COLORS.length : ℤ) ≤ colorIndex then some (255, 255, 255)
  else some (ACI_COLORS.getD colorIndex.toNat (0, 0, 0))

end DXFColors

/-- A 2-D point over an arbitrary ordered field (used at `ℚ` so concrete
runs can be decided, and at `ℝ` inside the area pipeline). -/
structure Pt2 (α : Type) where
  x : α
  y : α
deriving DecidableEq

/-- An atomic segment as produced by `decomposeEntity` (src/app.js:1794-1865):
endpoints, bulge, and the optional analytic arc data `radius`/`theta`. -/
structure Seg (α : Type) where
  p1 : Pt2 α
  p2 : Pt2 α
  bulge : α
  radius : Option α := none
  theta : Option α := none
deriving DecidableEq

namespace DXFViewerApp

variable {α : Type} [LinearOrderedCommRing α]

/-- Endpoint matching `Math.hypot(p1.x-p2.x, p1.y-p2.y) < tolerance`
(src/app.js:1701), expressed with squared quantities: both sides are
non-negative, so `hypot < tol` iff `dist² < tol²`; `tol2` is the squared
tolerance. -/
def ptMatchB (tol2 : α) (p q : Pt2 α) : Bool :=
  decide ((p.x - q.x) ^ 2 + (p.y - q.y) ^ 2 < tol2)

/-- Check that `s2` is the reverse of `s1` (src/app.js:1715). -/
def isRevPair (tol2 : α) (s1 s2 : Seg α) : Bool :=
  ptMatchB tol2 s1.p1 s2.p2 && ptMatchB tol2 s1.p2 s2.p1

/-- The inner search of the bridge-pruning pass (src/app.js:1708-1721):
first `j > i`, not yet used, whose segment is the reverse of segment `i`. -/
def firstRev (segs : List (Seg α)) (tol2 : α) (used : List ℕ) (i : ℕ) : Option ℕ :=
  (List.range segs.length).find? (fun j =>
    decide (i < j) && !(decide (j ∈ used)) &&
    (match segs.get? i, segs.get? j with
     | some s1, some s2 => isRevPair tol2 s1 s2
     | _, _ => false))

/-- One iteration of the outer pruning loop (src/app.js:1706-1722). -/
def pruneStep (segs : List (Seg α)) (tol2 : α) (used : List ℕ) (i : ℕ) : List ℕ :=
  if i ∈ used then used
  else
    match firstRev segs tol2 used i with
    | some j => List.insert j (List.insert i used)
    | none => used

/-- The full bridge-pruning pass of `extractAllLoops` (src/app.js:1703-1722):
the set of segment indices marked used before chain building starts. -/
def pruneBridges (segs : List (Seg α)) (tol2 : α) : List ℕ :=
  (List.range segs.length).foldl (pruneStep segs tol2) []

/-- Reversed segment as pushed by the chain builder (src/app.js:1749-1755). -/
def revSeg (s : Seg α) : Seg α :=
  { p1 := s.p2, p2 := s.p1, bulge := -s.bulge, radius := s.radius,
    theta := s.theta.map (fun t => -t) }

/-- The inner scan of the chain builder (src/app.js:1736-1761): first unused
segment not already in the current loop whose start (or, reversing it, end)
matches the current tip. -/
def findNextSeg (tol2 : α) (used : List ℕ) (loopIdx : List ℕ) (tip : Pt2 α) :
    List (ℕ × Seg α) → Option (ℕ × Seg α)
  | [] => none
  | (j, seg) :: rest =>
    if j ∈ used ∨ j ∈ loopIdx then findNextSeg tol2 used loopIdx tip rest
    else if ptMatchB tol2 tip seg.p1 then some (j, seg)
    else if ptMatchB tol2 tip seg.p2 then some (j, revSeg seg)
    else findNextSeg tol2 used loopIdx tip rest

/-- The `while (true)` chain-extension loop (src/app.js:1734-1769), with fuel
bounded by the segment count (each iteration consumes a fresh segment index,
so `segs.length` iterations always suffice; the fuel-0 branch is
unreachable when called with that fuel). -/
def buildChain (segs : List (Seg α)) (tol2 : α) (used : List ℕ) (first : Seg α) :
    ℕ → List (Seg α) → List ℕ → Pt2 α → List (Seg α) × List ℕ × Bool
  | 0, ordered, idxs, _ => (ordered, idxs, false)
  | fuel + 1, ordered, idxs, tip =>
    match findNextSeg tol2 used idxs tip segs.enum with
    | none => (ordered, idxs, false)
    | some (j, seg) =>
      if ptMatchB tol2 seg.p2 first.p1 then (ordered ++ [seg], idxs ++ [j], true)
      else buildChain segs tol2 used first fuel (ordered ++ [seg]) (idxs ++ [j]) seg.p2

/-- A closed chain's segments become the loop's vertex list
(src/app.js:1772-1778). -/
def segToVtx (s : Seg α) : Vtx α :=
  { x := s.p1.x, y := s.p1.y, bulge := s.bulge, radius := s.radius, theta := s.theta }

/-- One iteration of the loop-extraction scan (src/app.js:1725-1782). -/
def extractStep (segs : List (Seg α)) (tol2 : α) (acc : List ℕ × List (List (Vtx α)))
    (i : ℕ) : List ℕ × List (List (Vtx α)) :=
  if i ∈ acc.1 then acc
  else
    match segs.get? i with
    | none => acc
    | some s0 =>
      let r := buildChain segs tol2 acc.1 s0 segs.length [s0] [i] s0.p2
      if r.2.2 then (r.2.1.foldl (fun u idx => u.insert idx) acc.1, acc.2 ++ [r.1.map segToVtx])
      else acc

/-- Segment-level core of `DXFViewerApp.extractAllLoops` (src/app.js:1686-1785)
after entity decomposition: prune reverse-pair bridges, then greedily extract
closed chains.  `tol2` is the squared matching tolerance (the source default
`0.0001` becomes `1e-8`). -/
def extractAllLoopsSegs (segs : List (Seg α)) (tol2 : α) : List (List (Vtx α)) :=
  if segs.isEmpty then []
  else
    ((List.range segs.length).foldl (extractStep segs tol2) (pruneBridges segs tol2, [])).2

/-- Reverse-pair relation between two segment indices of the list: the claim's
"s1.p1 matches s2.p2 and s1.p2 matches s2.p1 within the tolerance" for
distinct segments. -/
def revAt (segs : List (Seg α)) (tol2 : α) (i j : ℕ) : Prop :=
  i ≠ j ∧ ∃ si sj, segs.get? i = some si ∧ segs.get? j = some sj ∧
    isRevPair tol2 si sj = true

/-- Vertex matching of `decomposeComplexLoops` (src/app.js:1618), squared
form of `Math.hypot(...) < tolerance` with `tol2` the squared tolerance. -/
def vtxMatchB (tol2 : α) (a b : Vtx α) : Bool :=
  decide ((a.x - b.x) ^ 2 + (a.y - b.y) ^ 2 < tol2)

/-- The pinch-point scan of `decomposeComplexLoops` (src/app.js:1627-1671):
first pair `i < j` of within-tolerance vertices, in the source's scan order. -/
def findPinch (tol2 : α) (l : List (Vtx α)) : Option (ℕ × ℕ) :=
  (List.range l.length).findSome? (fun i =>
    (((List.range l.length).filter (fun j => i < j)).find? (fun j =>
      match l.get? i, l.get? j with
      | some vi, some vj => vtxMatchB tol2 vi vj
      | _, _ => false)).map (fun j => (i, j)))

/-- The `while (foundSplit)` loop of `decomposeComplexLoops`
(src/app.js:1620-1672), with fuel: every split removes at least one vertex,
so `length` iterations suffice. -/
def decomposeGo (tol2 : α) : ℕ → List (Vtx α) → List (List (Vtx α)) → List (List (Vtx α))
  | 0, current, simpleLoops =>
    simpleLoops ++ (if 3 ≤ current.length then [current] else [])
  | fuel + 1, current, simpleLoops =>
    match findPinch tol2 current with
    | some (i, j) =>
        decomposeGo tol2 fuel (current.take i ++ current.drop j)
          (simpleLoops ++ [(current.drop i).take (j - i)])
    | none => simpleLoops ++ (if 3 ≤ current.length then [current] else [])

/-- `DXFViewerApp.decomposeComplexLoops` (src/app.js:1611-1680); `tol2` is
the squared form of the source's tolerance `0.15`. -/
def decomposeComplexLoops (tol2 : α) (vertices : List (Vtx α)) : List (List (Vtx α)) :=
  if vertices.length < 3 then []
  else decomposeGo tol2 vertices.length vertices []

end DXFViewerApp

namespace DXFViewerApp

/-- Segment `A→B` of the C3 counterexample (integer coordinates so concrete
runs reduce in the kernel; the squared tolerance 1 plays the role of the
source's default tolerance relative to this coordinate scale). -/
def c3fwd : Seg ℤ := { p1 := ⟨0, 0⟩, p2 := ⟨4, 0⟩, bulge := 0 }

/-- Segment `B→A` of the C3 counterexample. -/
def c3rev : Seg ℤ := { p1 := ⟨4, 0⟩, p2 := ⟨0, 0⟩, bulge := 0 }

end DXFViewerApp

namespace DXFViewerApp

variable {α : Type} [LinearOrderedCommRing α]

/-- Invariant of the pruning scan: every already-used index was paired, and
the smaller index of its pair has been processed. -/
def PruneInv (segs : List (Seg α)) (tol2 : α) (U : List ℕ) (m : ℕ) : Prop :=
  ∀ p ∈ U, ∃ q, revAt segs tol2 p q ∧ min p q < m

/-- Progress of the pruning scan: every reverse pair whose smaller index has
been processed is fully marked used. -/
def PruneDone (segs : List (Seg α)) (tol2 : α) (U : List ℕ) (m : ℕ) : Prop :=
  ∀ i j, revAt segs tol2 i j → i < j → i < m → i ∈ U ∧ j ∈ U

end DXFViewerApp

namespace DXFViewerApp

/-- Square, triangle and duplicated-bridge segments of the C3 example
(integer coordinates; squared tolerance 1, matching the source's default
tolerance at this coordinate scale). -/
def c3bridgeSegs : List (Seg ℤ) :=
  [{ p1 := ⟨0, 0⟩, p2 := ⟨4, 0⟩, bulge := 0 },
   { p1 := ⟨4, 0⟩, p2 := ⟨4, 4⟩, bulge := 0 },
   { p1 := ⟨4, 4⟩, p2 := ⟨0, 4⟩, bulge := 0 },
   { p1 := ⟨0, 4⟩, p2 := ⟨0, 0⟩, bulge := 0 },
   { p1 := ⟨0, 0⟩, p2 := ⟨1, 1⟩, bulge := 0 },
   { p1 := ⟨1, 1⟩, p2 := ⟨3, 1⟩, bulge := 0 },
   { p1 := ⟨3, 1⟩, p2 := ⟨2, 2⟩, bulge := 0 },
   { p1 := ⟨2, 2⟩, p2 := ⟨1, 1⟩, bulge := 0 },
   { p1 := ⟨1, 1⟩, p2 := ⟨0, 0⟩, bulge := 0 }]

end DXFViewerApp

namespace HatchBoundaryResolver

/-- Normalized edge kinds (src/app.js:2487-2533). -/
inductive EdgeKind
  | LINE
  | ARC
deriving DecidableEq

/-- A normalized hatch edge: a LINE or ARC record as built by
`normalizeEdge`/`bulgeToArc` (src/app.js:2487-2533, 2587-2617).  Angles are
radians in screen space (negated world angles), exactly as stored by the
source; the arc-only fields default to `0` for LINE edges (the source simply
leaves them absent and never reads them). -/
structure HEdge where
  kind : EdgeKind
  x1 : ℝ
  y1 : ℝ
  x2 : ℝ
  y2 : ℝ
  cx : ℝ := 0
  cy : ℝ := 0
  radius : ℝ := 0
  startAngle : ℝ := 0
  endAngle : ℝ := 0
  isCounterClockwise : Bool := true

/-- A raw HATCH boundary edge as produced by the DXF parser: `type` 1 is a
line, `type` 2 a circular arc with degree angles and a `ccw` flag. -/
structure RawEdge where
  type : ℕ
  x1 : ℝ := 0
  y1 : ℝ := 0
  x2 : ℝ := 0
  y2 : ℝ := 0
  cx : ℝ := 0
  cy : ℝ := 0
  radius : ℝ := 0
  startAngle : ℝ := 0
  endAngle : ℝ := 0
  ccw : ℕ := 1

/-- A hatch boundary loop (polyline-style or edge-style). -/
structure HatchLoop where
  isPolyline : Bool
  vertices : List (Vtx ℝ) := []
  edges : List RawEdge := []

/-- Result of `resolveLoop`: `{ok: true, path}` or `{ok: false, reason}`. -/
inductive HatchResult
  | ok (path : List HEdge)
  | fail (reason : String)

/-- `HatchBoundaryResolver.dist` (src/app.js:2630-2632). -/
noncomputable def hdist (x1 y1 x2 y2 : ℝ) : ℝ := hypot (x1 - x2) (y1 - y2)

/-- `normalizeEdge` (src/app.js:2487-2536): returns `none` for edge types
other than 1 and 2 (the source returns `null`). -/
noncomputable def normalizeEdge (e : RawEdge) : Option HEdge :=
  if e.type = 1 then
    some { kind := .LINE, x1 := e.x1, y1 := e.y1, x2 := e.x2, y2 := e.y2 }
  else if e.type = 2 then
    let ccw := e.ccw = 1
    let a1raw := e.startAngle * π / 180
    let a2raw := e.endAngle * π / 180
    let a1w := if ccw then a1raw else -a1raw
    let a2w := if ccw then a2raw else -a2raw
    some { kind := .ARC, cx := e.cx, cy := e.cy, radius := e.radius,
           startAngle := -a1w, endAngle := -a2w,
           isCounterClockwise := ccw,
           x1 := e.cx + e.radius * Real.cos a1w, y1 := e.cy + e.radius * Real.sin a1w,
           x2 := e.cx + e.radius * Real.cos a2w, y2 := e.cy + e.radius * Real.sin a2w }
  else none

/-- `reverseEdge` (src/app.js:2539-2555). -/
def reverseEdge (e : HEdge) : HEdge :=
  match e.kind with
  | .LINE => { e with x1 := e.x2, y1 := e.y2, x2 := e.x1, y2 := e.y1 }
  | .ARC =>
    { e with
      startAngle := e.endAngle
      endAngle := e.startAngle
      isCounterClockwise := !e.isCounterClockwise
      x1 := e.x2
      y1 := e.y2
      x2 := e.x1
      y2 := e.y1 }

/-- `reversePath` (src/app.js:2557-2559). -/
def reversePath (path : List HEdge) : List HEdge := path.reverse.map reverseEdge

/-- Closed form of the sweep normalization loop
`while (sweep <= 0) sweep += 2π` (src/app.js:2577): the loop adds `2π` until
the value first becomes positive, i.e. it adds `(⌊-d/(2π)⌋ + 1)` copies when
`d ≤ 0` and none otherwise. -/
noncomputable def normPos (d : ℝ) : ℝ :=
  if 0 < d then d else d + 2 * π * ((⌊-d / (2 * π)⌋ : ℤ) + 1)

/-- Closed form of `while (sweep >= 0) sweep -= 2π` (src/app.js:2579). -/
noncomputable def normNeg (d : ℝ) : ℝ :=
  if d < 0 then d else d - 2 * π * ((⌊d / (2 * π)⌋ : ℤ) + 1)

/-- Contribution of one edge to `calculateLoopArea` (src/app.js:2566-2582):
the shoelace cross term plus, for arcs, `r² (sweep - sin sweep)` with the
sweep recovered in world angles. -/
noncomputable def edgeAreaTerm (e : HEdge) : ℝ :=
  (e.x1 * e.y2 - e.y1 * e.x2) +
  (match e.kind with
   | .LINE => 0
   | .ARC =>
     let startA := -e.startAngle
     let endA := -e.endAngle
     let sweep := if e.isCounterClockwise then normPos (endA - startA)
       else normNeg (endA - startA)
     e.radius ^ 2 * (sweep - Real.sin sweep))

/-- `calculateLoopArea` (src/app.js:2564-2585). -/
noncomputable def calculateLoopArea (path : List HEdge) : ℝ :=
  (path.map edgeAreaTerm).sum * (1 / 2)

/-- `HatchBoundaryResolver.bulgeToArc` (src/app.js:2587-2617), used by the
polyline branch. -/
noncomputable def hbrBulgeToArc (p1x p1y p2x p2y bulge : ℝ) : HEdge :=
  let theta := 4 * Real.arctan bulge
  let dx := p2x - p1x
  let dy := p2y - p1y
  let ch := hypot dx dy
  let r := ch / (2 * Real.sin (theta / 2))
  let mx := (p1x + p2x) / 2
  let my := (p1y + p2y) / 2
  let nx := -dy / ch
  let ny := dx / ch
  let d := r * Real.cos (theta / 2)
  let cx := mx + nx * d
  let cy := my + ny * d
  let ang1 := atan2 (p1y - cy) (p1x - cx)
  let ang2 := atan2 (p2y - cy) (p2x - cx)
  { kind := .ARC, cx := cx, cy := cy, radius := |r|,
    startAngle := -ang1, endAngle := -ang2,
    isCounterClockwise := decide (0 < bulge),
    x1 := p1x, y1 := p1y, x2 := p2x, y2 := p2y }

/-- Bounding-box fold of `computeBBox` (src/app.js:2619-2628). -/
noncomputable def bboxFold (acc : ℝ × ℝ × ℝ × ℝ) (e : HEdge) : ℝ × ℝ × ℝ × ℝ :=
  (min acc.1 (min e.x1 e.x2), min acc.2.1 (min e.y1 e.y2),
   max acc.2.2.1 (max e.x1 e.x2), max acc.2.2.2 (max e.y1 e.y2))

/-- `computeBBox(...).diag` (src/app.js:2619-2628); the source seeds the fold
with `±Infinity`, which for a nonempty list equals seeding with the first
element (`resolveEdgeLoop` bails out before calling this on an empty list). -/
noncomputable def bboxDiag (edges : List HEdge) : ℝ :=
  match edges with
  | [] => 0
  | e :: rest =>
    let b := rest.foldl bboxFold
      (min e.x1 e.x2, min e.y1 e.y2, max e.x1 e.x2, max e.y1 e.y2)
    hypot (b.2.2.1 - b.1) (b.2.2.2 - b.2.1)

/-- Exact-match scan of the stitching loop (src/app.js:2340-2361): first
unused edge whose start (or, reversed, end) is within `tol` of the tip. -/
noncomputable def findExactEdge (tol : ℝ) (used : Finset ℕ) (tipx tipy : ℝ) :
    List (ℕ × HEdge) → Option (ℕ × HEdge)
  | [] => none
  | (i, e) :: rest =>
    if i ∈ used then findExactEdge tol used tipx tipy rest
    else if hdist e.x1 e.y1 tipx tipy < tol then some (i, e)
    else if hdist e.x2 e.y2 tipx tipy < tol then some (i, reverseEdge e)
    else findExactEdge tol used tipx tipy rest

/-- One candidate of the bridging scan (src/app.js:2370-2387): compare the
candidate's two endpoint distances against the running minimum (`none`
stands for the initial `minDist = Infinity`). -/
noncomputable def bridgeStep (tipx tipy : ℝ) (used : Finset ℕ)
    (acc : Option (ℝ × ℕ × HEdge × Bool)) (p : ℕ × HEdge) :
    Option (ℝ × ℕ × HEdge × Bool) :=
  if p.1 ∈ used then acc
  else
    let d1 := hdist p.2.x1 p.2.y1 tipx tipy
    let d2 := hdist p.2.x2 p.2.y2 tipx tipy
    let acc1 :=
      match acc with
      | none => some (d1, p.1, p.2, true)
      | some (m, r) => if d1 < m then some (d1, p.1, p.2, true) else some (m, r)
    match acc1 with
    | none => none
    | some (m1, r1) => if d2 < m1 then some (d2, p.1, p.2, false) else some (m1, r1)

/-- The bridging scan over all edges (src/app.js:2366-2387). -/
noncomputable def bridgeScan (tipx tipy : ℝ) (used : Finset ℕ)
    (l : List (ℕ × HEdge)) : Option (ℝ × ℕ × HEdge × Bool) :=
  l.foldl (bridgeStep tipx tipy used) none

/-- The stitching `while (path.length < edges.length)` loop
(src/app.js:2336-2423), with fuel: every iteration pushes at least one edge,
so `edges.length` iterations always suffice and the fuel-0 branch mirrors
the loop guard. -/
noncomputable def stitchLoop (edges : List HEdge) (tol : ℝ) :
    ℕ → Finset ℕ → List HEdge → HEdge → Option (List HEdge)
  | 0, _, path, _ => if path.length < edges.length then none else some path
  | fuel + 1, used, path, current =>
    if path.length < edges.length then
      let tipx := current.x2
      let tipy := current.y2
      match findExactEdge tol used tipx tipy edges.enum with
      | some (i, e) => stitchLoop edges tol fuel (insert i used) (path ++ [e]) e
      | none =>
        match bridgeScan tipx tipy used edges.enum with
        | some (m, i, target, toStart) =>
          let nsx := if toStart then target.x1 else target.x2
          let nsy := if toStart then target.y1 else target.y2
          let bridge : List HEdge :=
            if tol < m then [{ kind := .LINE, x1 := tipx, y1 := tipy, x2 := nsx, y2 := nsy }]
            else []
          let nextE := if toStart then target else reverseEdge target
          stitchLoop edges tol fuel (insert i used) (path ++ bridge ++ [nextE]) nextE
        | none => none
    else some path

/-- Winding normalization shared by both resolver branches
(src/app.js:2440-2446 and 2475-2481): reverse the path when its signed area
is negative. -/
noncomputable def normalizeWinding (p : List HEdge) : HatchResult :=
  if calculateLoopArea p < 0 then .ok (reversePath p) else .ok p

/-- Closing-gap repair followed by winding normalization
(src/app.js:2425-2446). -/
noncomputable def closeAndNormalize (tol : ℝ) (path : List HEdge) : HatchResult :=
  match path, path.getLast? with
  | first :: _, some last =>
    normalizeWinding
      (if tol < hdist first.x1 first.y1 last.x2 last.y2 then
        path ++ [{ kind := .LINE, x1 := last.x2, y1 := last.y2,
                   x2 := first.x1, y2 := first.y1 }]
      else path)
  | _, _ => .fail "empty path"

/-- Sequence a list of options (`none` models the `TypeError` the source
would throw when `normalizeEdge` returned `null` for an unsupported edge
type and the null is dereferenced). -/
def optionAll {β : Type} : List (Option β) → Option (List β)
  | [] => some []
  | none :: _ => none
  | some b :: rest => (optionAll rest).map (fun l => b :: l)

/-- `resolveEdgeLoop` (src/app.js:2319-2447). -/
noncomputable def resolveEdgeLoop (loop : HatchLoop) : Option HatchResult :=
  if loop.edges.isEmpty then some (.fail "no edges")
  else
    match optionAll (loop.edges.map normalizeEdge) with
    | none => none
    | some edges =>
      match edges with
      | [] => some (.fail "no edges")
      | e0 :: rest =>
        match stitchLoop (e0 :: rest) (max (bboxDiag (e0 :: rest) * 1e-4) 1e-4)
            (e0 :: rest).length {0} [e0] e0 with
        | none => some (.fail "stitch failed")
        | some path =>
          some (closeAndNormalize (max (bboxDiag (e0 :: rest) * 1e-4) 1e-4) path)

/-- `resolvePolylineLoop` (src/app.js:2452-2482). -/
noncomputable def resolvePolylineLoop (loop : HatchLoop) : Option HatchResult :=
  if loop.vertices.length < 2 then some (.fail "invalid polyline")
  else
    let verts := loop.vertices
    let path := (verts.zip (verts.rotate 1)).map (fun p =>
      if p.1.bulge ≠ 0 then hbrBulgeToArc p.1.x p.1.y p.2.x p.2.y p.1.bulge
      else { kind := .LINE, x1 := p.1.x, y1 := p.1.y, x2 := p.2.x, y2 := p.2.y })
    some (normalizeWinding path)

/-- `resolveLoop` (src/app.js:2307-2314). -/
noncomputable def resolveLoop (loop : HatchLoop) : Option HatchResult :=
  if loop.isPolyline then resolvePolylineLoop loop else resolveEdgeLoop loop

/-- Concrete polyline-style hatch loop (CCW unit right triangle) for the C4
witness. -/
def c4loop : HatchLoop :=
  { isPolyline := true,
    vertices := [⟨0, 0, 0, none, none⟩, ⟨1, 0, 0, none, none⟩, ⟨0, 1, 0, none, none⟩] }

/-- The path `resolveLoop` produces for `c4loop`. -/
def c4path : List HEdge :=
  [{ kind := .LINE, x1 := 0, y1 := 0, x2 := 1, y2 := 0 },
   { kind := .LINE, x1 := 1, y1 := 0, x2 := 0, y2 := 1 },
   { kind := .LINE, x1 := 0, y1 := 1, x2 := 0, y2 := 0 }]

/-- A concrete edge-style loop for the C5 witness: two type-1 (line) edges
with a large gap, forcing the bridging path of the stitcher. -/
def c5loop : HatchLoop :=
  { isPolyline := false,
    edges := [{ type := 1, x2 := 1 }, { type := 1, x1 := 1, y1 := 50, y2 := 50 }] }

end HatchBoundaryResolver

namespace WeightManager

/-! ### C8: `minimumEnclosingCircle` (src/weight-manager.js:224-299)

The source first applies a Fisher-Yates shuffle driven by `Math.random` and
then runs the incremental Welzl scan on the shuffled array.  The claim
quantifies over every shuffle outcome, i.e. over every permutation of the
input, so the embedding takes the post-shuffle order as its input list and
the claim becomes invariance of the result under `List.Perm`. -/

/-- A circle `{center: {x, y}, radius}`. -/
structure Circle where
  cx : ℝ
  cy : ℝ
  radius : ℝ

/-- `circleContains` (src/weight-manager.js:258-260): containment with the
`1e-6` slack. -/
def circleContains (c : Circle) (p : Pt) : Prop :=
  hypot (p.x - c.cx) (p.y - c.cy) ≤ c.radius + 1e-6

noncomputable instance circleContainsDec (c : Circle) (p : Pt) :
    Decidable (circleContains c p) :=
  Real.decidableLE _ _

/-- `circleFrom2Points` (src/weight-manager.js:262-269). -/
noncomputable def circleFrom2Points (a b : Pt) : Circle :=
  let cx := (a.x + b.x) / 2
  let cy := (a.y + b.y) / 2
  ⟨cx, cy, hypot (a.x - cx) (a.y - cy)⟩

/-- The doubled signed-area determinant `d` of `circleFrom3Points`
(src/weight-manager.js:272-276). -/
def dval (a b c : Pt) : ℝ :=
  2 * (a.x * (b.y - c.y) + b.x * (c.y - a.y) + c.x * (a.y - b.y))

/-- `circleFrom3Points` (src/weight-manager.js:271-299): circumcircle, with
the `|d| < 1e-12` collinear fallback to `circleFrom2Points`. -/
noncomputable def circleFrom3Points (a b c : Pt) : Circle :=
  if |dval a b c| < 1e-12 then circleFrom2Points a b
  else
    let ux := ((a.x * a.x + a.y * a.y) * (b.y - c.y) +
               (b.x * b.x + b.y * b.y) * (c.y - a.y) +
               (c.x * c.x + c.y * c.y) * (a.y - b.y)) / dval a b c
    let uy := ((a.x * a.x + a.y * a.y) * (c.x - b.x) +
               (b.x * b.x + b.y * b.y) * (a.x - c.x) +
               (c.x * c.x + c.y * c.y) * (b.x - a.x)) / dval a b c
    ⟨ux, uy, hypot (a.x - ux) (a.y - uy)⟩

/-- The innermost `for k < j` loop (src/weight-manager.js:243-246), folded
over the points with index below `j`. -/
noncomputable def mecInner (pi pj : Pt) (c0 : Circle) (ks : List Pt) : Circle :=
  ks.foldl (fun c pk => if circleContains c pk then c else circleFrom3Points pi pj pk) c0

/-- One step of the `for j < i` loop (src/weight-manager.js:238-247); the
second component accumulates the already-seen prefix (the points with index
below the current `j`). -/
noncomputable def mecMiddleStep (pi : Pt) (acc : Circle × List Pt) (pj : Pt) :
    Circle × List Pt :=
  (if circleContains acc.1 pj then acc.1
   else mecInner pi pj (circleFrom2Points pi pj) acc.2,
   acc.2 ++ [pj])

/-- The `for j < i` loop, started from the zero-radius circle at `pts[i]`
(src/weight-manager.js:236-247). -/
noncomputable def mecMiddle (pi : Pt) (js : List Pt) : Circle :=
  (js.foldl (mecMiddleStep pi) (⟨pi.x, pi.y, 0⟩, [])).1

/-- One step of the outer `for i` loop (src/weight-manager.js:234-248);
`none` models the initial `c = null`. -/
noncomputable def mecOuterStep (acc : Option Circle × List Pt) (pi : Pt) :
    Option Circle × List Pt :=
  (match acc.1 with
   | some c0 => if circleContains c0 pi then some c0 else some (mecMiddle pi acc.2)
   | none => some (mecMiddle pi acc.2),
   acc.2 ++ [pi])

/-- `minimumEnclosingCircle` on the post-shuffle point order
(src/weight-manager.js:224-256); `none` corresponds to the crash the source
would hit reading `c.center` on an empty input. -/
noncomputable def minimumEnclosingCircle (points : List Pt) : Option Circle :=
  (points.foldl mecOuterStep (none, [])).1

/-- First point of the C8 counterexample pair. -/
def p8a : Pt := ⟨0, 0⟩

/-- Second point of the C8 counterexample pair: at distance exactly `1e-6`
from the first, i.e. exactly on the containment slack. -/
def p8b : Pt := ⟨1e-6, 0⟩

/-- Witness pair for the two-point part of the amended C8 statement:
separation 1 (> 1e-6). -/
def w8a : Pt := ⟨0, 0⟩

/-- Second witness point for the two-point part of the amended C8
statement. -/
def w8b : Pt := ⟨1, 0⟩

/-- First witness point for the three-point part of the amended C8
statement: an acute triangle inscribed in the circle of radius 5 centered
at the origin. -/
def q8a : Pt := ⟨3, 4⟩

/-- Second witness point on the radius-5 circle. -/
def q8b : Pt := ⟨-3, 4⟩

/-- Third witness point on the radius-5 circle. -/
def q8c : Pt := ⟨0, -5⟩

end WeightManager

namespace DXFParser

/-! ### C9: `DXFParser.parse` and instance state (src/dxf-parser.js:7-49)

The constructor (src/dxf-parser.js:8-14) initialises `this.entities = []`
(and the layer/linetype/header/block maps); `parse` (7-49) never resets
them, and `parseEntities` (320-345) pushes onto `this.entities`.  The
embedding threads the instance state explicitly: `DXFState` models the
mutable fields touched by the embedded fragment (`entities`, `header`), and
`parseDXF content st` is `instance.parse(content)` run on an instance whose
current state is `st`; `freshState` is the constructor's state.

Embedded fragment: the section dispatch is modelled for `HEADER`,
`ENTITIES` and the unknown-section skip; inputs whose content uses
`TABLES`/`BLOCKS` sections (handled by `parseTables`/`parseBlocks` in the
source) or the `POLYLINE`/`TEXT`/`MTEXT`/`DIMENSION`/`HATCH` entity
handlers are outside the embedding's domain.  `parseInt`/`parseFloat` are
modelled for trimmed decimal strings (optional sign, digit run, optional
fraction), with `none` for `NaN`; a numeric entity field is `Option ℚ`,
`none` standing for both "never assigned" and an assigned `NaN`, a
distinction no embedded code path reads back. -/

/-- JS `parseInt(s, 10)` on an already-trimmed decimal string: optional
sign followed by a leading digit run; `none` models `NaN`. -/
def parseIntJS (s : String) : Option ℤ :=
  let core : List Char → Option ℕ := fun l =>
    let ds := l.takeWhile Char.isDigit
    if ds.isEmpty then none
    else some (ds.foldl (fun n c => 10 * n + (c.toNat - 48)) 0)
  match s.data with
  | '-' :: rest => (core rest).map (fun n => -(n : ℤ))
  | '+' :: rest => (core rest).map (fun n => (n : ℤ))
  | cs => (core cs).map (fun n => (n : ℤ))

/-- JS `parseFloat` on an already-trimmed decimal string: optional sign,
digit run, optional `.` fraction (exponents unused by the embedded inputs);
`none` models `NaN`. -/
def parseFloatJS (s : String) : Option ℚ :=
  let num : List Char → Option ℚ := fun l =>
    let ip := l.takeWhile Char.isDigit
    let rest := l.drop ip.length
    let fp := match rest with
      | '.' :: r => r.takeWhile Char.isDigit
      | _ => []
    if ip.isEmpty && fp.isEmpty then none
    else
      some ((ip.foldl (fun n c => 10 * n + (c.toNat - 48)) 0 : ℕ) +
        ((fp.foldl (fun n c => 10 * n + (c.toNat - 48)) 0 : ℕ) : ℚ) / (10 : ℚ) ^ fp.length)
  match s.data with
  | '-' :: rest => (num rest).map (fun q => -q)
  | '+' :: rest => num rest
  | cs => num cs

/-- `content.replace(/\r\n/g, '\n').replace(/\r/g, '\n')`
(src/dxf-parser.js:23): every `\r\n` pair and every remaining lone `\r`
becomes `\n`. -/
def normalizeNewlines : List Char → List Char
  | [] => []
  | '\r' :: '\n' :: rest => '\n' :: normalizeNewlines rest
  | '\r' :: rest => '\n' :: normalizeNewlines rest
  | c :: rest => c :: normalizeNewlines rest

/-- `split('\n')` on the normalized character list. -/
def splitLinesGo (acc : List Char) : List Char → List (List Char)
  | [] => [acc.reverse]
  | '\n' :: rest => acc.reverse :: splitLinesGo [] rest
  | c :: rest => splitLinesGo (c :: acc) rest

/-- JS `String.prototype.trim`. -/
def trimJS (l : List Char) : List Char :=
  ((l.dropWhile Char.isWhitespace).reverse.dropWhile Char.isWhitespace).reverse

/-- `lines` as built by `parse` (src/dxf-parser.js:23-24): normalize line
endings, split on `\n`, trim every line. -/
def contentLines (content : String) : List String :=
  (splitLinesGo [] (normalizeNewlines content.data)).map
    (fun cs => String.mk (trimJS cs))

/-- A parsed header value: `parseValue` (src/dxf-parser.js:873-880) returns
a float for codes 10-59, an int for codes 60-79, the raw string otherwise. -/
inductive PValue
  | num (q : Option ℚ)
  | int (z : Option ℤ)
  | str (s : String)
deriving DecidableEq

/-- `parseValue` (src/dxf-parser.js:873-880); a `NaN` group code (`none`)
fails both range tests, as in JS. -/
def parseValue (code : Option ℤ) (value : String) : PValue :=
  match code with
  | some c =>
    if 10 ≤ c ∧ c < 60 then .num (parseFloatJS value)
    else if 60 ≤ c ∧ c < 80 then .int (parseIntJS value)
    else .str value
  | none => .str value

/-- JS object key assignment on an insertion-ordered key list: overwrite in
place, else append. -/
def setKey {β : Type} : List (String × β) → String → β → List (String × β)
  | [], k, v => [(k, v)]
  | (k', v') :: rest, k, v =>
    if k' = k then (k, v) :: rest else (k', v') :: setKey rest k v

/-- One LWPOLYLINE vertex `{x, y, bulge}` (src/dxf-parser.js:483). -/
structure LWVertex where
  x : Option ℚ
  y : Option ℚ
  bulge : Option ℚ
deriving DecidableEq

/-- A parsed entity: the common fields plus the fields assigned by the
embedded entity-specific parsers (src/dxf-parser.js:350-357, 444-496,
843-866). -/
structure PEntity where
  type : String
  layer : String := "0"
  color : Option ℤ := some 256
  lineType : String := "BYLAYER"
  x1 : Option ℚ := none
  y1 : Option ℚ := none
  z1 : Option ℚ := none
  x2 : Option ℚ := none
  y2 : Option ℚ := none
  z2 : Option ℚ := none
  cx : Option ℚ := none
  cy : Option ℚ := none
  cz : Option ℚ := none
  radius : Option ℚ := none
  startAngle : Option ℚ := none
  endAngle : Option ℚ := none
  x : Option ℚ := none
  y : Option ℚ := none
  z : Option ℚ := none
  block : Option String := none
  scaleX : Option ℚ := none
  scaleY : Option ℚ := none
  scaleZ : Option ℚ := none
  rotation : Option ℚ := none
  colCount : Option ℤ := none
  rowCount : Option ℤ := none
  colSpacing : Option ℚ := none
  rowSpacing : Option ℚ := none
  vertices : Option (List LWVertex) := none
  bulges : Option (List ℚ) := none
  flags : Option ℤ := none
  vertexCount : Option ℤ := none
deriving DecidableEq

/-- Rewrite the last element of a list, as `arr[arr.length - 1].f = v`. -/
def updateLast {β : Type} (l : List β) (f : β → β) : List β :=
  match l.getLast? with
  | none => l
  | some v => l.dropLast ++ [f v]

/-- The common-property switch of `parseEntity`
(src/dxf-parser.js:374-379). -/
def commonStep (e : PEntity) (code : Option ℤ) (value : String) : PEntity :=
  if code = some 8 then { e with layer := value }
  else if code = some 62 then { e with color := parseIntJS value }
  else if code = some 6 then { e with lineType := value }
  else e

/-- `parseLineEntity` (src/dxf-parser.js:444-453); `parseFloat(v) || 0`
turns `NaN` into `0`. -/
def parseLineEntity (e : PEntity) (code : Option ℤ) (value : String) : PEntity :=
  if code = some 10 then { e with x1 := parseFloatJS value }
  else if code = some 20 then { e with y1 := parseFloatJS value }
  else if code = some 30 then { e with z1 := some ((parseFloatJS value).getD 0) }
  else if code = some 11 then { e with x2 := parseFloatJS value }
  else if code = some 21 then { e with y2 := parseFloatJS value }
  else if code = some 31 then { e with z2 := some ((parseFloatJS value).getD 0) }
  else e

/-- `parseCircleEntity` (src/dxf-parser.js:455-462). -/
def parseCircleEntity (e : PEntity) (code : Option ℤ) (value : String) : PEntity :=
  if code = some 10 then { e with cx := parseFloatJS value }
  else if code = some 20 then { e with cy := parseFloatJS value }
  else if code = some 30 then { e with cz := some ((parseFloatJS value).getD 0) }
  else if code = some 40 then { e with radius := parseFloatJS value }
  else e

/-- `parseArcEntity` (src/dxf-parser.js:464-473). -/
def parseArcEntity (e : PEntity) (code : Option ℤ) (value : String) : PEntity :=
  if code = some 10 then { e with cx := parseFloatJS value }
  else if code = some 20 then { e with cy := parseFloatJS value }
  else if code = some 30 then { e with cz := some ((parseFloatJS value).getD 0) }
  else if code = some 40 then { e with radius := parseFloatJS value }
  else if code = some 50 then { e with startAngle := parseFloatJS value }
  else if code = some 51 then { e with endAngle := parseFloatJS value }
  else e

/-- `parseLWPolylineEntity` (src/dxf-parser.js:475-496): lazily initialises
the vertex and bulge arrays, pushes an `{x, y:0, bulge:0}` vertex on code
10 and patches the last vertex on codes 20/42. -/
def parseLWPolylineEntity (e : PEntity) (code : Option ℤ) (value : String) : PEntity :=
  let e := { e with vertices := some (e.vertices.getD []),
                    bulges := some (e.bulges.getD []) }
  if code = some 70 then { e with flags := parseIntJS value }
  else if code = some 90 then { e with vertexCount := parseIntJS value }
  else if code = some 10 then
    { e with vertices := some ((e.vertices.getD []) ++ [⟨parseFloatJS value, some 0, some 0⟩]) }
  else if code = some 20 then
    { e with vertices := some (if 0 < (e.vertices.getD []).length then
        updateLast (e.vertices.getD []) (fun v => { v with y := parseFloatJS value })
      else e.vertices.getD []) }
  else if code = some 42 then
    { e with vertices := some (if 0 < (e.vertices.getD []).length then
        updateLast (e.vertices.getD []) (fun v => { v with bulge := parseFloatJS value })
      else e.vertices.getD []) }
  else e

/-- `parsePointEntity` (src/dxf-parser.js:843-849). -/
def parsePointEntity (e : PEntity) (code : Option ℤ) (value : String) : PEntity :=
  if code = some 10 then { e with x := parseFloatJS value }
  else if code = some 20 then { e with y := parseFloatJS value }
  else if code = some 30 then { e with z := some ((parseFloatJS value).getD 0) }
  else e

/-- `parseInsertEntity` (src/dxf-parser.js:853-866). -/
def parseInsertEntity (e : PEntity) (code : Option ℤ) (value : String) : PEntity :=
  if code = some 2 then { e with block := some value }
  else if code = some 10 then { e with x := parseFloatJS value }
  else if code = some 20 then { e with y := parseFloatJS value }
  else if code = some 30 then { e with z := some ((parseFloatJS value).getD 0) }
  else if code = some 41 then { e with scaleX := parseFloatJS value }
  else if code = some 42 then { e with scaleY := parseFloatJS value }
  else if code = some 43 then { e with scaleZ := parseFloatJS value }
  else if code = some 50 then { e with rotation := parseFloatJS value }
  else if code = some 70 then { e with colCount := parseIntJS value }
  else if code = some 71 then { e with rowCount := parseIntJS value }
  else if code = some 44 then { e with colSpacing := parseFloatJS value }
  else if code = some 45 then { e with rowSpacing := parseFloatJS value }
  else e

/-- The entity-specific switch of `parseEntity` (src/dxf-parser.js:381-416)
for the embedded entity types; a type outside the source's switch gets only
the common fields, exactly as here. -/
def specificStep (entityType : String) (e : PEntity) (code : Option ℤ)
    (value : String) : PEntity :=
  if entityType = "LINE" then parseLineEntity e code value
  else if entityType = "CIRCLE" then parseCircleEntity e code value
  else if entityType = "ARC" then parseArcEntity e code value
  else if entityType = "LWPOLYLINE" then parseLWPolylineEntity e code value
  else if entityType = "POINT" then parsePointEntity e code value
  else if entityType = "INSERT" then parseInsertEntity e code value
  else e

/-- The field-scanning loop of `parseEntity` (src/dxf-parser.js:361-419):
`some i` is the `break` at a code-0 line (`entity._endIndex = i`), `none`
the fall-through at end of input (`_endIndex` keeps its initial value).
Each iteration advances `i` by 2, so `lines.length + 1` fuel suffices and
the fuel-0 branch is unreachable. -/
def parseEntityGo (lines : List String) (entityType : String) :
    ℕ → ℕ → PEntity → PEntity × Option ℕ
  | 0, _, e => (e, none)
  | fuel + 1, i, e =>
    if i < lines.length then
      let code := parseIntJS (lines.getD i "")
      let value := lines.getD (i + 1) ""
      if code = some 0 then (e, some i)
      else
        parseEntityGo lines entityType fuel (i + 2)
          (specificStep entityType (commonStep e code value) code value)
    else (e, none)

/-- `parseEntity` (src/dxf-parser.js:350-442) on the embedded entity types:
starts from the defaulted entity record and returns the entity and its
`_endIndex` (initially `startIndex + 2`). -/
def parseEntity (lines : List String) (startIndex : ℕ) (entityType : String) :
    PEntity × ℕ :=
  match parseEntityGo lines entityType (lines.length + 1) (startIndex + 2)
      { type := entityType } with
  | (e, some j) => (e, j)
  | (e, none) => (e, startIndex + 2)

/-- The `parseEntities` loop (src/dxf-parser.js:320-345), pushing onto the
instance's accumulated entity list; `parseEntity` always returns an object,
so the source's falsy branch is dead.  Every iteration advances the index
by at least 2, so `lines.length + 1` fuel suffices. -/
def parseEntitiesGo (lines : List String) :
    ℕ → ℕ → List PEntity → List PEntity × ℕ
  | 0, i, acc => (acc, i)
  | fuel + 1, i, acc =>
    if i < lines.length then
      let code := parseIntJS (lines.getD i "")
      let value := lines.getD (i + 1) ""
      if code = some 0 then
        if value = "ENDSEC" then (acc, i + 2)
        else
          match parseEntity lines i value with
          | (ent, ei) => parseEntitiesGo lines fuel ei (acc ++ [ent])
      else parseEntitiesGo lines fuel (i + 2) acc
    else (acc, i)

/-- The `parseHeader` loop (src/dxf-parser.js:88-110): code 9 starts a new
variable (initialised `null`); any other code assigns `parseValue` to the
current variable when one is set — JS's `else if (currentVar)` is falsy for
the empty string. -/
def parseHeaderGo (lines : List String) :
    ℕ → ℕ → Option String → List (String × Option PValue) →
    List (String × Option PValue) × ℕ
  | 0, i, _, hdr => (hdr, i)
  | fuel + 1, i, currentVar, hdr =>
    if i < lines.length then
      let code := parseIntJS (lines.getD i "")
      let value := lines.getD (i + 1) ""
      if code = some 0 ∧ value = "ENDSEC" then (hdr, i + 2)
      else if code = some 9 then
        parseHeaderGo lines fuel (i + 2) (some value) (setKey hdr value none)
      else
        match currentVar with
        | some cv =>
          if cv = "" then parseHeaderGo lines fuel (i + 2) currentVar hdr
          else parseHeaderGo lines fuel (i + 2) currentVar
            (setKey hdr cv (some (parseValue code value)))
        | none => parseHeaderGo lines fuel (i + 2) currentVar hdr
    else (hdr, i)

/-- The unknown-section skip of `parseSection` (src/dxf-parser.js:74-80). -/
def skipSectionGo (lines : List String) : ℕ → ℕ → ℕ
  | 0, i => i
  | fuel + 1, i =>
    if i < lines.length then
      if parseIntJS (lines.getD i "") = some 0 ∧ lines.getD (i + 1) "" = "ENDSEC" then
        i + 2
      else skipSectionGo lines fuel (i + 2)
    else i

/-- The mutable parser-instance fields touched by the embedded fragment
(src/dxf-parser.js:8-14); the layer/linetype/block maps, also retained
across calls, are written only by the `TABLES`/`BLOCKS` handlers outside
the fragment. -/
structure DXFState where
  entities : List PEntity
  header : List (String × Option PValue)
deriving DecidableEq

/-- The constructor's state (src/dxf-parser.js:8-14). -/
def freshState : DXFState := { entities := [], header := [] }

/-- `parseSection` (src/dxf-parser.js:53-84) for the embedded fragment:
`HEADER` and `ENTITIES` update the instance state in place; an unknown
section is skipped. -/
def parseSection (lines : List String) (startIndex : ℕ) (st : DXFState) :
    DXFState × ℕ :=
  let sectionType := lines.getD (startIndex + 1) ""
  let i := startIndex + 2
  if sectionType = "HEADER" then
    match parseHeaderGo lines (lines.length + 1) i none st.header with
    | (hdr, j) => ({ st with header := hdr }, j)
  else if sectionType = "ENTITIES" then
    match parseEntitiesGo lines (lines.length + 1) i st.entities with
    | (es, j) => ({ st with entities := es }, j)
  else (st, skipSectionGo lines (lines.length + 1) i)

/-- The top-level loop of `parse` (src/dxf-parser.js:27-39). -/
def parseGo (lines : List String) : ℕ → ℕ → DXFState → DXFState
  | 0, _, st => st
  | fuel + 1, i, st =>
    if i < lines.length then
      let code := parseIntJS (lines.getD i "")
      let value := lines.getD (i + 1) ""
      if code = some 0 ∧ value = "SECTION" then
        match parseSection lines (i + 2) st with
        | (st', j) => parseGo lines fuel j st'
      else parseGo lines fuel (i + 2) st
    else st

/-- `instance.parse(content)` run on an instance with current state `st`
(src/dxf-parser.js:21-48): the returned record exposes the instance fields,
i.e. the final state. -/
def parseDXF (content : String) (st : DXFState) : DXFState :=
  let lines := contentLines content
  parseGo lines (lines.length + 1) 0 st

/-- A minimal DXF document with a single POINT entity. -/
def c9doc : String :=
  "0\nSECTION\n2\nENTITIES\n0\nPOINT\n10\n1\n20\n2\n0\nENDSEC\n0\nEOF"

end DXFParser

namespace DXFViewerApp

/-! ### C6: `calculateArea` (src/app.js:1464-1529)

The pipeline is embedded over `ℝ`: `decomposeEntity` (1794-1865) turns an
entity into atomic segments, `findConnectedLoops` (1534-1604) groups
entities into connected components (point matching re-expressed with
squared distances, as everywhere in this file), `extractAllLoops` /
`decomposeComplexLoops` / `calculateGeometricArea` are the stage functions
already embedded above, and `calculateArea` glues the stages together.  The
source computes each stage once into a local; the embedding recomputes the
(pure) stage functions in the guards, which does not change the result. -/

/-- An entity as consumed by the area pipeline: the fields read by
`decomposeEntity` (src/app.js:1794-1865) and by the single-CIRCLE branch of
`calculateArea` (src/app.js:1468-1473).  `LWPOLYLINE` and `POLYLINE` share
one constructor (the source treats them identically), `isLW` recording
which type tag the entity carried; `other` stands for any type
`decomposeEntity` answers with `null`. -/
inductive AppEntity
  | line (x1 y1 x2 y2 : ℝ)
  | arc (cx cy radius startAngle endAngle : ℝ)
      (counterClockwise : Option Bool) (ccw : Option ℤ)
  | polyline (isLW : Bool) (vertices : List (Vtx ℝ)) (flags : Option ℕ)
      (closed : Bool)
  | circle (cx cy radius : ℝ)
  | other

/-- `decomposeEntity` (src/app.js:1794-1865).  The ARC sweep-normalization
loops are the closed forms `normPos`/`normNeg` shared with the hatch
resolver; the polyline branch promotes a nonzero bulge to analytic arc data
via `DXFParser.bulgeToArc`. -/
noncomputable def decomposeEntity : AppEntity → Option (List (Seg ℝ))
  | .line x1 y1 x2 y2 => some [{ p1 := ⟨x1, y1⟩, p2 := ⟨x2, y2⟩, bulge := 0 }]
  | .arc cx cy radius startAngle endAngle counterClockwise ccw =>
    let start := startAngle * (π / 180)
    let endw := endAngle * (π / 180)
    let isCCW := match counterClockwise with
      | some b => b
      | none => match ccw with
        | some n => decide (n = 1)
        | none => true
    let sweep := if isCCW then HatchBoundaryResolver.normPos (endw - start)
      else HatchBoundaryResolver.normNeg (endw - start)
    some [{ p1 := ⟨cx + radius * Real.cos start, cy + radius * Real.sin start⟩,
            p2 := ⟨cx + radius * Real.cos endw, cy + radius * Real.sin endw⟩,
            bulge := Real.tan (sweep / 4),
            radius := some radius, theta := some sweep }]
  | .polyline _ vertices flags closed =>
    if vertices.length < 2 then some []
    else
      let len := vertices.length
      let isClosed := (flags.getD 0) % 2 = 1 ∨ closed = true
      let count := if isClosed then len else len - 1
      some ((List.range count).map (fun i =>
        let p1 := vertices.getD i ⟨0, 0, 0, none, none⟩
        let p2 := vertices.getD ((i + 1) % len) ⟨0, 0, 0, none, none⟩
        let base : Seg ℝ := { p1 := ⟨p1.x, p1.y⟩, p2 := ⟨p2.x, p2.y⟩, bulge := p1.bulge }
        if p1.bulge ≠ 0 then
          match DXFParser.bulgeToArc ⟨p1.x, p1.y⟩ ⟨p2.x, p2.y⟩ p1.bulge with
          | some arcp =>
            { base with
              radius := some arcp.radius
              theta := some (4 * Real.arctan p1.bulge) }
          | none => base
        else base))
  | .circle _ _ _ => none
  | .other => none

/-- The `eps` helper of `findConnectedLoops` (src/app.js:1542-1550): all
segment endpoints of the entity, `[]` when `decomposeEntity` gives `null`. -/
noncomputable def epsOf (e : AppEntity) : List (Pt2 ℝ) :=
  match decomposeEntity e with
  | none => []
  | some segs => (segs.map (fun s => [s.p1, s.p2])).flatten

/-- The `connected` predicate of `findConnectedLoops` (src/app.js:1553-1563)
with `tolerance = 0.05`, squared form. -/
noncomputable def connectedB (a b : AppEntity) : Bool :=
  (epsOf a).any (fun p => (epsOf b).any (fun q => ptMatchB ((0.05:ℝ) ^ 2) p q))

/-- Index-level `connected`. -/
noncomputable def connectedIdx (es : List AppEntity) (i j : ℕ) : Bool :=
  match es.get? i, es.get? j with
  | some a, some b => connectedB a b
  | _, _ => false

/-- The adjacency list of entity `k` (src/app.js:1567-1578): the source's
`i < j` double loop pushes the smaller-index partners of `k` (ascending,
one per earlier outer row) before the larger-index partners (ascending, in
`k`'s own row), so `adj[k]` is exactly the ascending list of connected
partners. -/
noncomputable def adjOf (es : List AppEntity) (k : ℕ) : List ℕ :=
  (List.range es.length).filter (fun m => decide (m ≠ k) && connectedIdx es k m)

/-- The `while (stack.length > 0)` DFS (src/app.js:1586-1598): the list head
is the JS array's end (`pop` takes the head, pushing `nbrs` in order leaves
the last-pushed on top), `visited` grows at push time.  Each index is
pushed at most once, so `es.length` fuel suffices. -/
noncomputable def dfsGo (es : List AppEntity) : ℕ → List ℕ → List ℕ → List ℕ × List ℕ
  | 0, _, visited => ([], visited)
  | fuel + 1, stack, visited =>
    match stack with
    | [] => ([], visited)
    | curr :: rest =>
      let nbrs := (adjOf es curr).filter (fun m => !(decide (m ∈ visited)))
      match dfsGo es fuel (nbrs.reverse ++ rest) (visited ++ nbrs) with
      | (comp, vis) => (curr :: comp, vis)

/-- `findConnectedLoops` (src/app.js:1534-1604). -/
noncomputable def findConnectedLoops (es : List AppEntity) : List (List AppEntity) :=
  match es with
  | [] => []
  | [e] => [[e]]
  | _ =>
    let compIdx := ((List.range es.length).foldl
      (fun (acc : List (List ℕ) × List ℕ) k =>
        if k ∈ acc.2 then acc
        else
          match dfsGo es es.length [k] (acc.2 ++ [k]) with
          | (comp, vis) => (acc.1 ++ [comp], vis)) ([], [])).1
    compIdx.map (fun idxs => idxs.filterMap (fun i => es.get? i))

/-- Step A of `extractAllLoops` (src/app.js:1688-1693): decompose the
component's entities into one segment bag. -/
noncomputable def segmentsOf (comp : List AppEntity) : List (Seg ℝ) :=
  comp.foldl (fun acc e =>
    match decomposeEntity e with
    | some d => acc ++ d
    | none => acc) []

/-- `extractAllLoops` (src/app.js:1686-1785) over entities: decomposition
followed by the segment-level pruning and chain extraction. -/
noncomputable def extractAllLoops (comp : List AppEntity) (tol2 : ℝ) :
    List (List (Vtx ℝ)) :=
  extractAllLoopsSegs (segmentsOf comp) tol2

/-- Steps 2-3 of `calculateArea` (src/app.js:1476-1490): all simple loops of
all components, with `extractAllLoops` at tolerance `0.01` and
`decomposeComplexLoops` at its built-in `0.15` (squared forms). -/
noncomputable def allLoopsOf (entities : List AppEntity) : List (List (Vtx ℝ)) :=
  (findConnectedLoops entities).foldl (fun acc comp =>
    (extractAllLoops comp ((0.01:ℝ) ^ 2)).foldl
      (fun a2 l => a2 ++ decomposeComplexLoops ((0.15:ℝ) ^ 2) l) acc) []

/-- Step 4 of `calculateArea` (src/app.js:1495-1502): the loop areas above
the `0.001` spike filter, for loops of at least 3 vertices. -/
noncomputable def areasOf (entities : List AppEntity) : List ℝ :=
  (allLoopsOf entities).foldl (fun acc vs =>
    if 3 ≤ vs.length ∧ 0.001 < calculateGeometricArea vs then
      acc ++ [calculateGeometricArea vs]
    else acc) []

/-- The descending order of `areas.sort((a, b) => b - a)`
(src/app.js:1507). -/
def areaOrd : ℝ → ℝ → Prop := fun a b => b ≤ a

noncomputable instance areaOrdDec : DecidableRel areaOrd :=
  fun a b => Real.decidableLE b a

instance areaOrdTotal : IsTotal ℝ areaOrd :=
  ⟨fun a b => (le_total b a).elim Or.inl Or.inr⟩

instance areaOrdTrans : IsTrans ℝ areaOrd :=
  ⟨fun _ _ _ hab hbc => le_trans hbc hab⟩

/-- The value `calculateArea` returns: `num` is the bare
`Math.PI * r * r` of the single-CIRCLE branch, `single` the
`{area, count: 1}` object, `multi` the `{area, count, details}` object with
the two numbers the `details` string is formatted from. -/
inductive AreaResult
  | num (a : ℝ)
  | single (area : ℝ)
  | multi (area : ℝ) (count : ℕ) (outer holes : ℝ)

/-- Steps 2-5 of `calculateArea` (src/app.js:1476-1528): the loop pipeline
with its three `null` guards, descending sort, and the
`max - sum(rest)` profile formula. -/
noncomputable def calculateAreaLoops (entities : List AppEntity) : Option AreaResult :=
  if (findConnectedLoops entities).isEmpty then none
  else if (allLoopsOf entities).isEmpty then none
  else if (areasOf entities).isEmpty then none
  else
    let sorted := (areasOf entities).insertionSort areaOrd
    let maxArea := sorted.headD 0
    if (areasOf entities).length = 1 then some (.single maxArea)
    else some (.multi (maxArea - sorted.tail.sum) (areasOf entities).length
      maxArea sorted.tail.sum)

/-- `calculateArea` (src/app.js:1464-1529): `none` is `null`; a singleton
CIRCLE selection short-circuits to `π·r·r`; everything else runs the loop
pipeline. -/
noncomputable def calculateArea (entities : List AppEntity) : Option AreaResult :=
  if entities.isEmpty then none
  else
    match entities with
    | [e] =>
      match e with
      | .circle _ _ r => some (.num (π * r * r))
      | _ => calculateAreaLoops entities
    | _ => calculateAreaLoops entities

/-- Vertex shorthand for the C6 witness triangles. -/
def c6v (a b : ℝ) : Vtx ℝ := ⟨a, b, 0, none, none⟩

/-- Bulge-free segment shorthand for the C6 witness triangles. -/
def c6s (a b c d : ℝ) : Seg ℝ := ⟨⟨a, b⟩, ⟨c, d⟩, 0, none, none⟩

/-- First witness entity: a closed LWPOLYLINE right triangle of area 1/2 at
the origin. -/
noncomputable def c6t1 : AppEntity :=
  .polyline true [c6v 0 0, c6v 1 0, c6v 0 1] (some 1) false

/-- Second witness entity: the same triangle translated to `(10, 10)`. -/
noncomputable def c6t2 : AppEntity :=
  .polyline true [c6v 10 10, c6v 11 10, c6v 10 11] (some 1) false

end DXFViewerApp

namespace DXFParser

/-- Sign of `bulgeTheta` follows the sign of the bulge (`arctan` is odd and
strictly monotone). -/
lemma bulgeTheta_nonneg {b : ℝ} (hb : 0 ≤ b) : 0 ≤ bulgeTheta b := by
  have h0 : Real.arctan 0 ≤ Real.arctan b := Real.arctan_strictMono.monotone hb
  rw [Real.arctan_zero] at h0
  unfold bulgeTheta; linarith

/-- Sign of `bulgeTheta` follows the sign of the bulge (negative case). -/
lemma bulgeTheta_neg {b : ℝ} (hb : b < 0) : bulgeTheta b < 0 := by
  have h0 : Real.arctan b < Real.arctan 0 := Real.arctan_strictMono hb
  rw [Real.arctan_zero] at h0
  unfold bulgeTheta; linarith

/-- The half-angle sine used by `bulgeToArc`: `bulgeSign b * sin (|θ|/2)`
equals `sin (θ/2)`. -/
lemma bulgeSign_mul_sin (b : ℝ) :
    bulgeSign b * Real.sin (|bulgeTheta b| / 2) = Real.sin (bulgeTheta b / 2) := by
  rcases le_or_lt 0 b with hb | hb
  · rw [bulgeSign, if_pos hb, abs_of_nonneg (bulgeTheta_nonneg hb), one_mul]
  · rw [bulgeSign, if_neg (not_le.2 hb), abs_of_neg (bulgeTheta_neg hb)]
    rw [neg_div, Real.sin_neg]
    ring

/-- The half-angle cosine used by `bulgeToArc`: `cos (|θ|/2) = cos (θ/2)`. -/
lemma cos_abs_half (t : ℝ) : Real.cos (|t| / 2) = Real.cos (t / 2) := by
  rcases le_or_lt 0 t with h | h
  · rw [abs_of_nonneg h]
  · rw [abs_of_neg h, neg_div, Real.cos_neg]

/-- For a nonzero bulge the absolute central angle lies in `(0, 2π)`. -/
lemma bulgeTheta_abs_bounds {b : ℝ} (hb : b ≠ 0) :
    0 < |bulgeTheta b| ∧ |bulgeTheta b| < 2 * π := by
  constructor
  · refine abs_pos.2 ?_
    intro h
    have : Real.arctan b = 0 := by unfold bulgeTheta at h; linarith
    exact hb (Real.arctan_eq_zero_iff.mp this)
  · have h1 : Real.arctan b < π / 2 := Real.arctan_lt_pi_div_two b
    have h2 : -(π / 2) < Real.arctan b := Real.neg_pi_div_two_lt_arctan b
    have : |Real.arctan b| < π / 2 := abs_lt.2 ⟨by linarith, h1⟩
    have habs : |bulgeTheta b| = 4 * |Real.arctan b| := by
      unfold bulgeTheta
      rw [abs_mul]
      norm_num
    rw [habs]; linarith

/-- The half angle `|θ|/2` lies in `(0, π)`, so its sine is positive. -/
lemma sin_half_bulgeTheta_pos {b : ℝ} (hb : b ≠ 0) :
    0 < Real.sin (|bulgeTheta b| / 2) := by
  obtain ⟨h0, h2⟩ := bulgeTheta_abs_bounds hb
  exact Real.sin_pos_of_pos_of_lt_pi (by linarith) (by linarith)

/-- Vector from the center to `p1`, coordinate by coordinate. -/
lemma p1_sub_center_x (p1 p2 : Pt) (b : ℝ) :
    p1.x - (bulgeCenter p1 p2 b).x
      = -(p2.x - p1.x) / 2 + bulgeSign b * bulgeH p1 p2 b * ((p2.y - p1.y) / chord p1 p2) := by
  unfold bulgeCenter; ring

/-- Vector from the center to `p1`, y coordinate. -/
lemma p1_sub_center_y (p1 p2 : Pt) (b : ℝ) :
    p1.y - (bulgeCenter p1 p2 b).y
      = -(p2.y - p1.y) / 2 - bulgeSign b * bulgeH p1 p2 b * ((p2.x - p1.x) / chord p1 p2) := by
  unfold bulgeCenter; ring

/-- Vector from the center to `p2`, x coordinate. -/
lemma p2_sub_center_x (p1 p2 : Pt) (b : ℝ) :
    p2.x - (bulgeCenter p1 p2 b).x
      = (p2.x - p1.x) / 2 + bulgeSign b * bulgeH p1 p2 b * ((p2.y - p1.y) / chord p1 p2) := by
  unfold bulgeCenter; ring

/-- Vector from the center to `p2`, y coordinate. -/
lemma p2_sub_center_y (p1 p2 : Pt) (b : ℝ) :
    p2.y - (bulgeCenter p1 p2 b).y
      = (p2.y - p1.y) / 2 - bulgeSign b * bulgeH p1 p2 b * ((p2.x - p1.x) / chord p1 p2) := by
  unfold bulgeCenter; ring

/-- The chord squared equals `dx^2 + dy^2`. -/
lemma chord_sq (p1 p2 : Pt) : (chord p1 p2) ^ 2 = (p2.x - p1.x) ^ 2 + (p2.y - p1.y) ^ 2 := by
  unfold chord hypot
  exact Real.sq_sqrt (by positivity)

/-- `bulgeSign` squares to one. -/
lemma bulgeSign_sq (b : ℝ) : bulgeSign b ^ 2 = 1 := by
  unfold bulgeSign; split <;> norm_num

/-- `bulgeSign` is nonzero. -/
lemma bulgeSign_ne_zero (b : ℝ) : bulgeSign b ≠ 0 := by
  unfold bulgeSign; split <;> norm_num

/-- The chord expressed through the radius: `chord = 2 * R * sin (|θ|/2)`. -/
lemma chord_eq_radius (p1 p2 : Pt) (b : ℝ) (hb : b ≠ 0) :
    chord p1 p2 = 2 * bulgeRadius p1 p2 b * Real.sin (|bulgeTheta b| / 2) := by
  have hS := sin_half_bulgeTheta_pos hb
  unfold bulgeRadius
  field_simp
  ring

/-- The center returned by `bulgeToArc` is equidistant from `p1` and `p2`,
at distance exactly `bulgeRadius` (squared form). -/
lemma center_equidistant (p1 p2 : Pt) (b : ℝ) (hb : b ≠ 0) (hch : 0 < chord p1 p2) :
    (p1.x - (bulgeCenter p1 p2 b).x) ^ 2 + (p1.y - (bulgeCenter p1 p2 b).y) ^ 2
        = bulgeRadius p1 p2 b ^ 2 ∧
    (p2.x - (bulgeCenter p1 p2 b).x) ^ 2 + (p2.y - (bulgeCenter p1 p2 b).y) ^ 2
        = bulgeRadius p1 p2 b ^ 2 := by
  have hS := sin_half_bulgeTheta_pos hb
  have hchne : chord p1 p2 ≠ 0 := ne_of_gt hch
  have hch2 := chord_sq p1 p2
  have hs2 := bulgeSign_sq b
  have hH : bulgeH p1 p2 b
      = bulgeRadius p1 p2 b * Real.cos (|bulgeTheta b| / 2) := rfl
  have hchR := chord_eq_radius p1 p2 b hb
  have h1 := Real.sin_sq_add_cos_sq (|bulgeTheta b| / 2)
  constructor
  · rw [p1_sub_center_x, p1_sub_center_y]
    calc (-(p2.x - p1.x) / 2
            + bulgeSign b * bulgeH p1 p2 b * ((p2.y - p1.y) / chord p1 p2)) ^ 2
          + (-(p2.y - p1.y) / 2
            - bulgeSign b * bulgeH p1 p2 b * ((p2.x - p1.x) / chord p1 p2)) ^ 2
        = ((p2.x - p1.x) ^ 2 + (p2.y - p1.y) ^ 2) * (1 / 4)
            + bulgeSign b ^ 2 * bulgeH p1 p2 b ^ 2
              * (((p2.x - p1.x) ^ 2 + (p2.y - p1.y) ^ 2) / chord p1 p2 ^ 2) := by
          ring
      _ = chord p1 p2 ^ 2 * (1 / 4)
            + bulgeSign b ^ 2 * bulgeH p1 p2 b ^ 2 * (chord p1 p2 ^ 2 / chord p1 p2 ^ 2) := by
          rw [hch2]
      _ = chord p1 p2 ^ 2 * (1 / 4) + 1 * bulgeH p1 p2 b ^ 2 := by
          rw [hs2, div_self (pow_ne_zero 2 hchne)]
          ring
      _ = (2 * bulgeRadius p1 p2 b * Real.sin (|bulgeTheta b| / 2)) ^ 2 * (1 / 4)
            + (bulgeRadius p1 p2 b * Real.cos (|bulgeTheta b| / 2)) ^ 2 := by
          rw [← hchR, ← hH]
          ring
      _ = bulgeRadius p1 p2 b ^ 2
            * (Real.sin (|bulgeTheta b| / 2) ^ 2 + Real.cos (|bulgeTheta b| / 2) ^ 2) := by
          ring
      _ = bulgeRadius p1 p2 b ^ 2 := by rw [h1, mul_one]
  · rw [p2_sub_center_x, p2_sub_center_y]
    calc ((p2.x - p1.x) / 2
            + bulgeSign b * bulgeH p1 p2 b * ((p2.y - p1.y) / chord p1 p2)) ^ 2
          + ((p2.y - p1.y) / 2
            - bulgeSign b * bulgeH p1 p2 b * ((p2.x - p1.x) / chord p1 p2)) ^ 2
        = ((p2.x - p1.x) ^ 2 + (p2.y - p1.y) ^ 2) * (1 / 4)
            + bulgeSign b ^ 2 * bulgeH p1 p2 b ^ 2
              * (((p2.x - p1.x) ^ 2 + (p2.y - p1.y) ^ 2) / chord p1 p2 ^ 2) := by
          ring
      _ = chord p1 p2 ^ 2 * (1 / 4)
            + bulgeSign b ^ 2 * bulgeH p1 p2 b ^ 2 * (chord p1 p2 ^ 2 / chord p1 p2 ^ 2) := by
          rw [hch2]
      _ = chord p1 p2 ^ 2 * (1 / 4) + 1 * bulgeH p1 p2 b ^ 2 := by
          rw [hs2, div_self (pow_ne_zero 2 hchne)]
          ring
      _ = (2 * bulgeRadius p1 p2 b * Real.sin (|bulgeTheta b| / 2)) ^ 2 * (1 / 4)
            + (bulgeRadius p1 p2 b * Real.cos (|bulgeTheta b| / 2)) ^ 2 := by
          rw [← hchR, ← hH]
          ring
      _ = bulgeRadius p1 p2 b ^ 2
            * (Real.sin (|bulgeTheta b| / 2) ^ 2 + Real.cos (|bulgeTheta b| / 2) ^ 2) := by
          ring
      _ = bulgeRadius p1 p2 b ^ 2 := by rw [h1, mul_one]

/-- The offset ratio `s * h / chord` equals `cos(θ/2) / (2 sin(θ/2))` with the
signed half angle (this is where the sign convention of the source combines
`bulgeSign` and the absolute half angle into the signed one). -/
lemma bulge_offset_ratio (p1 p2 : Pt) (b : ℝ) (hb : b ≠ 0) (hch : 0 < chord p1 p2) :
    bulgeSign b * bulgeH p1 p2 b / chord p1 p2
      = Real.cos (bulgeTheta b / 2) / (2 * Real.sin (bulgeTheta b / 2)) := by
  have hS := sin_half_bulgeTheta_pos hb
  have hchne : chord p1 p2 ≠ 0 := ne_of_gt hch
  have hs2 := bulgeSign_sq b
  have hsne := bulgeSign_ne_zero b
  rw [← bulgeSign_mul_sin b]
  unfold bulgeH bulgeRadius
  rw [cos_abs_half]
  field_simp
  linear_combination (chord p1 p2 * Real.cos (bulgeTheta b / 2) * Real.sin (|bulgeTheta b| / 2) * 2) * hs2

/-- Rotating the vector from the center to `p1` by the signed angle `θ`
produces the vector from the center to `p2`: this is the round-trip core of
`bulgeToArc`. -/
lemma bulge_rotation (p1 p2 : Pt) (b : ℝ) (hb : b ≠ 0) (hch : 0 < chord p1 p2) :
    (p1.x - (bulgeCenter p1 p2 b).x) * Real.cos (bulgeTheta b)
        - (p1.y - (bulgeCenter p1 p2 b).y) * Real.sin (bulgeTheta b)
      = p2.x - (bulgeCenter p1 p2 b).x ∧
    (p1.x - (bulgeCenter p1 p2 b).x) * Real.sin (bulgeTheta b)
        + (p1.y - (bulgeCenter p1 p2 b).y) * Real.cos (bulgeTheta b)
      = p2.y - (bulgeCenter p1 p2 b).y := by
  have hS := sin_half_bulgeTheta_pos hb
  have hS2ne : Real.sin (bulgeTheta b / 2) ≠ 0 := by
    rw [← bulgeSign_mul_sin b]
    exact mul_ne_zero (bulgeSign_ne_zero b) (ne_of_gt hS)
  have hK := bulge_offset_ratio p1 p2 b hb hch
  have hcosθ : Real.cos (bulgeTheta b) = 2 * Real.cos (bulgeTheta b / 2) ^ 2 - 1 := by
    have h2 : 2 * (bulgeTheta b / 2) = bulgeTheta b := by ring
    have := Real.cos_two_mul (bulgeTheta b / 2)
    rw [h2] at this
    exact this
  have hsinθ : Real.sin (bulgeTheta b)
      = 2 * Real.sin (bulgeTheta b / 2) * Real.cos (bulgeTheta b / 2) := by
    have h2 : 2 * (bulgeTheta b / 2) = bulgeTheta b := by ring
    have := Real.sin_two_mul (bulgeTheta b / 2)
    rw [h2] at this
    exact this
  have hfac : ∀ t : ℝ, bulgeSign b * bulgeH p1 p2 b * (t / chord p1 p2)
      = bulgeSign b * bulgeH p1 p2 b / chord p1 p2 * t := by
    intro t; ring
  have hpyth := Real.sin_sq_add_cos_sq (bulgeTheta b / 2)
  constructor
  · rw [p1_sub_center_x, p1_sub_center_y, p2_sub_center_x]
    simp only [hfac]
    rw [hK, hcosθ, hsinθ]
    field_simp
    linear_combination (4 * (p2.y - p1.y) * Real.cos (bulgeTheta b / 2)) * hpyth
  · rw [p1_sub_center_x, p1_sub_center_y, p2_sub_center_y]
    simp only [hfac]
    rw [hK, hcosθ, hsinθ]
    field_simp
    linear_combination (-4 * (p2.x - p1.x) * Real.cos (bulgeTheta b / 2)) * hpyth

/-- The bulge radius is positive for a nonzero bulge and nondegenerate chord. -/
lemma bulgeRadius_pos (p1 p2 : Pt) (b : ℝ) (hb : b ≠ 0) (hch : 0 < chord p1 p2) :
    0 < bulgeRadius p1 p2 b := by
  have hS := sin_half_bulgeTheta_pos hb
  unfold bulgeRadius
  exact div_pos hch (by positivity)

/-- Walking the arc: the start angle points from the center to `p1`, and
after adding the sweep `θ` it points from the center to `p2`. -/
lemma bulge_walk (p1 p2 : Pt) (b : ℝ) (hb : b ≠ 0) (hch : 0 < chord p1 p2) :
    (bulgeCenter p1 p2 b).x + bulgeRadius p1 p2 b
        * Real.cos (atan2 (p1.y - (bulgeCenter p1 p2 b).y) (p1.x - (bulgeCenter p1 p2 b).x))
      = p1.x ∧
    (bulgeCenter p1 p2 b).y + bulgeRadius p1 p2 b
        * Real.sin (atan2 (p1.y - (bulgeCenter p1 p2 b).y) (p1.x - (bulgeCenter p1 p2 b).x))
      = p1.y ∧
    (bulgeCenter p1 p2 b).x + bulgeRadius p1 p2 b
        * Real.cos (atan2 (p1.y - (bulgeCenter p1 p2 b).y) (p1.x - (bulgeCenter p1 p2 b).x)
            + bulgeTheta b)
      = p2.x ∧
    (bulgeCenter p1 p2 b).y + bulgeRadius p1 p2 b
        * Real.sin (atan2 (p1.y - (bulgeCenter p1 p2 b).y) (p1.x - (bulgeCenter p1 p2 b).x)
            + bulgeTheta b)
      = p2.y := by
  have hRpos := bulgeRadius_pos p1 p2 b hb hch
  have hd1 := (center_equidistant p1 p2 b hb hch).1
  have hrot := bulge_rotation p1 p2 b hb hch
  have hw : ((⟨p1.x - (bulgeCenter p1 p2 b).x, p1.y - (bulgeCenter p1 p2 b).y⟩ : ℂ)) ≠ 0 := by
    intro h0
    have hre : p1.x - (bulgeCenter p1 p2 b).x = 0 := congrArg Complex.re h0
    have him : p1.y - (bulgeCenter p1 p2 b).y = 0 := congrArg Complex.im h0
    rw [hre, him] at hd1
    nlinarith [hRpos]
  have habs : Complex.abs ⟨p1.x - (bulgeCenter p1 p2 b).x, p1.y - (bulgeCenter p1 p2 b).y⟩
      = bulgeRadius p1 p2 b := by
    rw [Complex.abs_apply, Complex.normSq_mk]
    rw [show (p1.x - (bulgeCenter p1 p2 b).x) * (p1.x - (bulgeCenter p1 p2 b).x)
          + (p1.y - (bulgeCenter p1 p2 b).y) * (p1.y - (bulgeCenter p1 p2 b).y)
        = (p1.x - (bulgeCenter p1 p2 b).x) ^ 2 + (p1.y - (bulgeCenter p1 p2 b).y) ^ 2 by ring]
    rw [hd1]
    exact Real.sqrt_sq hRpos.le
  have hcosS : Real.cos (atan2 (p1.y - (bulgeCenter p1 p2 b).y) (p1.x - (bulgeCenter p1 p2 b).x))
      = (p1.x - (bulgeCenter p1 p2 b).x) / bulgeRadius p1 p2 b := by
    have h := Complex.cos_arg hw
    rw [habs] at h
    exact h
  have hsinS : Real.sin (atan2 (p1.y - (bulgeCenter p1 p2 b).y) (p1.x - (bulgeCenter p1 p2 b).x))
      = (p1.y - (bulgeCenter p1 p2 b).y) / bulgeRadius p1 p2 b := by
    have h := Complex.sin_arg (⟨p1.x - (bulgeCenter p1 p2 b).x, p1.y - (bulgeCenter p1 p2 b).y⟩ : ℂ)
    rw [habs] at h
    exact h
  have hRne : bulgeRadius p1 p2 b ≠ 0 := ne_of_gt hRpos
  refine ⟨?_, ?_, ?_, ?_⟩
  · rw [hcosS]; field_simp
  · rw [hsinS]; field_simp
  · rw [Real.cos_add, hcosS, hsinS]
    field_simp
    linear_combination hrot.1
  · rw [Real.sin_add, hcosS, hsinS]
    field_simp
    linear_combination hrot.2

/-- Degrees-to-radians round trip used to read the stored degree angles. -/
lemma deg_rad_round (a : ℝ) : a * 180 / π * (π / 180) = a := by
  have hpi := Real.pi_ne_zero
  field_simp

/-- C1: for every pair of points whose chord length is at least `1e-12` and
every bulge `b` with `|b| ≥ 1e-12`, `bulgeToArc` returns an arc whose center
is at distance `radius` from both `p1` and `p2`, whose `startAngle` (stored in
degrees) points from the center to `p1`, whose `endAngle` is `startAngle` plus
the signed included angle `θ = 4·atan b` (in degrees), and walking the arc
from the start angle through the sweep `θ` terminates exactly at `p2` (exact
real arithmetic). -/
theorem C1_bulgeToArc_roundtrip (p1 p2 : Pt) (b : ℝ)
    (hb : 1e-12 ≤ |b|) (hc : 1e-12 ≤ chord p1 p2) :
    ∃ arc : Arc,
      bulgeToArc p1 p2 b = some arc ∧
      (p1.x - arc.cx) ^ 2 + (p1.y - arc.cy) ^ 2 = arc.radius ^ 2 ∧
      (p2.x - arc.cx) ^ 2 + (p2.y - arc.cy) ^ 2 = arc.radius ^ 2 ∧
      arc.cx + arc.radius * Real.cos (arc.startAngle * (π / 180)) = p1.x ∧
      arc.cy + arc.radius * Real.sin (arc.startAngle * (π / 180)) = p1.y ∧
      arc.endAngle = arc.startAngle + bulgeTheta b * 180 / π ∧
      arc.cx + arc.radius * Real.cos (arc.startAngle * (π / 180) + bulgeTheta b) = p2.x ∧
      arc.cy + arc.radius * Real.sin (arc.startAngle * (π / 180) + bulgeTheta b) = p2.y := by
  have hbne : b ≠ 0 := by
    intro h; rw [h] at hb; norm_num at hb
  have hch : 0 < chord p1 p2 := lt_of_lt_of_le (by norm_num) hc
  have hguard1 : ¬ (|b| < 1e-12) := not_lt.2 hb
  have hguard2 : ¬ (chord p1 p2 < 1e-12) := not_lt.2 hc
  have hRpos := bulgeRadius_pos p1 p2 b hbne hch
  have harc : bulgeToArc p1 p2 b = some
      { cx := (bulgeCenter p1 p2 b).x
        cy := (bulgeCenter p1 p2 b).y
        radius := |bulgeRadius p1 p2 b|
        startAngle := atan2 (p1.y - (bulgeCenter p1 p2 b).y)
            (p1.x - (bulgeCenter p1 p2 b).x) * 180 / π
        endAngle := (atan2 (p1.y - (bulgeCenter p1 p2 b).y)
            (p1.x - (bulgeCenter p1 p2 b).x) + bulgeTheta b) * 180 / π
        counterClockwise := if 0 < bulgeTheta b then true else false
        theta := bulgeTheta b } := by
    rw [bulgeToArc, if_neg hguard1, if_neg hguard2]
  refine ⟨_, harc, ?_, ?_, ?_, ?_, ?_, ?_, ?_⟩ <;> dsimp only
  · rw [sq_abs]
    exact (center_equidistant p1 p2 b hbne hch).1
  · rw [sq_abs]
    exact (center_equidistant p1 p2 b hbne hch).2
  · rw [deg_rad_round, abs_of_pos hRpos]
    exact (bulge_walk p1 p2 b hbne hch).1
  · rw [deg_rad_round, abs_of_pos hRpos]
    exact (bulge_walk p1 p2 b hbne hch).2.1
  · ring
  · rw [deg_rad_round, abs_of_pos hRpos]
    exact (bulge_walk p1 p2 b hbne hch).2.2.1
  · rw [deg_rad_round, abs_of_pos hRpos]
    exact (bulge_walk p1 p2 b hbne hch).2.2.2

/-- Witness for C1 at the concrete input `p1 = (0,0)`, `p2 = (2,0)`, `b = 1`
(a counter-clockwise semicircle). -/
theorem C1_bulgeToArc_roundtrip_witness :
    ∃ arc : Arc,
      bulgeToArc ⟨0, 0⟩ ⟨2, 0⟩ 1 = some arc ∧
      ((0:ℝ) - arc.cx) ^ 2 + ((0:ℝ) - arc.cy) ^ 2 = arc.radius ^ 2 ∧
      ((2:ℝ) - arc.cx) ^ 2 + ((0:ℝ) - arc.cy) ^ 2 = arc.radius ^ 2 ∧
      arc.cx + arc.radius * Real.cos (arc.startAngle * (π / 180)) = 0 ∧
      arc.cy + arc.radius * Real.sin (arc.startAngle * (π / 180)) = 0 ∧
      arc.endAngle = arc.startAngle + bulgeTheta 1 * 180 / π ∧
      arc.cx + arc.radius * Real.cos (arc.startAngle * (π / 180) + bulgeTheta 1) = 2 ∧
      arc.cy + arc.radius * Real.sin (arc.startAngle * (π / 180) + bulgeTheta 1) = 0 := by
  have hch : chord ⟨0, 0⟩ ⟨2, 0⟩ = 2 := by
    unfold chord hypot
    norm_num
    rw [show (4:ℝ) = 2 ^ 2 by norm_num, Real.sqrt_sq (by norm_num : (0:ℝ) ≤ 2)]
  exact C1_bulgeToArc_roundtrip ⟨0, 0⟩ ⟨2, 0⟩ 1 (by norm_num) (by rw [hch]; norm_num)

end DXFParser

section

variable {V : Type}

/-- Pointwise sum of mapped lists splits. -/
lemma list_sum_map_add (l : List V) (f g : V → ℝ) :
    (l.map (fun x => f x + g x)).sum = (l.map f).sum + (l.map g).sum := by
  induction l with
  | nil => simp
  | cons a t ih => simp [ih]; ring

/-- Constant multiplier moves out of a mapped sum. -/
lemma list_sum_map_mul_left (c : ℝ) (l : List V) (f : V → ℝ) :
    (l.map (fun x => c * f x)).sum = c * (l.map f).sum := by
  induction l with
  | nil => simp
  | cons a t ih => simp [ih]; ring

/-- Over the cyclic pairing `zip l (l.rotate 1)` the second components are a
permutation of the first components, so any per-vertex quantity sums equally
over both (the telescoping used for translation stability). -/
lemma cyc_snd_sum_eq_fst_sum (l : List V) (f : V → ℝ) :
    ((l.zip (l.rotate 1)).map (fun p => f p.2)).sum
      = ((l.zip (l.rotate 1)).map (fun p => f p.1)).sum := by
  have hlen : (l.rotate 1).length = l.length := List.length_rotate l 1
  have hfst : (l.zip (l.rotate 1)).map Prod.fst = l :=
    List.map_fst_zip l (l.rotate 1) (by rw [hlen])
  have hsnd : (l.zip (l.rotate 1)).map Prod.snd = l.rotate 1 :=
    List.map_snd_zip l (l.rotate 1) (by rw [hlen])
  have h1 : ((l.zip (l.rotate 1)).map (fun p => f p.2)).sum = ((l.rotate 1).map f).sum := by
    have h := congrArg (fun m => (m.map f).sum) hsnd
    simp only [List.map_map] at h
    exact h
  have h2 : ((l.zip (l.rotate 1)).map (fun p => f p.1)).sum = (l.map f).sum := by
    have h := congrArg (fun m => (m.map f).sum) hfst
    simp only [List.map_map] at h
    exact h
  rw [h1, h2]
  exact List.Perm.sum_eq (List.Perm.map f (List.rotate_perm l 1))

/-- Appending the closing element: the key step for rotation invariance of
cyclic pair sums. -/
lemma cyc_append_step (g : V × V → ℝ) :
    ∀ (t : List V) (b x w : V),
      (((b :: (t ++ [x])).zip ((t ++ [x]) ++ [w])).map g).sum
        = g (x, w) + (((b :: t).zip (t ++ [x])).map g).sum := by
  intro t
  induction t with
  | nil =>
    intro b x w
    show (((b :: [x]).zip ([x] ++ [w])).map g).sum = g (x, w) + (((b :: []).zip [x]).map g).sum
    simp only [List.cons_append, List.nil_append, List.zip_cons_cons, List.zip_nil_left,
      List.zip_nil_right, List.map_cons, List.map_nil, List.sum_cons, List.sum_nil]
    ring
  | cons c t' ih =>
    intro b x w
    show (((b :: (c :: (t' ++ [x]))).zip (c :: ((t' ++ [x]) ++ [w]))).map g).sum
        = g (x, w) + (((b :: (c :: t')).zip (c :: (t' ++ [x]))).map g).sum
    simp only [List.zip_cons_cons, List.map_cons, List.sum_cons]
    rw [ih c x w]
    ring

/-- A cyclic pair sum is unchanged by a single rotation of the list. -/
lemma cycSum_rotate_one (g : V × V → ℝ) (l : List V) :
    (((l.rotate 1).zip ((l.rotate 1).rotate 1)).map g).sum
      = ((l.zip (l.rotate 1)).map g).sum := by
  cases l with
  | nil => simp
  | cons v t =>
    cases t with
    | nil => simp [List.rotate_singleton]
    | cons b t' =>
      have hrot : (v :: b :: t').rotate 1 = (b :: t') ++ [v] := by
        rw [List.rotate_cons_succ, List.rotate_zero]
      have hrot2 : ((b :: t') ++ [v]).rotate 1 = (t' ++ [v]) ++ [b] := by
        rw [show (b :: t') ++ [v] = b :: (t' ++ [v]) by simp,
          List.rotate_cons_succ, List.rotate_zero]
      rw [hrot, hrot2]
      rw [show (b :: t') ++ [v] = b :: (t' ++ [v]) by simp]
      rw [cyc_append_step g t' b v b]
      simp only [List.zip_cons_cons, List.map_cons, List.sum_cons]

/-- A cyclic pair sum is unchanged by any rotation of the list. -/
lemma cycSum_rotate (g : V × V → ℝ) (l : List V) (k : ℕ) :
    (((l.rotate k).zip ((l.rotate k).rotate 1)).map g).sum
      = ((l.zip (l.rotate 1)).map g).sum := by
  induction k with
  | zero => rw [List.rotate_zero]
  | succ n ih =>
    have h : l.rotate (n + 1) = (l.rotate n).rotate 1 := by
      rw [List.rotate_rotate]
    rw [h, cycSum_rotate_one g (l.rotate n), ih]

/-- Pointwise difference of mapped lists splits. -/
lemma list_sum_map_sub (l : List V) (f g : V → ℝ) :
    (l.map (fun x => f x - g x)).sum = (l.map f).sum - (l.map g).sum := by
  induction l with
  | nil => simp
  | cons a t ih => simp [ih]; ring

/-- Any telescoping quantity sums to zero over the cyclic pairing. -/
lemma cyc_telescope (l : List V) (f : V → ℝ) :
    ((l.zip (l.rotate 1)).map (fun p => f p.2 - f p.1)).sum = 0 := by
  rw [list_sum_map_sub, cyc_snd_sum_eq_fst_sum, sub_self]

end

namespace DXFViewerApp

/-- With all bulges zero, the shifted shoelace accumulated by
`calculateGeometricArea` equals the plain shoelace sum: the translation terms
telescope to zero around the closed cycle. -/
lemma geomArea_sum_eq_shoelace (vs : List (Vtx ℝ)) (a c : ℝ)
    (hb : ∀ v ∈ vs, v.bulge = 0) :
    ((vs.zip (vs.rotate 1)).map (geomAreaTerm a c)).sum = shoelaceSum vs := by
  have hstep1 : (vs.zip (vs.rotate 1)).map (geomAreaTerm a c)
      = (vs.zip (vs.rotate 1)).map (fun p =>
          (fun q => q.1.x * q.2.y - q.2.x * q.1.y) p
            + c * ((fun v : Vtx ℝ => v.x) p.2 - (fun v : Vtx ℝ => v.x) p.1)
            + a * ((fun v : Vtx ℝ => -v.y) p.2 - (fun v : Vtx ℝ => -v.y) p.1)) := by
    refine List.map_congr_left ?_
    intro p hp
    have hb1 : p.1.bulge = 0 := hb p.1 (List.of_mem_zip (by rwa [← Prod.mk.eta (p := p)] at hp)).1
    simp only [geomAreaTerm, hb1]
    rw [if_neg (by norm_num)]
    ring
  rw [hstep1]
  rw [show (fun p : Vtx ℝ × Vtx ℝ =>
      (fun q : Vtx ℝ × Vtx ℝ => q.1.x * q.2.y - q.2.x * q.1.y) p
        + c * ((fun v : Vtx ℝ => v.x) p.2 - (fun v : Vtx ℝ => v.x) p.1)
        + a * ((fun v : Vtx ℝ => -v.y) p.2 - (fun v : Vtx ℝ => -v.y) p.1))
    = (fun p : Vtx ℝ × Vtx ℝ =>
      ((fun q : Vtx ℝ × Vtx ℝ => q.1.x * q.2.y - q.2.x * q.1.y) p
        + (fun q : Vtx ℝ × Vtx ℝ =>
            c * ((fun v : Vtx ℝ => v.x) q.2 - (fun v : Vtx ℝ => v.x) q.1)) p)
        + (fun q : Vtx ℝ × Vtx ℝ =>
            a * ((fun v : Vtx ℝ => -v.y) q.2 - (fun v : Vtx ℝ => -v.y) q.1)) p) from rfl]
  rw [list_sum_map_add, list_sum_map_add]
  rw [show (fun q : Vtx ℝ × Vtx ℝ =>
      c * ((fun v : Vtx ℝ => v.x) q.2 - (fun v : Vtx ℝ => v.x) q.1))
    = (fun q : Vtx ℝ × Vtx ℝ =>
      c * ((fun p : Vtx ℝ × Vtx ℝ =>
        (fun v : Vtx ℝ => v.x) p.2 - (fun v : Vtx ℝ => v.x) p.1) q)) from rfl]
  rw [list_sum_map_mul_left, cyc_telescope]
  rw [show (fun q : Vtx ℝ × Vtx ℝ =>
      a * ((fun v : Vtx ℝ => -v.y) q.2 - (fun v : Vtx ℝ => -v.y) q.1))
    = (fun q : Vtx ℝ × Vtx ℝ =>
      a * ((fun p : Vtx ℝ × Vtx ℝ =>
        (fun v : Vtx ℝ => -v.y) p.2 - (fun v : Vtx ℝ => -v.y) p.1) q)) from rfl]
  rw [list_sum_map_mul_left, cyc_telescope vs (fun v : Vtx ℝ => -v.y)]
  simp [shoelaceSum]

end DXFViewerApp

section

variable {V : Type}

/-- Adding two telescoping correction terms to a cyclic pair sum does not
change its value. -/
lemma cycSum_add_telescopes (l : List V) (g : V × V → ℝ) (c1 c2 : ℝ) (f1 f2 : V → ℝ) :
    ((l.zip (l.rotate 1)).map (fun p => g p + c1 * (f1 p.2 - f1 p.1)
        + c2 * (f2 p.2 - f2 p.1))).sum
      = ((l.zip (l.rotate 1)).map g).sum := by
  rw [show (fun p : V × V => g p + c1 * (f1 p.2 - f1 p.1) + c2 * (f2 p.2 - f2 p.1))
      = (fun p : V × V => ((fun q : V × V => g q + c1 * (f1 q.2 - f1 q.1)) p)
          + ((fun q : V × V => c2 * ((fun r : V × V => f2 r.2 - f2 r.1) q)) p)) from rfl]
  rw [list_sum_map_add, list_sum_map_mul_left, cyc_telescope l f2]
  rw [show (fun q : V × V => g q + c1 * (f1 q.2 - f1 q.1))
      = (fun p : V × V => (g p) + ((fun q : V × V => c1 * ((fun r : V × V => f1 r.2 - f1 r.1) q)) p)) from rfl]
  rw [list_sum_map_add, list_sum_map_mul_left, cyc_telescope l f1]
  ring

end

namespace DXFViewerApp

/-- The plain shoelace sum over a closed cycle is translation invariant
(the translation terms telescope). -/
lemma shoelaceSum_translate (vs : List (Vtx ℝ)) (tx ty : ℝ) :
    shoelaceSum (vs.map (translateVtx tx ty)) = shoelaceSum vs := by
  unfold shoelaceSum
  rw [← List.map_rotate, List.zip_map, List.map_map]
  have hcong : ((fun p : Vtx ℝ × Vtx ℝ => p.1.x * p.2.y - p.2.x * p.1.y)
        ∘ Prod.map (translateVtx tx ty) (translateVtx tx ty))
      = fun p : Vtx ℝ × Vtx ℝ => (fun q : Vtx ℝ × Vtx ℝ => q.1.x * q.2.y - q.2.x * q.1.y) p
          + ty * ((fun v : Vtx ℝ => -v.x) p.2 - (fun v : Vtx ℝ => -v.x) p.1)
          + tx * ((fun v : Vtx ℝ => v.y) p.2 - (fun v : Vtx ℝ => v.y) p.1) := by
    funext p
    simp only [Function.comp_apply, Prod.map, translateVtx]
    ring
  rw [hcong]
  exact cycSum_add_telescopes vs (fun q : Vtx ℝ × Vtx ℝ => q.1.x * q.2.y - q.2.x * q.1.y)
    ty tx (fun v : Vtx ℝ => -v.x) (fun v : Vtx ℝ => v.y)

/-- Degenerate vertex lists (fewer than 3 vertices) have zero shoelace sum. -/
lemma shoelaceSum_short (vs : List (Vtx ℝ)) (h : vs.length < 3) : shoelaceSum vs = 0 := by
  match vs with
  | [] => simp [shoelaceSum]
  | [a] =>
    simp only [shoelaceSum, List.rotate_singleton, List.zip_cons_cons, List.zip_nil_right,
      List.map_cons, List.map_nil, List.sum_cons, List.sum_nil]
    ring
  | [a, b] =>
    have hrot : ([a, b] : List (Vtx ℝ)).rotate 1 = [b, a] := by
      rw [List.rotate_cons_succ, List.rotate_zero]
      rfl
    simp only [shoelaceSum, hrot, List.zip_cons_cons, List.zip_nil_right,
      List.map_cons, List.map_nil, List.sum_cons, List.sum_nil]
    ring
  | a :: b :: c :: t => simp at h; omega

/-- With all bulges zero, `calculateGeometricArea` is the absolute value of
the standard shoelace area. -/
lemma calculateGeometricArea_eq_shoelace (vs : List (Vtx ℝ))
    (hb : ∀ v ∈ vs, v.bulge = 0) :
    calculateGeometricArea vs = |shoelaceSum vs| / 2 := by
  by_cases hlen : vs.length < 3
  · unfold calculateGeometricArea
    rw [if_pos hlen, shoelaceSum_short vs hlen]
    simp
  · cases vs with
    | nil => exact absurd (by norm_num) hlen
    | cons v0 rest =>
      unfold calculateGeometricArea
      rw [if_neg hlen]
      dsimp only
      rw [geomArea_sum_eq_shoelace (v0 :: rest) v0.x v0.y hb]
      rw [abs_div, abs_two]

/-- C2: for every closed polygon with all bulges zero,
`calculateGeometricArea` equals the absolute value of the standard shoelace
area, is unchanged by any cyclic rotation of the vertex list, and (in exact
arithmetic) is unchanged by translating every vertex by a common offset. -/
theorem C2_calculateGeometricArea_shoelace (vs : List (Vtx ℝ))
    (hb : ∀ v ∈ vs, v.bulge = 0) :
    calculateGeometricArea vs = |shoelaceSum vs| / 2 ∧
    (∀ k : ℕ, calculateGeometricArea (vs.rotate k) = calculateGeometricArea vs) ∧
    (∀ tx ty : ℝ,
      calculateGeometricArea (vs.map (translateVtx tx ty)) = calculateGeometricArea vs) := by
  refine ⟨calculateGeometricArea_eq_shoelace vs hb, ?_, ?_⟩
  · intro k
    have hbrot : ∀ v ∈ vs.rotate k, v.bulge = 0 := fun v hv => hb v (List.mem_rotate.1 hv)
    rw [calculateGeometricArea_eq_shoelace _ hbrot, calculateGeometricArea_eq_shoelace vs hb]
    have hrot : shoelaceSum (vs.rotate k) = shoelaceSum vs := by
      unfold shoelaceSum
      exact cycSum_rotate (fun p : Vtx ℝ × Vtx ℝ => p.1.x * p.2.y - p.2.x * p.1.y) vs k
    rw [hrot]
  · intro tx ty
    have hbt : ∀ v ∈ vs.map (translateVtx tx ty), v.bulge = 0 := by
      intro v hv
      obtain ⟨w, hw, rfl⟩ := List.mem_map.1 hv
      exact hb w hw
    rw [calculateGeometricArea_eq_shoelace _ hbt, calculateGeometricArea_eq_shoelace vs hb]
    rw [shoelaceSum_translate]

/-- Witness for C2: the unit square with zero bulges, rotated and translated
(in particular by the claim's offset `(1e6, 1e6)`). -/
theorem C2_calculateGeometricArea_shoelace_witness :
    (∀ v ∈ ([⟨0, 0, 0, none, none⟩, ⟨1, 0, 0, none, none⟩,
        ⟨1, 1, 0, none, none⟩, ⟨0, 1, 0, none, none⟩] : List (Vtx ℝ)), v.bulge = 0) ∧
    (calculateGeometricArea [⟨0, 0, 0, none, none⟩, ⟨1, 0, 0, none, none⟩,
        ⟨1, 1, 0, none, none⟩, ⟨0, 1, 0, none, none⟩]
      = |shoelaceSum [⟨0, 0, 0, none, none⟩, ⟨1, 0, 0, none, none⟩,
        ⟨1, 1, 0, none, none⟩, ⟨0, 1, 0, none, none⟩]| / 2) ∧
    calculateGeometricArea (([⟨0, 0, 0, none, none⟩, ⟨1, 0, 0, none, none⟩,
        ⟨1, 1, 0, none, none⟩, ⟨0, 1, 0, none, none⟩] : List (Vtx ℝ)).map
        (translateVtx 1e6 1e6))
      = calculateGeometricArea [⟨0, 0, 0, none, none⟩, ⟨1, 0, 0, none, none⟩,
        ⟨1, 1, 0, none, none⟩, ⟨0, 1, 0, none, none⟩] := by
  have hb : ∀ v ∈ ([⟨0, 0, 0, none, none⟩, ⟨1, 0, 0, none, none⟩,
      ⟨1, 1, 0, none, none⟩, ⟨0, 1, 0, none, none⟩] : List (Vtx ℝ)), v.bulge = 0 := by
    intro v hv
    simp only [List.mem_cons, List.not_mem_nil, or_false] at hv
    rcases hv with rfl | rfl | rfl | rfl <;> rfl
  have h := C2_calculateGeometricArea_shoelace _ hb
  exact ⟨hb, h.1, h.2.2 1e6 1e6⟩

end DXFViewerApp

namespace OSNAPSystem

/-- Every snap type is either `nearest` or special. -/
lemma snapType_total (t : SnapType) : t = .nearest ∨ t ∈ specialSnaps := by
  cases t <;> decide

/-- Special snap types are not `nearest`. -/
lemma special_ne_nearest {t : SnapType} (h : t ∈ specialSnaps) : t ≠ .nearest := by
  revert h
  cases t <;> decide

/-- Once the running best is a special snap within tolerance, it stays
special, never gets worse, and ends minimal among the special in-tolerance
candidates scanned afterwards. -/
lemma findSnap_special_invariant (tol : ℚ) :
    ∀ (l : List SnapCandidate) (a : SnapCandidate),
      a.type ∈ specialSnaps → a.dist < tol →
      ∃ r, l.foldl (findSnapPointStep tol) (some a) = some r ∧
        r.type ∈ specialSnaps ∧ r.dist < tol ∧ r.dist ≤ a.dist ∧
        ∀ c ∈ l, c.type ∈ specialSnaps → c.dist < tol → r.dist ≤ c.dist := by
  intro l
  induction l with
  | nil =>
    intro a ha hd
    exact ⟨a, rfl, ha, hd, le_refl _, by simp⟩
  | cons c t ih =>
    intro a ha hd
    have hann : a.type ≠ .nearest := special_ne_nearest ha
    rw [List.foldl_cons]
    by_cases htol : c.dist < tol
    · by_cases hlt : c.dist < a.dist
      · by_cases hcn : c.type = .nearest
        · have hstep : findSnapPointStep tol (some a) c = some a := by
            unfold findSnapPointStep
            rw [if_pos htol]
            show (if c.dist < a.dist then _ else _) = some a
            rw [if_pos hlt, if_pos ⟨ha, hcn⟩]
          rw [hstep]
          obtain ⟨r, hr, h1, h2, h3, h4⟩ := ih a ha hd
          refine ⟨r, hr, h1, h2, h3, ?_⟩
          intro c' hc' hsp' htol'
          rcases List.mem_cons.1 hc' with rfl | hmem
          · exact absurd hcn (special_ne_nearest hsp')
          · exact h4 c' hmem hsp' htol'
        · have hcs : c.type ∈ specialSnaps := (snapType_total c.type).resolve_left hcn
          have hstep : findSnapPointStep tol (some a) c = some c := by
            unfold findSnapPointStep
            rw [if_pos htol]
            show (if c.dist < a.dist then _ else _) = some c
            rw [if_pos hlt, if_neg (fun h => hcn h.2)]
          rw [hstep]
          obtain ⟨r, hr, h1, h2, h3, h4⟩ := ih c hcs htol
          refine ⟨r, hr, h1, h2, le_trans h3 (le_of_lt hlt), ?_⟩
          intro c' hc' hsp' htol'
          rcases List.mem_cons.1 hc' with rfl | hmem
          · exact h3
          · exact h4 c' hmem hsp' htol'
      · have hstep : findSnapPointStep tol (some a) c = some a := by
          unfold findSnapPointStep
          rw [if_pos htol]
          show (if c.dist < a.dist then _ else _) = some a
          rw [if_neg hlt, if_neg (fun h => hann h.2)]
        rw [hstep]
        obtain ⟨r, hr, h1, h2, h3, h4⟩ := ih a ha hd
        refine ⟨r, hr, h1, h2, h3, ?_⟩
        intro c' hc' hsp' htol'
        rcases List.mem_cons.1 hc' with rfl | hmem
        · exact le_trans h3 (not_lt.1 hlt)
        · exact h4 c' hmem hsp' htol'
    · have hstep : findSnapPointStep tol (some a) c = some a := by
        unfold findSnapPointStep
        rw [if_neg htol]
      rw [hstep]
      obtain ⟨r, hr, h1, h2, h3, h4⟩ := ih a ha hd
      refine ⟨r, hr, h1, h2, h3, ?_⟩
      intro c' hc' hsp' htol'
      rcases List.mem_cons.1 hc' with rfl | hmem
      · exact absurd htol' htol
      · exact h4 c' hmem hsp' htol'

/-- If the running best is absent or a `nearest` snap and some special
candidate within tolerance is still to be scanned, the final result is a
special snap, minimal among the special in-tolerance candidates. -/
lemma findSnap_reaches_special (tol : ℚ) :
    ∀ (l : List SnapCandidate) (acc : Option SnapCandidate),
      (acc = none ∨ ∃ a, acc = some a ∧ a.type = .nearest) →
      (∃ c ∈ l, c.type ∈ specialSnaps ∧ c.dist < tol) →
      ∃ r, l.foldl (findSnapPointStep tol) acc = some r ∧
        r.type ∈ specialSnaps ∧ r.dist < tol ∧
        ∀ c ∈ l, c.type ∈ specialSnaps → c.dist < tol → r.dist ≤ c.dist := by
  intro l
  induction l with
  | nil =>
    intro acc _ hex
    simp at hex
  | cons c t ih =>
    intro acc hacc hex
    rw [List.foldl_cons]
    by_cases hcsp : c.type ∈ specialSnaps ∧ c.dist < tol
    · have hcnn : c.type ≠ .nearest := special_ne_nearest hcsp.1
      have hstep : findSnapPointStep tol acc c = some c := by
        rcases hacc with rfl | ⟨a, rfl, han⟩
        · unfold findSnapPointStep
          rw [if_pos hcsp.2]
        · unfold findSnapPointStep
          rw [if_pos hcsp.2]
          show (if c.dist < a.dist then _ else _) = some c
          by_cases hlt : c.dist < a.dist
          · rw [if_pos hlt, if_neg (fun h => hcnn h.2)]
          · rw [if_neg hlt, if_pos ⟨hcnn, han⟩]
      rw [hstep]
      obtain ⟨r, hr, h1, h2, h3, h4⟩ := findSnap_special_invariant tol t c hcsp.1 hcsp.2
      refine ⟨r, hr, h1, h2, ?_⟩
      intro c' hc' hsp' htol'
      rcases List.mem_cons.1 hc' with rfl | hmem
      · exact h3
      · exact h4 c' hmem hsp' htol'
    · have hex' : ∃ c' ∈ t, c'.type ∈ specialSnaps ∧ c'.dist < tol := by
        obtain ⟨c0, hc0, hprop⟩ := hex
        rcases List.mem_cons.1 hc0 with rfl | hmem
        · exact absurd hprop hcsp
        · exact ⟨c0, hmem, hprop⟩
      have hacc' : findSnapPointStep tol acc c = none ∨
          ∃ a, findSnapPointStep tol acc c = some a ∧ a.type = .nearest := by
        by_cases htol : c.dist < tol
        · have hcn : c.type = .nearest := by
            rcases snapType_total c.type with h | h
            · exact h
            · exact absurd ⟨h, htol⟩ hcsp
          rcases hacc with rfl | ⟨a, rfl, han⟩
          · refine Or.inr ⟨c, ?_, hcn⟩
            unfold findSnapPointStep
            rw [if_pos htol]
          · by_cases hlt : c.dist < a.dist
            · refine Or.inr ⟨c, ?_, hcn⟩
              unfold findSnapPointStep
              rw [if_pos htol]
              show (if c.dist < a.dist then _ else _) = some c
              rw [if_pos hlt, if_neg (fun h => special_ne_nearest h.1 han)]
            · refine Or.inr ⟨a, ?_, han⟩
              unfold findSnapPointStep
              rw [if_pos htol]
              show (if c.dist < a.dist then _ else _) = some a
              rw [if_neg hlt, if_neg (fun h => h.1 hcn)]
        · have hstep : findSnapPointStep tol acc c = acc := by
            unfold findSnapPointStep
            rw [if_neg htol]
          rw [hstep]
          exact hacc
      obtain ⟨r, hr, h1, h2, h4⟩ := ih (findSnapPointStep tol acc c) hacc' hex'
      refine ⟨r, hr, h1, h2, ?_⟩
      intro c' hc' hsp' htol'
      rcases List.mem_cons.1 hc' with rfl | hmem
      · exact absurd ⟨hsp', htol'⟩ hcsp
      · exact h4 c' hmem hsp' htol'

/-- Nearest-tier tracking: with no special candidate in tolerance, a running
`nearest` best within tolerance stays `nearest` and ends minimal among the
in-tolerance candidates. -/
lemma findSnap_nearest_invariant (tol : ℚ) :
    ∀ (l : List SnapCandidate) (a : SnapCandidate),
      a.type = .nearest → a.dist < tol →
      (∀ c ∈ l, c.type ∈ specialSnaps → ¬ c.dist < tol) →
      ∃ r, l.foldl (findSnapPointStep tol) (some a) = some r ∧
        r.type = .nearest ∧ r.dist < tol ∧ r.dist ≤ a.dist ∧
        ∀ c ∈ l, c.dist < tol → r.dist ≤ c.dist := by
  intro l
  induction l with
  | nil =>
    intro a han hd _
    exact ⟨a, rfl, han, hd, le_refl _, by simp⟩
  | cons c t ih =>
    intro a han hd hnospec
    have hnospec' : ∀ c' ∈ t, c'.type ∈ specialSnaps → ¬ c'.dist < tol :=
      fun c' hm => hnospec c' (List.mem_cons_of_mem c hm)
    rw [List.foldl_cons]
    by_cases htol : c.dist < tol
    · have hcn : c.type = .nearest := by
        rcases snapType_total c.type with h | h
        · exact h
        · exact absurd htol (hnospec c (List.mem_cons_self c t) h)
      by_cases hlt : c.dist < a.dist
      · have hstep : findSnapPointStep tol (some a) c = some c := by
          unfold findSnapPointStep
          rw [if_pos htol]
          show (if c.dist < a.dist then _ else _) = some c
          rw [if_pos hlt, if_neg (fun h => special_ne_nearest h.1 han)]
        rw [hstep]
        obtain ⟨r, hr, h1, h2, h3, h4⟩ := ih c hcn htol hnospec'
        refine ⟨r, hr, h1, h2, le_trans h3 (le_of_lt hlt), ?_⟩
        intro c' hc' htol'
        rcases List.mem_cons.1 hc' with rfl | hmem
        · exact h3
        · exact h4 c' hmem htol'
      · have hstep : findSnapPointStep tol (some a) c = some a := by
          unfold findSnapPointStep
          rw [if_pos htol]
          show (if c.dist < a.dist then _ else _) = some a
          rw [if_neg hlt, if_neg (fun h => h.1 hcn)]
        rw [hstep]
        obtain ⟨r, hr, h1, h2, h3, h4⟩ := ih a han hd hnospec'
        refine ⟨r, hr, h1, h2, h3, ?_⟩
        intro c' hc' htol'
        rcases List.mem_cons.1 hc' with rfl | hmem
        · exact le_trans h3 (not_lt.1 hlt)
        · exact h4 c' hmem htol'
    · have hstep : findSnapPointStep tol (some a) c = some a := by
        unfold findSnapPointStep
        rw [if_neg htol]
      rw [hstep]
      obtain ⟨r, hr, h1, h2, h3, h4⟩ := ih a han hd hnospec'
      refine ⟨r, hr, h1, h2, h3, ?_⟩
      intro c' hc' htol'
      rcases List.mem_cons.1 hc' with rfl | hmem
      · exact absurd htol' htol
      · exact h4 c' hmem htol'

/-- If every candidate is out of tolerance the scan returns nothing. -/
lemma findSnap_none (tol : ℚ) :
    ∀ (l : List SnapCandidate), (∀ c ∈ l, ¬ c.dist < tol) →
      l.foldl (findSnapPointStep tol) none = none := by
  intro l
  induction l with
  | nil => intro _; rfl
  | cons c t ih =>
    intro h
    rw [List.foldl_cons]
    have hstep : findSnapPointStep tol none c = none := by
      unfold findSnapPointStep
      rw [if_neg (h c (List.mem_cons_self c t))]
    rw [hstep]
    exact ih (fun c' hm => h c' (List.mem_cons_of_mem c hm))

/-- Combined nearest-tier behaviour starting from the empty state. -/
lemma findSnap_no_special (tol : ℚ) :
    ∀ (l : List SnapCandidate),
      (∀ c ∈ l, c.type ∈ specialSnaps → ¬ c.dist < tol) →
      l.foldl (findSnapPointStep tol) none = none ∨
      (∃ r, l.foldl (findSnapPointStep tol) none = some r ∧
        r.type = .nearest ∧ r.dist < tol ∧
        ∀ c ∈ l, c.dist < tol → r.dist ≤ c.dist) := by
  intro l
  induction l with
  | nil => intro _; exact Or.inl rfl
  | cons c t ih =>
    intro hnospec
    have hnospec' : ∀ c' ∈ t, c'.type ∈ specialSnaps → ¬ c'.dist < tol :=
      fun c' hm => hnospec c' (List.mem_cons_of_mem c hm)
    rw [List.foldl_cons]
    by_cases htol : c.dist < tol
    · have hcn : c.type = .nearest := by
        rcases snapType_total c.type with h | h
        · exact h
        · exact absurd htol (hnospec c (List.mem_cons_self c t) h)
      have hstep : findSnapPointStep tol none c = some c := by
        unfold findSnapPointStep
        rw [if_pos htol]
      rw [hstep]
      obtain ⟨r, hr, h1, h2, h3, h4⟩ := findSnap_nearest_invariant tol t c hcn htol hnospec'
      refine Or.inr ⟨r, hr, h1, h2, ?_⟩
      intro c' hc' htol'
      rcases List.mem_cons.1 hc' with rfl | hmem
      · exact h3
      · exact h4 c' hmem htol'
    · have hstep : findSnapPointStep tol none c = none := by
        unfold findSnapPointStep
        rw [if_neg htol]
      rw [hstep]
      rcases ih hnospec' with hnone | ⟨r, hr, h1, h2, h4⟩
      · exact Or.inl hnone
      · refine Or.inr ⟨r, hr, h1, h2, ?_⟩
        intro c' hc' htol'
        rcases List.mem_cons.1 hc' with rfl | hmem
        · exact absurd htol' htol
        · exact h4 c' hmem htol'

/-- C7: in `findSnapPoint`, if any special-type candidate (endpoint,
midpoint, center, quadrant, intersection, perpendicular, node) lies within
the snap tolerance, the returned snap is a special candidate of minimal
screen distance among the special in-tolerance candidates — a `nearest`
candidate never wins against them, however close.  A `nearest` snap is
returned only when no special candidate is in tolerance, and it is then the
closest in-tolerance candidate; with nothing in tolerance the scan returns
`none`.  All of this holds for every scan order. -/
theorem C7_findSnapPoint_priority (cands : List SnapCandidate) (tol : ℚ) :
    ((∃ c ∈ cands, c.type ∈ specialSnaps ∧ c.dist < tol) →
      ∃ r, findSnapPoint cands tol = some r ∧ r.type ∈ specialSnaps ∧ r.dist < tol ∧
        ∀ c ∈ cands, c.type ∈ specialSnaps → c.dist < tol → r.dist ≤ c.dist) ∧
    ((∀ c ∈ cands, c.type ∈ specialSnaps → ¬ c.dist < tol) →
      (∀ r, findSnapPoint cands tol = some r →
        r.type = .nearest ∧ r.dist < tol ∧ ∀ c ∈ cands, c.dist < tol → r.dist ≤ c.dist) ∧
      ((∀ c ∈ cands, ¬ c.dist < tol) → findSnapPoint cands tol = none)) := by
  constructor
  · intro hex
    exact findSnap_reaches_special tol cands none (Or.inl rfl) hex
  · intro hnospec
    constructor
    · intro r hr
      rcases findSnap_no_special tol cands hnospec with hnone | ⟨r', hr', h1, h2, h4⟩
      · rw [findSnapPoint] at hr
        rw [hnone] at hr
        exact absurd hr (by simp)
      · rw [findSnapPoint] at hr
        rw [hr'] at hr
        injection hr with hrr
        subst hrr
        exact ⟨h1, h2, h4⟩
    · intro hall
      exact findSnap_none tol cands hall

/-- Witness for C7: a `nearest` candidate at distance 1 and a `midpoint`
candidate at distance 5, both within tolerance 10 — the midpoint wins. -/
theorem C7_findSnapPoint_priority_witness :
    ∃ r, findSnapPoint [⟨.nearest, 1⟩, ⟨.midpoint, 5⟩] 10 = some r ∧
      r.type ∈ specialSnaps ∧ r.dist < 10 ∧
      ∀ c ∈ ([⟨.nearest, 1⟩, ⟨.midpoint, 5⟩] : List SnapCandidate),
        c.type ∈ specialSnaps → c.dist < 10 → r.dist ≤ c.dist :=
  (C7_findSnapPoint_priority [⟨.nearest, 1⟩, ⟨.midpoint, 5⟩] 10).1
    ⟨⟨.midpoint, 5⟩, by decide, by decide, by decide⟩

end OSNAPSystem

namespace DXFColors

/-- The palette has exactly 256 entries. -/
lemma ACI_COLORS_length : ACI_COLORS.length = 256 := by
  simp [ACI_COLORS, ACI_BASE]

/-- C10 counterexample: the claim asserts white (`[255,255,255]`) for every
index greater than 255, but at index 256 the function returns `null`
(BYLAYER), not white. -/
theorem C10_aciToRgb_counterexample :
    (255:ℤ) < 256 ∧ aciToRgb 256 = none ∧ aciToRgb 256 ≠ some (255, 255, 255) := by
  refine ⟨by norm_num, rfl, by simp [aciToRgb]⟩

/-- C10 (amended): `aciToRgb` returns `null` exactly at 256 (BYLAYER),
`[0,0,0]` at 0 (BYBLOCK), white for every negative index and every index
greater than 256, and the 256-entry palette value for indices 1 through 255. -/
theorem C10_aciToRgb_amended :
    aciToRgb 256 = none ∧
    (∀ i : ℤ, aciToRgb i = none → i = 256) ∧
    aciToRgb 0 = some (0, 0, 0) ∧
    (∀ i : ℤ, i < 0 → aciToRgb i = some (255, 255, 255)) ∧
    (∀ i : ℤ, 256 < i → aciToRgb i = some (255, 255, 255)) ∧
    (∀ i : ℤ, 1 ≤ i → i ≤ 255 → aciToRgb i = some (ACI_COLORS.getD i.toNat (0, 0, 0))) := by
  have hlen : (ACI_COLORS.length : ℤ) = 256 := by rw [ACI_COLORS_length]; norm_num
  refine ⟨rfl, ?_, rfl, ?_, ?_, ?_⟩
  · intro i h
    unfold aciToRgb at h
    split_ifs at h with h1 h2 h3
    exact h1
  · intro i hi
    unfold aciToRgb
    rw [if_neg (by omega), if_neg (by omega), if_pos (Or.inl hi)]
  · intro i hi
    unfold aciToRgb
    rw [if_neg (by omega), if_neg (by omega), if_pos (Or.inr (by omega))]
  · intro i h1 h255
    unfold aciToRgb
    rw [if_neg (by omega), if_neg (by omega), if_neg (by rw [hlen]; omega)]

/-- Witness for C10 (amended) at the concrete inputs `-3`, `300` and `7`. -/
theorem C10_aciToRgb_amended_witness :
    aciToRgb (-3) = some (255, 255, 255) ∧
    aciToRgb 300 = some (255, 255, 255) ∧
    aciToRgb 7 = some (ACI_COLORS.getD (7:ℤ).toNat (0, 0, 0)) :=
  ⟨C10_aciToRgb_amended.2.2.2.1 (-3) (by norm_num),
   C10_aciToRgb_amended.2.2.2.2.1 300 (by norm_num),
   C10_aciToRgb_amended.2.2.2.2.2 7 (by norm_num) (by norm_num)⟩

end DXFColors

namespace DXFViewerApp

/-- C3 counterexample: with three mutually reversed segments
`[A→B, B→A, B→A]` (a duplicated bridge), the pruning pass marks only the
first pair `{0, 1}`: the pair of distinct segments `(0, 2)` satisfies the
reverse-match condition yet segment 2 is NOT marked used, contradicting the
claim that every reverse pair is excluded before chain building. -/
theorem C3_pruneBridges_counterexample :
    revAt [c3fwd, c3rev, c3rev] 1 0 2 ∧
    0 ∈ pruneBridges [c3fwd, c3rev, c3rev] (1 : ℤ) ∧
    1 ∈ pruneBridges [c3fwd, c3rev, c3rev] (1 : ℤ) ∧
    2 ∉ pruneBridges [c3fwd, c3rev, c3rev] (1 : ℤ) := by
  refine ⟨⟨by norm_num, c3fwd, c3rev, rfl, rfl, by decide⟩, by decide, by decide, by decide⟩

end DXFViewerApp

namespace DXFViewerApp

variable {α : Type} [LinearOrderedCommRing α]

/-- Endpoint matching is symmetric. -/
lemma ptMatchB_symm (tol2 : α) (p q : Pt2 α) : ptMatchB tol2 p q = ptMatchB tol2 q p := by
  unfold ptMatchB
  rw [show (p.x - q.x) ^ 2 + (p.y - q.y) ^ 2 = (q.x - p.x) ^ 2 + (q.y - p.y) ^ 2 from by ring]

/-- The reverse-pair test is symmetric. -/
lemma isRevPair_symm (tol2 : α) (s1 s2 : Seg α) :
    isRevPair tol2 s1 s2 = isRevPair tol2 s2 s1 := by
  unfold isRevPair
  rw [ptMatchB_symm tol2 s1.p1 s2.p2, ptMatchB_symm tol2 s1.p2 s2.p1, Bool.and_comm]

/-- The reverse-pair relation on indices is symmetric. -/
lemma revAt_symm {segs : List (Seg α)} {tol2 : α} {i j : ℕ}
    (h : revAt segs tol2 i j) : revAt segs tol2 j i := by
  obtain ⟨hne, si, sj, hi, hj, hr⟩ := h
  exact ⟨hne.symm, sj, si, hj, hi, by rw [isRevPair_symm]; exact hr⟩

/-- Reverse-pair indices are positions in the list. -/
lemma revAt_lt_length {segs : List (Seg α)} {tol2 : α} {i j : ℕ}
    (h : revAt segs tol2 i j) : i < segs.length ∧ j < segs.length := by
  obtain ⟨_, si, sj, hi, hj, _⟩ := h
  exact ⟨(List.get?_eq_some.1 hi).choose, (List.get?_eq_some.1 hj).choose⟩

/-- What a successful inner pruning search guarantees. -/
lemma firstRev_some_spec {segs : List (Seg α)} {tol2 : α} {used : List ℕ} {i j : ℕ}
    (h : firstRev segs tol2 used i = some j) :
    i < j ∧ j ∉ used ∧ revAt segs tol2 i j := by
  have hp := List.find?_some h
  cases hgi : segs.get? i with
  | none =>
    rw [hgi] at hp
    cases hgj : segs.get? j with
    | none => rw [hgj] at hp; simp at hp
    | some sj => rw [hgj] at hp; simp at hp
  | some si =>
    cases hgj : segs.get? j with
    | none => rw [hgi, hgj] at hp; simp at hp
    | some sj =>
      rw [hgi, hgj] at hp
      simp only [Bool.and_eq_true, decide_eq_true_eq, Bool.not_eq_true', decide_eq_false_iff_not]
        at hp
      exact ⟨hp.1.1, hp.1.2, Nat.ne_of_lt hp.1.1, si, sj, hgi, hgj, hp.2⟩

/-- What a failed inner pruning search guarantees. -/
lemma firstRev_none_spec {segs : List (Seg α)} {tol2 : α} {used : List ℕ} {i : ℕ}
    (h : firstRev segs tol2 used i = none) :
    ∀ j, i < j → j ∉ used → ¬ revAt segs tol2 i j := by
  intro j hij hju hr
  obtain ⟨hne, si, sj, hi, hj, hrp⟩ := hr
  have hjlen : j < segs.length := (List.get?_eq_some.1 hj).choose
  have := List.find?_eq_none.1 h j (List.mem_range.2 hjlen)
  rw [hi, hj] at this
  simp only [Bool.and_eq_true, decide_eq_true_eq, Bool.not_eq_true', decide_eq_false_iff_not]
    at this
  exact this ⟨⟨hij, hju⟩, hrp⟩

/-- Pruning only adds to the used set. -/
lemma pruneStep_subset (segs : List (Seg α)) (tol2 : α) (used : List ℕ) (i : ℕ) :
    used ⊆ pruneStep segs tol2 used i := by
  unfold pruneStep
  split_ifs with h
  · exact fun x hx => hx
  · cases hfr : firstRev segs tol2 used i with
    | none => exact fun x hx => hx
    | some j =>
      intro x hx
      simp only [List.mem_insert_iff]
      tauto

/-- One pruning step preserves both invariants, assuming each segment has at
most one reverse partner. -/
lemma pruneStep_inv (segs : List (Seg α)) (tol2 : α)
    (huniq : ∀ i j k, revAt segs tol2 i j → revAt segs tol2 i k → j = k)
    (U : List ℕ) (m : ℕ) (hinv : PruneInv segs tol2 U m) (hdone : PruneDone segs tol2 U m) :
    PruneInv segs tol2 (pruneStep segs tol2 U m) (m + 1) ∧
    PruneDone segs tol2 (pruneStep segs tol2 U m) (m + 1) := by
  by_cases hm : m ∈ U
  · rw [pruneStep, if_pos hm]
    constructor
    · intro p hp
      obtain ⟨q, hq, hmin⟩ := hinv p hp
      exact ⟨q, hq, by omega⟩
    · intro i j hr hij him
      rcases Nat.lt_succ_iff_lt_or_eq.1 him with hlt | rfl
      · exact hdone i j hr hij hlt
      · obtain ⟨q, hq, hmin⟩ := hinv i hm
        have hj := huniq i j q hr hq
        subst hj
        omega
  · rw [pruneStep, if_neg hm]
    cases hfr : firstRev segs tol2 U m with
    | none =>
      constructor
      · intro p hp
        obtain ⟨q, hq, hmin⟩ := hinv p hp
        exact ⟨q, hq, by omega⟩
      · intro i j hr hij him
        rcases Nat.lt_succ_iff_lt_or_eq.1 him with hlt | rfl
        · exact hdone i j hr hij hlt
        · by_cases hjU : j ∈ U
          · obtain ⟨q, hq, hmin⟩ := hinv j hjU
            have := huniq j q i hq (revAt_symm hr)
            subst this
            omega
          · exact absurd hr (firstRev_none_spec hfr j hij hjU)
    | some j' =>
      obtain ⟨hmj', hj'U, hrj'⟩ := firstRev_some_spec hfr
      constructor
      · intro p hp
        simp only [List.mem_insert_iff] at hp
        rcases hp with rfl | rfl | hp
        · exact ⟨m, revAt_symm hrj', by omega⟩
        · exact ⟨j', hrj', by omega⟩
        · obtain ⟨q, hq, hmin⟩ := hinv p hp
          exact ⟨q, hq, by omega⟩
      · intro i j hr hij him
        rcases Nat.lt_succ_iff_lt_or_eq.1 him with hlt | rfl
        · obtain ⟨h1, h2⟩ := hdone i j hr hij hlt
          constructor <;> simp only [List.mem_insert_iff] <;> tauto
        · have := huniq i j j' hr hrj'
          subst this
          constructor <;> simp only [List.mem_insert_iff] <;> tauto

/-- The pruning fold over a contiguous index range preserves the invariants. -/
lemma pruneFold_inv (segs : List (Seg α)) (tol2 : α)
    (huniq : ∀ i j k, revAt segs tol2 i j → revAt segs tol2 i k → j = k) :
    ∀ (k m : ℕ) (U : List ℕ),
      PruneInv segs tol2 U m → PruneDone segs tol2 U m →
      PruneInv segs tol2 ((List.range' m k).foldl (pruneStep segs tol2) U) (m + k) ∧
      PruneDone segs tol2 ((List.range' m k).foldl (pruneStep segs tol2) U) (m + k) := by
  intro k
  induction k with
  | zero => intro m U h1 h2; exact ⟨h1, h2⟩
  | succ n ih =>
    intro m U h1 h2
    rw [List.range'_succ m n 1, List.foldl_cons]
    obtain ⟨h1', h2'⟩ := pruneStep_inv segs tol2 huniq U m h1 h2
    have := ih (m + 1) (pruneStep segs tol2 U m) h1' h2'
    rw [show m + 1 + n = m + (n + 1) by omega] at this
    exact this

/-- Under unique reverse partners, the pruning pass marks every reverse pair
of segments used. -/
lemma pruneBridges_complete (segs : List (Seg α)) (tol2 : α)
    (huniq : ∀ i j k, revAt segs tol2 i j → revAt segs tol2 i k → j = k) :
    ∀ i j, revAt segs tol2 i j →
      i ∈ pruneBridges segs tol2 ∧ j ∈ pruneBridges segs tol2 := by
  have hbase := pruneFold_inv segs tol2 huniq segs.length 0 []
    (by intro p hp; simp at hp) (by intro i j _ _ him; omega)
  have hdone := hbase.2
  intro i j hr
  have hmem : ∀ a b, revAt segs tol2 a b → a < b →
      a ∈ pruneBridges segs tol2 ∧ b ∈ pruneBridges segs tol2 := by
    intro a b hab hlt
    have ha := (revAt_lt_length hab).1
    have h := hdone a b hab hlt (by omega)
    unfold pruneBridges
    rw [List.range_eq_range']
    exact h
  rcases Nat.lt_trichotomy i j with hij | rfl | hji
  · exact hmem i j hr hij
  · exact absurd rfl hr.1
  · exact ⟨(hmem j i (revAt_symm hr) hji).2, (hmem j i (revAt_symm hr) hji).1⟩

end DXFViewerApp

namespace DXFViewerApp

/-- C3 (amended): the pruning pass of `extractAllLoops` greedily pairs each
unused segment with the first later unused reverse partner, so when every
segment has at most one reverse partner, every pair of distinct
reverse-matching segments is marked used before chain building; in
particular, on an outer square connected to an inner triangular hole by two
colinear reverse-duplicate LINE segments, `extractAllLoops` returns the two
independent loops with the bridge segments in neither. -/
theorem C3_pruneBridges_amended :
    (∀ (segs : List (Seg ℤ)) (tol2 : ℤ),
      (∀ i j k, revAt segs tol2 i j → revAt segs tol2 i k → j = k) →
      ∀ i j, revAt segs tol2 i j →
        i ∈ pruneBridges segs tol2 ∧ j ∈ pruneBridges segs tol2) ∧
    extractAllLoopsSegs c3bridgeSegs 1
      = [[{ x := 0, y := 0, bulge := 0 }, { x := 4, y := 0, bulge := 0 },
          { x := 4, y := 4, bulge := 0 }, { x := 0, y := 4, bulge := 0 }],
         [{ x := 1, y := 1, bulge := 0 }, { x := 3, y := 1, bulge := 0 },
          { x := 2, y := 2, bulge := 0 }]] :=
  ⟨fun segs tol2 huniq => pruneBridges_complete segs tol2 huniq, by decide⟩

/-- Witness for the C3 amended claim at the two-segment concrete input
`[A→B, B→A]`: both members of the unique reverse pair get pruned. -/
theorem C3_pruneBridges_amended_witness :
    0 ∈ pruneBridges [c3fwd, c3rev] (1 : ℤ) ∧ 1 ∈ pruneBridges [c3fwd, c3rev] (1 : ℤ) :=
  C3_pruneBridges_amended.1 [c3fwd, c3rev] 1
    (by
      intro i j k h1 h2
      have b1 := revAt_lt_length h1
      have b2 := revAt_lt_length h2
      have hne1 := h1.1
      have hne2 := h2.1
      simp only [List.length_cons, List.length_nil] at b1 b2
      omega)
    0 1 ⟨by norm_num, c3fwd, c3rev, rfl, rfl, by decide⟩

end DXFViewerApp

namespace HatchBoundaryResolver

/-- The two sweep normalizations are exact negatives of each other. -/
lemma normNeg_neg (d : ℝ) : normNeg (-d) = -(normPos d) := by
  unfold normPos normNeg
  by_cases h : 0 < d
  · rw [if_pos (by linarith : -d < 0), if_pos h]
  · rw [if_neg (by linarith : ¬ -d < 0), if_neg h]
    ring

/-- The other direction of the sweep-normalization symmetry. -/
lemma normPos_neg (d : ℝ) : normPos (-d) = -(normNeg d) := by
  have h := normNeg_neg (-d)
  rw [neg_neg] at h
  linarith [h]

/-- Reversing an edge negates its contribution to the loop area: the
shoelace term flips sign, and for arcs the reversed sweep is the exact
negative of the original sweep. -/
lemma edgeAreaTerm_reverse (e : HEdge) : edgeAreaTerm (reverseEdge e) = -(edgeAreaTerm e) := by
  cases hk : e.kind with
  | LINE =>
    simp only [reverseEdge, edgeAreaTerm, hk]
    ring
  | ARC =>
    cases hc : e.isCounterClockwise with
    | true =>
      simp only [reverseEdge, edgeAreaTerm, hk, hc, Bool.not_true, Bool.false_eq_true,
        if_false, if_true]
      rw [show -e.startAngle - -e.endAngle = -(-e.endAngle - -e.startAngle) by ring]
      rw [normNeg_neg, Real.sin_neg]
      ring
    | false =>
      simp only [reverseEdge, edgeAreaTerm, hk, hc, Bool.not_false, Bool.false_eq_true,
        if_false, if_true]
      rw [show -e.startAngle - -e.endAngle = -(-e.endAngle - -e.startAngle) by ring]
      rw [normPos_neg, Real.sin_neg]
      ring

/-- Summing the negation of a function over a list. -/
lemma list_sum_map_neg {β : Type} (l : List β) (f : β → ℝ) :
    (l.map (fun x => -(f x))).sum = -((l.map f).sum) := by
  induction l with
  | nil => simp
  | cons a t ih => simp [ih]; ring

/-- Reversing a path negates its signed loop area. -/
lemma calculateLoopArea_reverse (p : List HEdge) :
    calculateLoopArea (reversePath p) = -(calculateLoopArea p) := by
  unfold calculateLoopArea reversePath
  rw [List.map_map]
  have h1 : (p.reverse.map (edgeAreaTerm ∘ reverseEdge)).sum
      = (p.reverse.map (fun x => -(edgeAreaTerm x))).sum := by
    refine congrArg List.sum (List.map_congr_left ?_)
    intro x _
    exact edgeAreaTerm_reverse x
  rw [h1, list_sum_map_neg]
  rw [show (p.reverse.map edgeAreaTerm).sum = (p.map edgeAreaTerm).sum from ?_]
  · ring
  · rw [← List.sum_reverse (p.map edgeAreaTerm), List.map_reverse]

/-- Winding normalization only emits counter-clockwise paths. -/
lemma normalizeWinding_ok {p path : List HEdge}
    (h : normalizeWinding p = .ok path) : 0 ≤ calculateLoopArea path := by
  unfold normalizeWinding at h
  by_cases harea : calculateLoopArea p < 0
  · rw [if_pos harea] at h
    injection h with h
    subst h
    rw [calculateLoopArea_reverse]
    linarith
  · rw [if_neg harea] at h
    injection h with h
    subst h
    linarith [not_lt.1 harea]

/-- The closing/normalization phase only emits counter-clockwise paths. -/
lemma closeAndNormalize_ok {tol : ℝ} {p path : List HEdge}
    (h : closeAndNormalize tol p = .ok path) : 0 ≤ calculateLoopArea path := by
  unfold closeAndNormalize at h
  cases p with
  | nil => exact absurd h (by simp)
  | cons first rest =>
    cases hlast : (first :: rest).getLast? with
    | none =>
      rw [hlast] at h
      exact absurd h (by simp)
    | some last =>
      rw [hlast] at h
      exact normalizeWinding_ok h

/-- C4: whenever `resolveLoop` succeeds (`{ok: true, path}`), the returned
path's signed area under `calculateLoopArea` is non-negative (consistent CCW
winding), and reversing any path negates its signed area. -/
theorem C4_resolveLoop_ccw (loop : HatchLoop) (path : List HEdge)
    (h : resolveLoop loop = some (.ok path)) :
    0 ≤ calculateLoopArea path ∧
    ∀ q : List HEdge, calculateLoopArea (reversePath q) = -(calculateLoopArea q) := by
  refine ⟨?_, fun q => calculateLoopArea_reverse q⟩
  unfold resolveLoop at h
  by_cases hp : loop.isPolyline
  · rw [if_pos hp] at h
    unfold resolvePolylineLoop at h
    split_ifs at h with hlen
    · exact absurd h (by simp)
    · injection h with h
      exact normalizeWinding_ok h
  · rw [if_neg hp] at h
    unfold resolveEdgeLoop at h
    split_ifs at h with hemp
    · exact absurd h (by simp)
    · cases hopt : optionAll (loop.edges.map normalizeEdge) with
      | none =>
        rw [hopt] at h
        exact absurd h (by simp)
      | some edges =>
        rw [hopt] at h
        cases edges with
        | nil => exact absurd h (by simp)
        | cons e0 rest =>
          dsimp only at h
          cases hst : stitchLoop (e0 :: rest) (max (bboxDiag (e0 :: rest) * 1e-4) 1e-4)
              (e0 :: rest).length {0} [e0] e0 with
          | none =>
            rw [hst] at h
            exact absurd h (by simp)
          | some p0 =>
            rw [hst] at h
            injection h with h
            exact closeAndNormalize_ok h

/-- Evaluation of the resolver on the witness loop. -/
lemma c4loop_resolves : resolveLoop c4loop = some (.ok c4path) := by
  have hrot : ([⟨0, 0, 0, none, none⟩, ⟨1, 0, 0, none, none⟩, ⟨0, 1, 0, none, none⟩]
        : List (Vtx ℝ)).rotate 1
      = [⟨1, 0, 0, none, none⟩, ⟨0, 1, 0, none, none⟩, ⟨0, 0, 0, none, none⟩] := by
    rw [List.rotate_cons_succ, List.rotate_zero]
    rfl
  unfold resolveLoop
  rw [show c4loop.isPolyline = true from rfl, if_pos rfl]
  unfold resolvePolylineLoop
  rw [if_neg (by simp [c4loop])]
  simp only [c4loop, hrot, List.zip_cons_cons, List.zip_nil_right, List.map_cons, List.map_nil]
  norm_num
  unfold normalizeWinding
  rw [if_neg]
  · rfl
  · unfold calculateLoopArea edgeAreaTerm
    norm_num

/-- Witness for C4 at the concrete triangle loop. -/
theorem C4_resolveLoop_ccw_witness :
    0 ≤ calculateLoopArea c4path ∧
    ∀ q : List HEdge, calculateLoopArea (reversePath q) = -(calculateLoopArea q) :=
  C4_resolveLoop_ccw c4loop c4path c4loop_resolves

/-! ### C5: the edge resolver never fails on type-1/2 loops -/

lemma normalizeEdge_some (e : RawEdge) (h : e.type = 1 ∨ e.type = 2) :
    ∃ he, normalizeEdge e = some he := by
  unfold normalizeEdge
  by_cases h1 : e.type = 1
  · rw [if_pos h1]
    exact ⟨_, rfl⟩
  · rcases h with h | h
    · exact absurd h h1
    · rw [if_neg h1, if_pos h]
      exact ⟨_, rfl⟩

lemma optionAll_length {β : Type} (l : List (Option β)) :
    ∀ ys, optionAll l = some ys → ys.length = l.length := by
  induction l with
  | nil =>
    intro ys h
    simp only [optionAll, Option.some.injEq] at h
    rw [← h]
    rfl
  | cons o rest ih =>
    intro ys h
    cases o with
    | none => rw [optionAll] at h; exact absurd h (by simp)
    | some b =>
      rw [optionAll] at h
      cases hrest : optionAll rest with
      | none => rw [hrest] at h; simp at h
      | some zs =>
        rw [hrest] at h
        simp only [Option.map_some', Option.some.injEq] at h
        subst h
        simp [ih zs hrest]

lemma optionAll_map_some {β γ : Type} (f : β → Option γ) (l : List β)
    (h : ∀ e ∈ l, ∃ y, f e = some y) :
    ∃ ys, optionAll (l.map f) = some ys := by
  induction l with
  | nil => exact ⟨[], rfl⟩
  | cons e rest ih =>
    obtain ⟨y, hy⟩ := h e (List.mem_cons_self e rest)
    obtain ⟨ys, hys⟩ := ih (fun x hx => h x (List.mem_cons_of_mem e hx))
    exact ⟨y :: ys, by simp [List.map_cons, hy, optionAll, hys]⟩

lemma bridgeStep_some (tipx tipy : ℝ) (used : Finset ℕ)
    (acc : Option (ℝ × ℕ × HEdge × Bool)) (q : ℕ × HEdge)
    (h : acc ≠ none ∨ q.1 ∉ used) :
    bridgeStep tipx tipy used acc q ≠ none := by
  unfold bridgeStep
  by_cases hu : q.1 ∈ used
  · rw [if_pos hu]
    rcases h with h | h
    · exact h
    · exact absurd hu h
  · rw [if_neg hu]
    cases acc with
    | none =>
      dsimp only
      split <;> simp
    | some a =>
      obtain ⟨m, r⟩ := a
      dsimp only
      by_cases hd : hdist q.2.x1 q.2.y1 tipx tipy < m
      · rw [if_pos hd]
        dsimp only
        split <;> simp
      · rw [if_neg hd]
        dsimp only
        split <;> simp

lemma bridgeScan_go (tipx tipy : ℝ) (used : Finset ℕ) :
    ∀ (l : List (ℕ × HEdge)) (acc : Option (ℝ × ℕ × HEdge × Bool)),
      (acc ≠ none ∨ ∃ p ∈ l, p.1 ∉ used) →
      l.foldl (bridgeStep tipx tipy used) acc ≠ none := by
  intro l
  induction l with
  | nil =>
    intro acc h
    rcases h with h | ⟨p, hp, _⟩
    · simpa using h
    · simp at hp
  | cons q rest ih =>
    intro acc h
    rw [List.foldl_cons]
    apply ih
    rcases h with h | ⟨p, hp, hpu⟩
    · exact Or.inl (bridgeStep_some tipx tipy used acc q (Or.inl h))
    · rcases List.mem_cons.1 hp with rfl | hmem
      · exact Or.inl (bridgeStep_some tipx tipy used acc p (Or.inr hpu))
      · exact Or.inr ⟨p, hmem, hpu⟩

lemma bridgeScan_ne_none (tipx tipy : ℝ) (used : Finset ℕ) (l : List (ℕ × HEdge))
    (h : ∃ p ∈ l, p.1 ∉ used) :
    bridgeScan tipx tipy used l ≠ none :=
  bridgeScan_go tipx tipy used l none (Or.inr h)

lemma exists_unused_index (n : ℕ) (used : Finset ℕ) (h : used.card < n) :
    ∃ i, i < n ∧ i ∉ used := by
  by_contra hc
  push_neg at hc
  have hsub : Finset.range n ⊆ used := fun i hi => hc i (Finset.mem_range.1 hi)
  have := Finset.card_le_card hsub
  simp only [Finset.card_range] at this
  omega

lemma mem_enum_of_lt {β : Type} {l : List β} {i : ℕ} (h : i < l.length) :
    (i, l[i]) ∈ l.enum := by
  rw [List.mk_mem_enum_iff_getElem?]
  exact List.getElem?_eq_getElem h

lemma stitchLoop_some (edges : List HEdge) (tol : ℝ) :
    ∀ (fuel : ℕ) (used : Finset ℕ) (path : List HEdge) (current : HEdge),
      edges.length ≤ fuel + path.length → used.card ≤ path.length →
      stitchLoop edges tol fuel used path current ≠ none := by
  intro fuel
  induction fuel with
  | zero =>
    intro used path current hfuel hcard
    rw [stitchLoop]
    rw [if_neg (by omega)]
    simp
  | succ fuel ih =>
    intro used path current hfuel hcard
    rw [stitchLoop]
    dsimp only
    by_cases hlt : path.length < edges.length
    · rw [if_pos hlt]
      have hub : ∃ p ∈ edges.enum, p.1 ∉ used := by
        obtain ⟨i, hi, hiu⟩ := exists_unused_index edges.length used (by omega)
        exact ⟨(i, edges[i]), mem_enum_of_lt hi, hiu⟩
      split
      · rename_i i e hfe
        apply ih
        · simp only [List.length_append, List.length_cons, List.length_nil]
          omega
        · have h1 := Finset.card_insert_le i used
          simp only [List.length_append, List.length_cons, List.length_nil]
          omega
      · rename_i hfe
        split
        · rename_i m i target toStart hbs
          apply ih
          · simp only [List.length_append, List.length_cons, List.length_nil]
            omega
          · have h1 := Finset.card_insert_le i used
            simp only [List.length_append, List.length_cons, List.length_nil]
            omega
        · rename_i hbs
          exact absurd hbs (bridgeScan_ne_none current.x2 current.y2 used edges.enum hub)
    · rw [if_neg hlt]
      simp

lemma stitchLoop_length (edges : List HEdge) (tol : ℝ) :
    ∀ (fuel : ℕ) (used : Finset ℕ) (path : List HEdge) (current : HEdge) (p : List HEdge),
      stitchLoop edges tol fuel used path current = some p → path.length ≤ p.length := by
  intro fuel
  induction fuel with
  | zero =>
    intro used path current p h
    rw [stitchLoop] at h
    split at h
    · simp at h
    · simp only [Option.some.injEq] at h
      subst h
      exact le_rfl
  | succ fuel ih =>
    intro used path current p h
    rw [stitchLoop] at h
    dsimp only at h
    split at h
    · split at h
      · have := ih _ _ _ _ h
        simp only [List.length_append, List.length_cons, List.length_nil] at this
        omega
      · split at h
        · have := ih _ _ _ _ h
          simp only [List.length_append, List.length_cons, List.length_nil] at this
          omega
        · simp at h
    · simp only [Option.some.injEq] at h
      subst h
      exact le_rfl

lemma normalizeWinding_isOk (p : List HEdge) : ∃ q, normalizeWinding p = .ok q := by
  unfold normalizeWinding
  split
  · exact ⟨_, rfl⟩
  · exact ⟨_, rfl⟩

lemma closeAndNormalize_ne_fail (tol : ℝ) (path : List HEdge) (h : path ≠ []) :
    ∃ q, closeAndNormalize tol path = .ok q := by
  cases path with
  | nil => exact absurd rfl h
  | cons f rest =>
    cases hg : (f :: rest).getLast? with
    | none =>
      rw [List.getLast?_eq_none_iff] at hg
      simp at hg
    | some last =>
      unfold closeAndNormalize
      rw [hg]
      dsimp only
      exact normalizeWinding_isOk _

/-- C5: for every edge-style hatch loop whose raw edges are all of type 1
(line) or type 2 (circular arc) and which has at least one edge,
`resolveEdgeLoop` succeeds: it returns `{ok: true, path}` for some path,
never `{ok: false}` — the stitcher bridges arbitrary gaps with synthetic
LINE edges and fails only when no unused edge remains, which cannot happen
while `path.length < edges.length`. -/
theorem C5_resolveEdgeLoop_ok (loop : HatchLoop)
    (hne : loop.edges ≠ [])
    (hty : ∀ e ∈ loop.edges, e.type = 1 ∨ e.type = 2) :
    ∃ path, resolveEdgeLoop loop = some (.ok path) := by
  obtain ⟨es, hes⟩ := optionAll_map_some normalizeEdge loop.edges
    (fun e he => normalizeEdge_some e (hty e he))
  have hlen : es.length = loop.edges.length := by
    have := optionAll_length (loop.edges.map normalizeEdge) es hes
    simpa using this
  have hesne : es ≠ [] := by
    intro hnil
    apply hne
    rw [hnil] at hlen
    exact List.length_eq_zero.1 hlen.symm
  obtain ⟨e0, rest, hcons⟩ := List.exists_cons_of_ne_nil hesne
  unfold resolveEdgeLoop
  rw [if_neg (by simp [List.isEmpty_iff, hne])]
  rw [hes]
  subst hcons
  dsimp only
  have hst := stitchLoop_some (e0 :: rest) (max (bboxDiag (e0 :: rest) * 1e-4) 1e-4)
    (e0 :: rest).length {0} [e0] e0 (by simp) (by simp)
  cases hsr : stitchLoop (e0 :: rest) (max (bboxDiag (e0 :: rest) * 1e-4) 1e-4)
      (e0 :: rest).length {0} [e0] e0 with
  | none => exact absurd hsr hst
  | some p =>
    dsimp only
    have hplen := stitchLoop_length (e0 :: rest) (max (bboxDiag (e0 :: rest) * 1e-4) 1e-4)
      (e0 :: rest).length {0} [e0] e0 p hsr
    have hpne : p ≠ [] := by
      intro hnil
      rw [hnil] at hplen
      simp at hplen
    obtain ⟨q, hq⟩ := closeAndNormalize_ne_fail
      (max (bboxDiag (e0 :: rest) * 1e-4) 1e-4) p hpne
    exact ⟨q, by rw [hq]⟩

/-- Witness for C5 at a concrete two-line loop with a 50-unit gap. -/
theorem C5_resolveEdgeLoop_ok_witness :
    c5loop.edges ≠ [] ∧ (∀ e ∈ c5loop.edges, e.type = 1 ∨ e.type = 2) ∧
    ∃ path, resolveEdgeLoop c5loop = some (.ok path) :=
  ⟨by simp [c5loop], by simp [c5loop],
   C5_resolveEdgeLoop_ok c5loop (by simp [c5loop]) (by simp [c5loop])⟩

end HatchBoundaryResolver

namespace WeightManager

lemma hypot_sub_comm (u v s t : ℝ) : hypot (u - v) (s - t) = hypot (v - u) (t - s) := by
  unfold hypot
  congr 1
  ring

lemma mec_pair_near (a b : Pt) (h : hypot (b.x - a.x) (b.y - a.y) ≤ 1e-6) :
    minimumEnclosingCircle [a, b] = some ⟨a.x, a.y, 0⟩ := by
  have hma : mecMiddle a [] = (⟨a.x, a.y, 0⟩ : Circle) := rfl
  have hc : circleContains ⟨a.x, a.y, 0⟩ b := by
    unfold circleContains
    dsimp only
    linarith
  unfold minimumEnclosingCircle
  rw [List.foldl_cons, List.foldl_cons, List.foldl_nil]
  unfold mecOuterStep
  dsimp only
  rw [hma, if_pos hc]

lemma mec_pair_far (a b : Pt) (h : ¬ hypot (b.x - a.x) (b.y - a.y) ≤ 1e-6) :
    minimumEnclosingCircle [a, b] = some (circleFrom2Points b a) := by
  have hma : mecMiddle a [] = (⟨a.x, a.y, 0⟩ : Circle) := rfl
  have hc1 : ¬ circleContains ⟨a.x, a.y, 0⟩ b := by
    unfold circleContains
    dsimp only
    intro hle
    exact h (by linarith)
  have hc2 : ¬ circleContains ⟨b.x, b.y, 0⟩ a := by
    unfold circleContains
    dsimp only
    rw [hypot_sub_comm]
    intro hle
    exact h (by linarith)
  have hm : mecMiddle b [a] = circleFrom2Points b a := by
    unfold mecMiddle
    rw [List.foldl_cons, List.foldl_nil]
    unfold mecMiddleStep
    dsimp only
    rw [if_neg hc2]
    rfl
  unfold minimumEnclosingCircle
  rw [List.foldl_cons, List.foldl_cons, List.foldl_nil]
  unfold mecOuterStep
  dsimp only
  rw [hma, if_neg hc1]
  rw [show ([] : List Pt) ++ [a] = [a] from rfl, hm]

lemma perm_pair_cases {β : Type} {a b : β} {l : List β} (h : List.Perm [a, b] l) :
    l = [a, b] ∨ l = [b, a] := by
  have hlen : l.length = 2 := by
    have := h.length_eq
    simpa using this.symm
  cases l with
  | nil => simp at hlen
  | cons c t =>
    cases t with
    | nil => simp at hlen
    | cons d t2 =>
      cases t2 with
      | cons e t3 => simp at hlen
      | nil =>
        have ha : a ∈ [c, d] := h.mem_iff.mp (by simp)
        rcases List.mem_cons.1 ha with rfl | had
        · have hbd : List.Perm [b] [d] := (List.perm_cons a).mp h
          have hbd2 : [b] = [d] := List.perm_singleton.mp hbd
          simp only [List.cons.injEq, and_true] at hbd2
          subst hbd2
          exact Or.inl rfl
        · have had2 : a = d := by simpa using had
          subst had2
          have h2 : List.Perm [a, b] [a, c] := h.trans (List.Perm.swap a c [])
          have hbc : List.Perm [b] [c] := (List.perm_cons a).mp h2
          have hbc2 : [b] = [c] := List.perm_singleton.mp hbc
          simp only [List.cons.injEq, and_true] at hbc2
          subst hbc2
          exact Or.inr rfl

lemma circleFrom2Points_comm (a b : Pt) : circleFrom2Points a b = circleFrom2Points b a := by
  unfold circleFrom2Points
  dsimp only
  simp only [Circle.mk.injEq]
  refine ⟨by ring, by ring, ?hr⟩
  unfold hypot
  congr 1
  ring

lemma dval_swap12 (a b c : Pt) : dval b a c = -(dval a b c) := by
  unfold dval
  ring

lemma dval_swap23 (a b c : Pt) : dval a c b = -(dval a b c) := by
  unfold dval
  ring

lemma dval_ne_zero {a b c : Pt} (hd : 1e-12 ≤ |dval a b c|) : dval a b c ≠ 0 := by
  intro h0
  rw [h0] at hd
  simp at hd
  linarith

set_option maxHeartbeats 1000000 in
lemma circum_equidistant (a b c : Pt) (hd : dval a b c ≠ 0) :
    (a.x - ((a.x * a.x + a.y * a.y) * (b.y - c.y) +
               (b.x * b.x + b.y * b.y) * (c.y - a.y) +
               (c.x * c.x + c.y * c.y) * (a.y - b.y)) / dval a b c) ^ 2 +
    (a.y - ((a.x * a.x + a.y * a.y) * (c.x - b.x) +
               (b.x * b.x + b.y * b.y) * (a.x - c.x) +
               (c.x * c.x + c.y * c.y) * (b.x - a.x)) / dval a b c) ^ 2
    = (b.x - ((a.x * a.x + a.y * a.y) * (b.y - c.y) +
               (b.x * b.x + b.y * b.y) * (c.y - a.y) +
               (c.x * c.x + c.y * c.y) * (a.y - b.y)) / dval a b c) ^ 2 +
      (b.y - ((a.x * a.x + a.y * a.y) * (c.x - b.x) +
               (b.x * b.x + b.y * b.y) * (a.x - c.x) +
               (c.x * c.x + c.y * c.y) * (b.x - a.x)) / dval a b c) ^ 2 := by
  unfold dval at *
  field_simp
  ring

set_option maxHeartbeats 1000000 in
lemma from3_swap12 (a b c : Pt) (hd : 1e-12 ≤ |dval a b c|) :
    circleFrom3Points b a c = circleFrom3Points a b c := by
  have hdne := dval_ne_zero hd
  unfold circleFrom3Points
  simp only [dval_swap12 a b c, abs_neg]
  rw [if_neg (not_lt.mpr hd), if_neg (not_lt.mpr hd)]
  have hux : ((b.x * b.x + b.y * b.y) * (a.y - c.y) +
               (a.x * a.x + a.y * a.y) * (c.y - b.y) +
               (c.x * c.x + c.y * c.y) * (b.y - a.y)) / -(dval a b c)
      = ((a.x * a.x + a.y * a.y) * (b.y - c.y) +
               (b.x * b.x + b.y * b.y) * (c.y - a.y) +
               (c.x * c.x + c.y * c.y) * (a.y - b.y)) / dval a b c := by
    rw [div_neg, ← neg_div]
    congr 1
    ring
  have huy : ((b.x * b.x + b.y * b.y) * (c.x - a.x) +
               (a.x * a.x + a.y * a.y) * (b.x - c.x) +
               (c.x * c.x + c.y * c.y) * (a.x - b.x)) / -(dval a b c)
      = ((a.x * a.x + a.y * a.y) * (c.x - b.x) +
               (b.x * b.x + b.y * b.y) * (a.x - c.x) +
               (c.x * c.x + c.y * c.y) * (b.x - a.x)) / dval a b c := by
    rw [div_neg, ← neg_div]
    congr 1
    ring
  rw [hux, huy]
  congr 1
  unfold hypot
  congr 1
  exact (circum_equidistant a b c hdne).symm

set_option maxHeartbeats 1000000 in
lemma from3_swap23 (a b c : Pt) (hd : 1e-12 ≤ |dval a b c|) :
    circleFrom3Points a c b = circleFrom3Points a b c := by
  unfold circleFrom3Points
  simp only [dval_swap23 a b c, abs_neg]
  rw [if_neg (not_lt.mpr hd), if_neg (not_lt.mpr hd)]
  have hux : ((a.x * a.x + a.y * a.y) * (c.y - b.y) +
               (c.x * c.x + c.y * c.y) * (b.y - a.y) +
               (b.x * b.x + b.y * b.y) * (a.y - c.y)) / -(dval a b c)
      = ((a.x * a.x + a.y * a.y) * (b.y - c.y) +
               (b.x * b.x + b.y * b.y) * (c.y - a.y) +
               (c.x * c.x + c.y * c.y) * (a.y - b.y)) / dval a b c := by
    rw [div_neg, ← neg_div]
    congr 1
    ring
  have huy : ((a.x * a.x + a.y * a.y) * (b.x - c.x) +
               (c.x * c.x + c.y * c.y) * (a.x - b.x) +
               (b.x * b.x + b.y * b.y) * (c.x - a.x)) / -(dval a b c)
      = ((a.x * a.x + a.y * a.y) * (c.x - b.x) +
               (b.x * b.x + b.y * b.y) * (a.x - c.x) +
               (c.x * c.x + c.y * c.y) * (b.x - a.x)) / dval a b c := by
    rw [div_neg, ← neg_div]
    congr 1
    ring
  rw [hux, huy]

lemma not_contains_pt {x y : Pt} (h : 1e-6 < hypot (y.x - x.x) (y.y - x.y)) :
    ¬ circleContains ⟨x.x, x.y, 0⟩ y := by
  unfold circleContains
  dsimp only
  intro hle
  linarith

lemma mec_triple (a b c : Pt)
    (c1 : ¬ circleContains ⟨a.x, a.y, 0⟩ b)
    (c2 : ¬ circleContains ⟨b.x, b.y, 0⟩ a)
    (c3 : ¬ circleContains (circleFrom2Points b a) c)
    (c4 : ¬ circleContains ⟨c.x, c.y, 0⟩ a)
    (c5 : ¬ circleContains (circleFrom2Points c a) b)
    (c6 : ¬ circleContains (circleFrom2Points c b) a) :
    minimumEnclosingCircle [a, b, c] = some (circleFrom3Points c b a) := by
  have hma : mecMiddle a [] = (⟨a.x, a.y, 0⟩ : Circle) := rfl
  have hmb : mecMiddle b [a] = circleFrom2Points b a := by
    unfold mecMiddle
    rw [List.foldl_cons, List.foldl_nil]
    unfold mecMiddleStep
    dsimp only
    rw [if_neg c2]
    rfl
  have hmc : mecMiddle c [a, b] = circleFrom3Points c b a := by
    unfold mecMiddle
    rw [List.foldl_cons, List.foldl_cons, List.foldl_nil]
    unfold mecMiddleStep
    dsimp only
    rw [if_neg c4]
    rw [show mecInner c a (circleFrom2Points c a) [] = circleFrom2Points c a from rfl]
    rw [if_neg c5]
    rw [show ([] : List Pt) ++ [a] = [a] from rfl]
    unfold mecInner
    rw [List.foldl_cons, List.foldl_nil]
    rw [if_neg c6]
  unfold minimumEnclosingCircle
  rw [List.foldl_cons, List.foldl_cons, List.foldl_cons, List.foldl_nil]
  unfold mecOuterStep
  dsimp only
  rw [hma, if_neg c1]
  rw [show ([] : List Pt) ++ [a] = [a] from rfl]
  rw [hmb]
  dsimp only
  rw [if_neg c3]
  rw [show ([a] : List Pt) ++ [b] = [a, b] from rfl]
  rw [hmc]

lemma perm_three_cases {β : Type} {a b c : β} {l : List β} (h : List.Perm l [a, b, c]) :
    l = [a, b, c] ∨ l = [a, c, b] ∨ l = [b, a, c] ∨
    l = [b, c, a] ∨ l = [c, a, b] ∨ l = [c, b, a] := by
  have hlen : l.length = 3 := by simpa using h.length_eq
  cases l with
  | nil => simp at hlen
  | cons x t =>
    cases t with
    | nil => simp at hlen
    | cons y t2 =>
      cases t2 with
      | nil => simp at hlen
      | cons z t3 =>
        cases t3 with
        | cons w t4 => simp at hlen
        | nil =>
          have hx : x ∈ [a, b, c] := h.mem_iff.mp (by simp)
          rcases List.mem_cons.1 hx with rfl | hx2
          · have h2 : List.Perm [y, z] [b, c] := (List.perm_cons x).mp h
            rcases perm_pair_cases h2.symm with h3 | h3 <;>
              simp only [List.cons.injEq, and_true] at h3
            · obtain ⟨rfl, rfl⟩ := h3
              exact Or.inl rfl
            · obtain ⟨rfl, rfl⟩ := h3
              exact Or.inr (Or.inl rfl)
          · rcases List.mem_cons.1 hx2 with rfl | hx3
            · have h4 := h.trans (List.Perm.swap x a [c])
              have h5 : List.Perm [y, z] [a, c] := (List.perm_cons x).mp h4
              rcases perm_pair_cases h5.symm with h6 | h6 <;>
                simp only [List.cons.injEq, and_true] at h6
              · obtain ⟨rfl, rfl⟩ := h6
                exact Or.inr (Or.inr (Or.inl rfl))
              · obtain ⟨rfl, rfl⟩ := h6
                exact Or.inr (Or.inr (Or.inr (Or.inl rfl)))
            · have hx4 : x = c := by simpa using hx3
              subst hx4
              have h7 := h.trans ((List.Perm.cons a (List.Perm.swap x b [])).trans
                (List.Perm.swap x a [b]))
              have h8 : List.Perm [y, z] [a, b] := (List.perm_cons x).mp h7
              rcases perm_pair_cases h8.symm with h9 | h9 <;>
                simp only [List.cons.injEq, and_true] at h9
              · obtain ⟨rfl, rfl⟩ := h9
                exact Or.inr (Or.inr (Or.inr (Or.inr (Or.inl rfl))))
              · obtain ⟨rfl, rfl⟩ := h9
                exact Or.inr (Or.inr (Or.inr (Or.inr (Or.inr rfl))))

lemma mec_short_perm (l l' : List Pt) (hp : List.Perm l l')
    (hlen : l.length ≤ 2)
    (hsep : ∀ p ∈ l, ∀ q ∈ l, p ≠ q → 1e-6 < hypot (p.x - q.x) (p.y - q.y)) :
    minimumEnclosingCircle l = minimumEnclosingCircle l' := by
  cases l with
  | nil =>
    have : l' = [] := List.perm_nil.mp hp.symm
    subst this
    rfl
  | cons a t =>
    cases t with
    | nil =>
      have : l' = [a] := List.perm_singleton.mp hp.symm
      subst this
      rfl
    | cons b t2 =>
      cases t2 with
      | cons c t3 => simp at hlen
      | nil =>
        rcases perm_pair_cases hp with rfl | h'
        · rfl
        · subst h'
          by_cases hab : a = b
          · subst hab
            rfl
          · have hd1 : 1e-6 < hypot (b.x - a.x) (b.y - a.y) :=
              hsep b (by simp) a (by simp) (Ne.symm hab)
            have hd2 : 1e-6 < hypot (a.x - b.x) (a.y - b.y) :=
              hsep a (by simp) b (by simp) hab
            rw [mec_pair_far a b (not_le.mpr hd1), mec_pair_far b a (not_le.mpr hd2)]
            exact congrArg some (circleFrom2Points_comm b a)

/-- C8 counterexample: two points at distance exactly `1e-6` (the
containment slack).  In order `[p8a, p8b]` the scan keeps the zero-radius
circle at `p8a` because `p8b` lies exactly on the slack boundary; in the
swapped order it keeps the zero-radius circle at `p8b`.  The two orders are
Fisher-Yates shuffle outcomes of the same input set yet give different
centers, refuting shuffle-independence. -/
theorem C8_mec_counterexample :
    List.Perm [p8a, p8b] [p8b, p8a] ∧
    minimumEnclosingCircle [p8a, p8b] ≠ minimumEnclosingCircle [p8b, p8a] := by
  constructor
  · exact List.Perm.swap p8b p8a []
  · have e1 : hypot (p8b.x - p8a.x) (p8b.y - p8a.y) ≤ 1e-6 := by
      rw [show p8b.x = (1e-6:ℝ) from rfl, show p8a.x = (0:ℝ) from rfl,
          show p8b.y = (0:ℝ) from rfl, show p8a.y = (0:ℝ) from rfl]
      unfold hypot
      rw [show ((1e-6:ℝ) - 0) ^ 2 + (0 - 0) ^ 2 = (1e-6 : ℝ) ^ 2 by norm_num]
      rw [Real.sqrt_sq (by norm_num)]
    have e2 : hypot (p8a.x - p8b.x) (p8a.y - p8b.y) ≤ 1e-6 := by
      rw [hypot_sub_comm]
      exact e1
    rw [mec_pair_near p8a p8b e1, mec_pair_near p8b p8a e2]
    intro hcontra
    simp only [Option.some.injEq, Circle.mk.injEq] at hcontra
    obtain ⟨h1, -, -⟩ := hcontra
    rw [show p8a.x = (0:ℝ) from rfl, show p8b.x = (1e-6:ℝ) from rfl] at h1
    norm_num at h1

/-- C8 amended: the circle returned by `minimumEnclosingCircle` can depend
on the shuffle outcome when a point lies exactly on a candidate circle's
`1e-6` containment slack (the counterexample: two points at distance exactly
`1e-6` yield the zero-radius circle centered at whichever point the shuffle
places first); away from the slack the scan is shuffle-independent: (1) for
any three points whose pairwise distances exceed the slack, where no point
lies within the slack of another pair's diametral circle, and whose
collinearity determinant clears the `1e-12` guard, every one of the six
shuffle outcomes returns the same circumcircle — in particular three such
points on a circle of radius `R` always return radius `R` exactly — and
(2) any two points separated by more than the slack give the same circle in
both orders. -/
theorem C8_mec_perm_amended :
    (∀ a b c : Pt,
      1e-6 < hypot (a.x - b.x) (a.y - b.y) →
      1e-6 < hypot (a.x - c.x) (a.y - c.y) →
      1e-6 < hypot (b.x - c.x) (b.y - c.y) →
      ¬ circleContains (circleFrom2Points a b) c →
      ¬ circleContains (circleFrom2Points a c) b →
      ¬ circleContains (circleFrom2Points b c) a →
      1e-12 ≤ |dval a b c| →
      ∀ l : List Pt, List.Perm l [a, b, c] →
        minimumEnclosingCircle l = some (circleFrom3Points a b c)) ∧
    (∀ l l' : List Pt, List.Perm l l' → l.length ≤ 2 →
      (∀ p ∈ l, ∀ q ∈ l, p ≠ q → 1e-6 < hypot (p.x - q.x) (p.y - q.y)) →
      minimumEnclosingCircle l = minimumEnclosingCircle l') := by
  constructor
  · intro a b c hab hac hbc nab nac nbc hd l hl
    have hba : 1e-6 < hypot (b.x - a.x) (b.y - a.y) := by
      rw [hypot_sub_comm]
      exact hab
    have hca : 1e-6 < hypot (c.x - a.x) (c.y - a.y) := by
      rw [hypot_sub_comm]
      exact hac
    have hcb : 1e-6 < hypot (c.x - b.x) (c.y - b.y) := by
      rw [hypot_sub_comm]
      exact hbc
    have n_ab : ¬ circleContains ⟨a.x, a.y, 0⟩ b := not_contains_pt hba
    have n_ba : ¬ circleContains ⟨b.x, b.y, 0⟩ a := not_contains_pt hab
    have n_ac : ¬ circleContains ⟨a.x, a.y, 0⟩ c := not_contains_pt hca
    have n_ca : ¬ circleContains ⟨c.x, c.y, 0⟩ a := not_contains_pt hac
    have n_bc : ¬ circleContains ⟨b.x, b.y, 0⟩ c := not_contains_pt hcb
    have n_cb : ¬ circleContains ⟨c.x, c.y, 0⟩ b := not_contains_pt hbc
    have f_ab_c := nab
    have f_ba_c : ¬ circleContains (circleFrom2Points b a) c := by
      rw [circleFrom2Points_comm b a]
      exact nab
    have f_ac_b := nac
    have f_ca_b : ¬ circleContains (circleFrom2Points c a) b := by
      rw [circleFrom2Points_comm c a]
      exact nac
    have f_bc_a := nbc
    have f_cb_a : ¬ circleContains (circleFrom2Points c b) a := by
      rw [circleFrom2Points_comm c b]
      exact nbc
    have hd1 : 1e-12 ≤ |dval a c b| := by
      rw [dval_swap23 a b c, abs_neg]
      exact hd
    have hd2 : 1e-12 ≤ |dval b a c| := by
      rw [dval_swap12 a b c, abs_neg]
      exact hd
    have hd3 : 1e-12 ≤ |dval b c a| := by
      rw [dval_swap23 b a c, abs_neg, dval_swap12 a b c, abs_neg]
      exact hd
    have e_bac : circleFrom3Points b a c = circleFrom3Points a b c :=
      from3_swap12 a b c hd
    have e_acb : circleFrom3Points a c b = circleFrom3Points a b c :=
      from3_swap23 a b c hd
    have e_bca : circleFrom3Points b c a = circleFrom3Points a b c :=
      (from3_swap23 b a c hd2).trans e_bac
    have e_cab : circleFrom3Points c a b = circleFrom3Points a b c :=
      (from3_swap12 a c b hd1).trans e_acb
    have e_cba : circleFrom3Points c b a = circleFrom3Points a b c :=
      (from3_swap12 b c a hd3).trans e_bca
    rcases perm_three_cases hl with rfl | rfl | rfl | rfl | rfl | rfl
    · rw [mec_triple a b c n_ab n_ba f_ba_c n_ca f_ca_b f_cb_a, e_cba]
    · rw [mec_triple a c b n_ac n_ca f_ca_b n_ba f_ba_c f_bc_a, e_bca]
    · rw [mec_triple b a c n_ba n_ab f_ab_c n_cb f_cb_a f_ca_b, e_cab]
    · rw [mec_triple b c a n_bc n_cb f_cb_a n_ab f_ab_c f_ac_b, e_acb]
    · rw [mec_triple c a b n_ca n_ac f_ac_b n_bc f_bc_a f_ba_c, e_bac]
    · rw [mec_triple c b a n_cb n_bc f_bc_a n_ac f_ac_b f_ab_c]
  · exact mec_short_perm

lemma hypot_val (dx dy r : ℝ) (hr : 0 ≤ r) (h : dx ^ 2 + dy ^ 2 = r ^ 2) :
    hypot dx dy = r := by
  unfold hypot
  rw [h, Real.sqrt_sq hr]

/-- Witness for the amended C8 statement: the acute triangle `(3,4)`,
`(-3,4)`, `(0,-5)` inscribed in the circle of radius 5 satisfies every
general-position hypothesis, and two distinct shuffle outcomes of the
three-point scan both return exactly the circumcircle `(0,0)`, radius `5`;
the separated pair `(0,0)`, `(1,0)` exercises the two-point part. -/
theorem C8_mec_perm_amended_witness :
    (1e-6 < hypot (q8a.x - q8b.x) (q8a.y - q8b.y)) ∧
    (1e-6 < hypot (q8a.x - q8c.x) (q8a.y - q8c.y)) ∧
    (1e-6 < hypot (q8b.x - q8c.x) (q8b.y - q8c.y)) ∧
    ¬ circleContains (circleFrom2Points q8a q8b) q8c ∧
    ¬ circleContains (circleFrom2Points q8a q8c) q8b ∧
    ¬ circleContains (circleFrom2Points q8b q8c) q8a ∧
    1e-12 ≤ |dval q8a q8b q8c| ∧
    minimumEnclosingCircle [q8b, q8c, q8a] = some ⟨0, 0, 5⟩ ∧
    minimumEnclosingCircle [q8c, q8a, q8b] = some ⟨0, 0, 5⟩ ∧
    minimumEnclosingCircle [w8a, w8b] = minimumEnclosingCircle [w8b, w8a] := by
  have W1 : (1e-6:ℝ) < hypot (q8a.x - q8b.x) (q8a.y - q8b.y) := by
    unfold hypot
    rw [show (q8a.x - q8b.x) ^ 2 + (q8a.y - q8b.y) ^ 2 = (36:ℝ) by norm_num [q8a, q8b]]
    exact (Real.lt_sqrt (by norm_num)).mpr (by norm_num)
  have W2 : (1e-6:ℝ) < hypot (q8a.x - q8c.x) (q8a.y - q8c.y) := by
    unfold hypot
    rw [show (q8a.x - q8c.x) ^ 2 + (q8a.y - q8c.y) ^ 2 = (90:ℝ) by norm_num [q8a, q8c]]
    exact (Real.lt_sqrt (by norm_num)).mpr (by norm_num)
  have W3 : (1e-6:ℝ) < hypot (q8b.x - q8c.x) (q8b.y - q8c.y) := by
    unfold hypot
    rw [show (q8b.x - q8c.x) ^ 2 + (q8b.y - q8c.y) ^ 2 = (90:ℝ) by norm_num [q8b, q8c]]
    exact (Real.lt_sqrt (by norm_num)).mpr (by norm_num)
  have W4 : ¬ circleContains (circleFrom2Points q8a q8b) q8c := by
    unfold circleContains circleFrom2Points
    dsimp only
    rw [hypot_val (q8c.x - (q8a.x + q8b.x) / 2) (q8c.y - (q8a.y + q8b.y) / 2) 9
      (by norm_num) (by norm_num [q8a, q8b, q8c])]
    rw [hypot_val (q8a.x - (q8a.x + q8b.x) / 2) (q8a.y - (q8a.y + q8b.y) / 2) 3
      (by norm_num) (by norm_num [q8a, q8b])]
    norm_num
  have W5 : ¬ circleContains (circleFrom2Points q8a q8c) q8b := by
    unfold circleContains circleFrom2Points hypot
    dsimp only
    rw [show (q8b.x - (q8a.x + q8c.x) / 2) ^ 2 + (q8b.y - (q8a.y + q8c.y) / 2) ^ 2
        = (40.5:ℝ) by norm_num [q8a, q8b, q8c]]
    rw [show (q8a.x - (q8a.x + q8c.x) / 2) ^ 2 + (q8a.y - (q8a.y + q8c.y) / 2) ^ 2
        = (22.5:ℝ) by norm_num [q8a, q8c]]
    intro hle
    have h1 : Real.sqrt 22.5 < 4.75 := (Real.sqrt_lt' (by norm_num)).mpr (by norm_num)
    have h2 : (6.3:ℝ) < Real.sqrt 40.5 := (Real.lt_sqrt (by norm_num)).mpr (by norm_num)
    linarith
  have W6 : ¬ circleContains (circleFrom2Points q8b q8c) q8a := by
    unfold circleContains circleFrom2Points hypot
    dsimp only
    rw [show (q8a.x - (q8b.x + q8c.x) / 2) ^ 2 + (q8a.y - (q8b.y + q8c.y) / 2) ^ 2
        = (40.5:ℝ) by norm_num [q8a, q8b, q8c]]
    rw [show (q8b.x - (q8b.x + q8c.x) / 2) ^ 2 + (q8b.y - (q8b.y + q8c.y) / 2) ^ 2
        = (22.5:ℝ) by norm_num [q8b, q8c]]
    intro hle
    have h1 : Real.sqrt 22.5 < 4.75 := (Real.sqrt_lt' (by norm_num)).mpr (by norm_num)
    have h2 : (6.3:ℝ) < Real.sqrt 40.5 := (Real.lt_sqrt (by norm_num)).mpr (by norm_num)
    linarith
  have W7 : (1e-12:ℝ) ≤ |dval q8a q8b q8c| := by
    rw [show dval q8a q8b q8c = (108:ℝ) by norm_num [dval, q8a, q8b, q8c]]
    norm_num
  have W8 : circleFrom3Points q8a q8b q8c = ⟨0, 0, 5⟩ := by
    unfold circleFrom3Points
    rw [if_neg (by
      rw [show dval q8a q8b q8c = (108:ℝ) by norm_num [dval, q8a, q8b, q8c]]
      norm_num)]
    dsimp only
    have hux : ((q8a.x * q8a.x + q8a.y * q8a.y) * (q8b.y - q8c.y) +
        (q8b.x * q8b.x + q8b.y * q8b.y) * (q8c.y - q8a.y) +
        (q8c.x * q8c.x + q8c.y * q8c.y) * (q8a.y - q8b.y)) / dval q8a q8b q8c
        = (0:ℝ) := by
      norm_num [q8a, q8b, q8c, dval]
    have huy : ((q8a.x * q8a.x + q8a.y * q8a.y) * (q8c.x - q8b.x) +
        (q8b.x * q8b.x + q8b.y * q8b.y) * (q8a.x - q8c.x) +
        (q8c.x * q8c.x + q8c.y * q8c.y) * (q8b.x - q8a.x)) / dval q8a q8b q8c
        = (0:ℝ) := by
      norm_num [q8a, q8b, q8c, dval]
    rw [hux, huy]
    rw [hypot_val (q8a.x - 0) (q8a.y - 0) 5 (by norm_num) (by norm_num [q8a])]
  have hp1 : List.Perm [q8b, q8c, q8a] [q8a, q8b, q8c] :=
    (List.Perm.cons q8b (List.Perm.swap q8a q8c [])).trans
      (List.Perm.swap q8a q8b [q8c])
  have hp2 : List.Perm [q8c, q8a, q8b] [q8a, q8b, q8c] :=
    (List.Perm.swap q8a q8c [q8b]).trans
      (List.Perm.cons q8a (List.Perm.swap q8b q8c []))
  have h1 : hypot ((1:ℝ) - 0) (0 - 0) = 1 := by
    unfold hypot
    rw [show ((1:ℝ) - 0) ^ 2 + (0 - 0) ^ 2 = 1 by norm_num]
    exact Real.sqrt_one
  have h2 : hypot ((0:ℝ) - 1) (0 - 0) = 1 := by
    unfold hypot
    rw [show ((0:ℝ) - 1) ^ 2 + (0 - 0) ^ 2 = 1 by norm_num]
    exact Real.sqrt_one
  have hperm : List.Perm [w8a, w8b] [w8b, w8a] := List.Perm.swap w8b w8a []
  have hlen : ([w8a, w8b] : List Pt).length ≤ 2 := by simp
  have hsep : ∀ p ∈ [w8a, w8b], ∀ q ∈ [w8a, w8b], p ≠ q →
      1e-6 < hypot (p.x - q.x) (p.y - q.y) := by
    intro p hp q hq hne
    simp only [List.mem_cons, List.not_mem_nil, or_false] at hp hq
    rcases hp with rfl | rfl <;> rcases hq with rfl | rfl
    · exact absurd rfl hne
    · rw [show w8a.x = (0:ℝ) from rfl, show w8b.x = (1:ℝ) from rfl,
          show w8a.y = (0:ℝ) from rfl, show w8b.y = (0:ℝ) from rfl, h2]
      norm_num
    · rw [show w8a.x = (0:ℝ) from rfl, show w8b.x = (1:ℝ) from rfl,
          show w8a.y = (0:ℝ) from rfl, show w8b.y = (0:ℝ) from rfl, h1]
      norm_num
    · exact absurd rfl hne
  refine ⟨W1, W2, W3, W4, W5, W6, W7, ?m1, ?m2, ?mp⟩
  case m1 =>
    rw [C8_mec_perm_amended.1 q8a q8b q8c W1 W2 W3 W4 W5 W6 W7 [q8b, q8c, q8a] hp1, W8]
  case m2 =>
    rw [C8_mec_perm_amended.1 q8a q8b q8c W1 W2 W3 W4 W5 W6 W7 [q8c, q8a, q8b] hp2, W8]
  case mp =>
    exact C8_mec_perm_amended.2 [w8a, w8b] [w8b, w8a] hperm hlen hsep


end WeightManager

namespace DXFParser

/-- C9: the claim that `parse` retains no state between calls is false in
the code — the constructor initialises `this.entities` once and `parse`
only appends.  Parsing the same one-POINT document twice on one instance
yields two entities, while a fresh instance yields one, so the second call
does not return the same `entities` as a fresh parse of the same content. -/
theorem C9_parse_retains_state :
    (parseDXF c9doc freshState).entities.map PEntity.type = ["POINT"] ∧
    (parseDXF c9doc (parseDXF c9doc freshState)).entities.map PEntity.type
      = ["POINT", "POINT"] ∧
    (parseDXF c9doc (parseDXF c9doc freshState)).entities.length
      ≠ (parseDXF c9doc freshState).entities.length := by
  refine ⟨by decide, by decide, by decide⟩

end DXFParser

namespace DXFViewerApp

lemma sorted_max_info (areas : List ℝ) (h2 : 2 ≤ areas.length) :
    ∃ M rest, areas.insertionSort areaOrd = M :: rest ∧ M ∈ areas ∧
      (∀ a ∈ areas, a ≤ M) ∧ rest.sum = areas.sum - M ∧
      rest.length + 1 = areas.length := by
  have hperm := List.perm_insertionSort areaOrd areas
  have hsorted := List.sorted_insertionSort areaOrd areas
  cases hs : areas.insertionSort areaOrd with
  | nil =>
    rw [hs] at hperm
    have := hperm.length_eq
    simp at this
    omega
  | cons M rest =>
    rw [hs] at hperm hsorted
    refine ⟨M, rest, rfl, hperm.mem_iff.mp (by simp), ?hmax, ?hsum, ?hlen⟩
    case hmax =>
      intro a ha
      rcases List.mem_cons.1 (hperm.mem_iff.mpr ha) with rfl | hmem
      · exact le_refl a
      · exact (List.sorted_cons.mp hsorted).1 a hmem
    case hsum =>
      have := hperm.sum_eq
      simp only [List.sum_cons] at this
      linarith
    case hlen =>
      have := hperm.length_eq
      simpa using this

lemma calculateAreaLoops_multi (entities : List AppEntity)
    (h2 : 2 ≤ (areasOf entities).length) :
    ∃ M, M ∈ areasOf entities ∧ (∀ a ∈ areasOf entities, a ≤ M) ∧
      calculateAreaLoops entities = some (.multi
        (M - ((areasOf entities).sum - M)) (areasOf entities).length
        M ((areasOf entities).sum - M)) := by
  obtain ⟨M, rest, hs, hmem, hmax, hsum, hlen⟩ := sorted_max_info (areasOf entities) h2
  have hareas_ne : areasOf entities ≠ [] := by
    intro h0
    rw [h0] at h2
    simp at h2
  have hall_ne : allLoopsOf entities ≠ [] := by
    intro h0
    apply hareas_ne
    unfold areasOf
    rw [h0]
    rfl
  have hcomp_ne : findConnectedLoops entities ≠ [] := by
    intro h0
    apply hall_ne
    unfold allLoopsOf
    rw [h0]
    rfl
  refine ⟨M, hmem, hmax, ?_⟩
  unfold calculateAreaLoops
  rw [if_neg (by simpa [List.isEmpty_iff] using hcomp_ne),
      if_neg (by simpa [List.isEmpty_iff] using hall_ne),
      if_neg (by simpa [List.isEmpty_iff] using hareas_ne)]
  dsimp only
  rw [hs]
  rw [if_neg (by omega)]
  simp only [List.headD_cons, List.tail_cons, Option.some.injEq]
  rw [hsum]

/-- C6: for a selection that is a single CIRCLE, `calculateArea` returns the
bare number `π·r·r`; for any selection whose pipeline yields at least two
filtered loop areas, it returns the `{area, count, details}` object with
`count` the number of filtered areas and `area` the largest area minus the
sum of all the others — no containment check relates the smaller loops to
the largest. -/
theorem C6_calculateArea (entities : List AppEntity) :
    (∀ cx cy r, entities = [AppEntity.circle cx cy r] →
      calculateArea entities = some (AreaResult.num (π * r * r))) ∧
    (2 ≤ (areasOf entities).length →
      ∃ M, M ∈ areasOf entities ∧ (∀ a ∈ areasOf entities, a ≤ M) ∧
        calculateArea entities = some (AreaResult.multi
          (M - ((areasOf entities).sum - M)) (areasOf entities).length
          M ((areasOf entities).sum - M))) := by
  constructor
  · intro cx cy r h
    subst h
    rfl
  · intro h2
    obtain ⟨M, hmem, hmax, heq⟩ := calculateAreaLoops_multi entities h2
    refine ⟨M, hmem, hmax, ?_⟩
    rw [← heq]
    match entities, h2 with
    | [], h2 =>
      rw [show areasOf ([] : List AppEntity) = [] from rfl] at h2
      simp at h2
    | [e], h2 =>
      match e with
      | .circle cx cy r =>
        have : areasOf [AppEntity.circle cx cy r] = [] := rfl
        rw [this] at h2
        simp at h2
      | .line x1 y1 x2 y2 => rfl
      | .arc cx cy radius sa ea cc ccw => rfl
      | .polyline isLW vs fl cl => rfl
      | .other => rfl
    | e1 :: e2 :: tl, h2 => rfl

lemma c6t1_decompose :
    decomposeEntity c6t1 = some [c6s 0 0 1 0, c6s 1 0 0 1, c6s 0 1 0 0] := by
  norm_num [c6t1, c6v, c6s, decomposeEntity, List.range_succ, List.getD]

lemma c6t2_decompose :
    decomposeEntity c6t2 = some [c6s 10 10 11 10, c6s 11 10 10 11, c6s 10 11 10 10] := by
  norm_num [c6t2, c6v, c6s, decomposeEntity, List.range_succ, List.getD]

lemma c6t1_segments : segmentsOf [c6t1] = [c6s 0 0 1 0, c6s 1 0 0 1, c6s 0 1 0 0] := by
  simp [segmentsOf, c6t1_decompose]

lemma c6t2_segments :
    segmentsOf [c6t2] = [c6s 10 10 11 10, c6s 11 10 10 11, c6s 10 11 10 10] := by
  simp [segmentsOf, c6t2_decompose]

lemma c6t1_loops :
    extractAllLoopsSegs [c6s 0 0 1 0, c6s 1 0 0 1, c6s 0 1 0 0] ((0.01:ℝ) ^ 2)
      = [[c6v 0 0, c6v 1 0, c6v 0 1]] := by
  norm_num [extractAllLoopsSegs, pruneBridges, pruneStep, firstRev, isRevPair,
    ptMatchB, extractStep, buildChain, findNextSeg, revSeg, segToVtx,
    List.range_succ, List.enum, List.enumFrom, c6v, c6s]

lemma c6t2_loops :
    extractAllLoopsSegs [c6s 10 10 11 10, c6s 11 10 10 11, c6s 10 11 10 10] ((0.01:ℝ) ^ 2)
      = [[c6v 10 10, c6v 11 10, c6v 10 11]] := by
  norm_num [extractAllLoopsSegs, pruneBridges, pruneStep, firstRev, isRevPair,
    ptMatchB, extractStep, buildChain, findNextSeg, revSeg, segToVtx,
    List.range_succ, List.enum, List.enumFrom, c6v, c6s]

lemma c6t1_simple :
    decomposeComplexLoops ((0.15:ℝ) ^ 2) [c6v 0 0, c6v 1 0, c6v 0 1]
      = [[c6v 0 0, c6v 1 0, c6v 0 1]] := by
  norm_num [decomposeComplexLoops, decomposeGo, findPinch, vtxMatchB,
    List.range_succ, c6v]

lemma c6t2_simple :
    decomposeComplexLoops ((0.15:ℝ) ^ 2) [c6v 10 10, c6v 11 10, c6v 10 11]
      = [[c6v 10 10, c6v 11 10, c6v 10 11]] := by
  norm_num [decomposeComplexLoops, decomposeGo, findPinch, vtxMatchB,
    List.range_succ, c6v]

lemma c6t1_area : calculateGeometricArea [c6v 0 0, c6v 1 0, c6v 0 1] = 1 / 2 := by
  unfold calculateGeometricArea
  rw [if_neg (by norm_num)]
  dsimp only
  rw [show ([c6v 0 0, c6v 1 0, c6v 0 1].rotate 1) = [c6v 1 0, c6v 0 1, c6v 0 0] by
    rw [List.rotate_cons_succ, List.rotate_zero]
    rfl]
  norm_num [geomAreaTerm, c6v, abs_of_nonneg]

lemma c6t2_area : calculateGeometricArea [c6v 10 10, c6v 11 10, c6v 10 11] = 1 / 2 := by
  unfold calculateGeometricArea
  rw [if_neg (by norm_num)]
  dsimp only
  rw [show ([c6v 10 10, c6v 11 10, c6v 10 11].rotate 1)
      = [c6v 11 10, c6v 10 11, c6v 10 10] by
    rw [List.rotate_cons_succ, List.rotate_zero]
    rfl]
  norm_num [geomAreaTerm, c6v, abs_of_nonneg]

lemma c6_not_connected : connectedB c6t1 c6t2 = false := by
  norm_num [connectedB, epsOf, c6t1_decompose, c6t2_decompose, ptMatchB, c6s]

lemma c6_not_connected_rev : connectedB c6t2 c6t1 = false := by
  norm_num [connectedB, epsOf, c6t1_decompose, c6t2_decompose, ptMatchB, c6s]

lemma c6_components : findConnectedLoops [c6t1, c6t2] = [[c6t1], [c6t2]] := by
  unfold findConnectedLoops
  norm_num [dfsGo, adjOf, connectedIdx, c6_not_connected, c6_not_connected_rev,
    List.range_succ, List.filterMap]

lemma c6_areas : areasOf [c6t1, c6t2] = [1 / 2, 1 / 2] := by
  unfold areasOf allLoopsOf
  rw [c6_components]
  rw [List.foldl_cons, List.foldl_cons, List.foldl_nil]
  unfold extractAllLoops
  rw [c6t1_segments, c6t2_segments, c6t1_loops, c6t2_loops]
  rw [List.foldl_cons, List.foldl_nil, List.foldl_cons, List.foldl_nil]
  rw [c6t1_simple, c6t2_simple]
  simp only [List.nil_append, List.singleton_append, List.foldl_cons, List.foldl_nil]
  rw [c6t1_area, c6t2_area]
  norm_num

/-- Witness for C6 at two disconnected unit right triangles (areas 1/2 and
1/2): the pipeline yields two filtered areas and `calculateArea` returns the
profile object. -/
theorem C6_calculateArea_witness :
    2 ≤ (areasOf [c6t1, c6t2]).length ∧
    ∃ M, M ∈ areasOf [c6t1, c6t2] ∧ (∀ a ∈ areasOf [c6t1, c6t2], a ≤ M) ∧
      calculateArea [c6t1, c6t2] = some (AreaResult.multi
        (M - ((areasOf [c6t1, c6t2]).sum - M)) (areasOf [c6t1, c6t2]).length
        M ((areasOf [c6t1, c6t2]).sum - M)) := by
  have hlen : 2 ≤ (areasOf [c6t1, c6t2]).length := by
    rw [c6_areas]
    norm_num
  exact ⟨hlen, (C6_calculateArea [c6t1, c6t2]).2 hlen⟩

end DXFViewerApp
